import Mathlib

/-!
# calcRoiCovg: coverage of regions of interest in two BAMs

A shallow embedding of `calcRoiCovg.h` and `calcRoiCovg.c`.

Conventions of the embedding.

* A C string is the list of its characters before the terminating NUL.
* A C array is a total function from indices to values (`Nat → α`); the
  capacity of the buffers (`MAX_BP_CLASS_TYPES`, `MAX_BP_CLASS`,
  `MAX_BP_CLASS_TYPES_STRING_LEN`) is not part of the embedding.
* `uint32_t beg`, `uint32_t end`, `uint32_t bases` and the indices `pos - 1`,
  `pos + 1` are naturals below `2^32`; `--`, `++` and `-` on them wrap around
  (`dec32`, `inc32`, `sub32`). The `uint32_t` counters are naturals and `++`
  on them is `+ 1`, which is what the program computes while the counter is
  below `2^32 - 1`. The per-ROI counters count the columns of one pileup. The
  theorems on the genome-wide totals of a whole run carry a hypothesis that
  keeps the totals below `2^32` and state that bound for every point of the
  run.
* `int` thresholds are integers; a mapping quality is a natural (`uint8_t`
  bit-field, promoted to `int` in the comparison).
* The pileup provider (samtools `bam_fetch` + `bam_plbuf_push`) is the list
  of columns it hands to the callback, in order.
-/

set_option autoImplicit false

namespace CalcRoiCovg

/-! ## Machine integers -/

/-- Modulus of `uint32_t`. -/
def U32 : Nat := 4294967296

/-- The value of `--x` on a `uint32_t` (`x < 2^32`): 0 wraps to `2^32 - 1`. -/
def dec32 (x : Nat) : Nat := if x = 0 then 4294967295 else x - 1

/-- The value of `++x` on a `uint32_t` (`x < 2^32`): `2^32 - 1` wraps to 0. -/
def inc32 (x : Nat) : Nat := if x = 4294967295 then 0 else x + 1

/-- The value of `x - y` on `uint32_t` operands (`x, y < 2^32`). -/
def sub32 (x y : Nat) : Nat := if y ≤ x then x - y else x + 4294967296 - y

/-- Reinterpretation of a 32-bit pattern as an `int`. -/
def toInt32 (x : Nat) : Int :=
  if x % U32 < 2147483648 then ((x % U32 : Nat) : Int) else ((x % U32 : Nat) : Int) - 4294967296

/-- Conversion of an `int` to `unsigned` (`uint32_t`). -/
def uint32_of_int (i : Int) : Nat := (i % 4294967296).toNat

/-- The NUL character. -/
def NUL : Char := Char.ofNat 0

/-- Assignment `a[i] = v` on an array. -/
def arr_set {α : Type} (a : Nat → α) (i : Nat) (v : α) : Nat → α :=
  fun j => if j = i then v else a j

/-- Increment `++a[i]` on an array of counters. -/
def arr_incr (a : Nat → Nat) (i : Nat) : Nat → Nat :=
  fun j => if j = i then a j + 1 else a j

/-- C `toupper` in the "C" locale. -/
def toupper (c : Char) : Char := c.toUpper

/-! ## Data model (`calcRoiCovg.h`) -/

/-- One read observation of a pileup column: the fields of `bam_pileup1_t`
that the callbacks read (`is_del` and `b->core.qual`). -/
structure bam_pileup1_t where
  is_del : Bool
  qual : Nat
deriving DecidableEq

/-- One pileup column handed to a callback: `pos` and the `n` observations `pl`. -/
structure Column where
  pos : Nat
  pl : List bam_pileup1_t
deriving DecidableEq

/-- The shared state `pileup_data_t` (the file handles are left out). The
field `end_` is the C field `end`; `ref_seq = none` is the NULL pointer. -/
structure pileup_data_t where
  beg : Nat
  end_ : Nat
  min_mapq : Int
  min_depth_bam1 : Int
  min_depth_bam2 : Int
  bam1_cvg : Nat → Bool
  covd_bases : Nat
  base_cnt : Nat → Nat
  tot_covd_bases : Nat
  tot_base_cnt : Nat → Nat
  ref_seq : Option (List Char)
  bp_class : Nat → Nat
  bp_class_types : List Char
  bp_class_container : Nat → List Char
  bp_class_number : Nat
  bp_class_lengths : Nat → Nat
  unknown : Nat
  iub : Nat
  ref_id : Int
  ref_len : Int

/-! ## `getClass` -/

/-- `getClass(pre, mid, pos, container, length)`. -/
def getClass (pre mid pos : Char) (container : List Char) (length : Nat) : Bool :=
  if length = 2 then
    if mid = container.getD 0 NUL ∨ mid = container.getD 1 NUL then true else false
  else
    if (mid = container.getD 0 NUL ∧ pos = container.getD 2 NUL)
        ∨ (mid = container.getD 2 NUL ∧ pre = container.getD 0 NUL) then true else false

/-! ## The pileup callbacks -/

/-- The counting loop of both callbacks: `mapq_n` after the loop over the
`n` observations of a column. -/
def mapq_count (pl : List bam_pileup1_t) (min_mapq : Int) : Int :=
  pl.foldl
    (fun mapq_n base =>
      if !base.is_del && decide ((base.qual : Int) ≥ min_mapq) then mapq_n + 1 else mapq_n)
    0

/-- `pileup_func_1`: callback of the pileup on bam1. -/
def pileup_func_1 (pos : Nat) (pl : List bam_pileup1_t) (tmp : pileup_data_t) : pileup_data_t :=
  if pos ≥ tmp.beg ∧ pos < tmp.end_ then
    { tmp with
      bam1_cvg := arr_set tmp.bam1_cvg (pos - tmp.beg)
        (decide (mapq_count pl tmp.min_mapq ≥ tmp.min_depth_bam1)) }
  else tmp

/-- `tmp->ref_seq[i]`; past the sequence the string holds its terminating NUL. -/
def ref_at (tmp : pileup_data_t) (i : Nat) : Char :=
  match tmp.ref_seq with
  | none => NUL
  | some s => s.getD i NUL

/-- The loop `for (j=0; j<tmp->iub; ++j)` of `pileup_func_2` with its `break`,
followed by `if (!notiub) class = tmp->iub`: started at `j` with `fuel`
iterations left, it yields the final value of `class`. -/
def class_loop (prev_base base next_base : Char) (container : Nat → List Char)
    (lengths : Nat → Nat) (iub : Nat) : Nat → Nat → Nat
  | _, 0 => iub
  | j, fuel + 1 =>
    if getClass prev_base base next_base (container j) (lengths j) then j
    else class_loop prev_base base next_base container lengths iub (j + 1) fuel

/-- The class computed by `pileup_func_2` for a position whose cache entry is
`unknown`. -/
def classify (tmp : pileup_data_t) (pos : Nat) : Nat :=
  let base := toupper (ref_at tmp pos)
  let prev_base := toupper (ref_at tmp (dec32 pos))
  let next_base := toupper (ref_at tmp (inc32 pos))
  class_loop prev_base base next_base tmp.bp_class_container tmp.bp_class_lengths tmp.iub 0 tmp.iub

/-- `pileup_func_2`: callback of the pileup on bam2. -/
def pileup_func_2 (pos : Nat) (pl : List bam_pileup1_t) (tmp : pileup_data_t) : pileup_data_t :=
  if pos ≥ tmp.beg ∧ pos < tmp.end_ ∧ tmp.bam1_cvg (pos - tmp.beg) = true then
    if mapq_count pl tmp.min_mapq ≥ tmp.min_depth_bam2 then
      let cls := tmp.bp_class pos
      if cls = tmp.unknown then
        let cls := classify tmp pos
        { tmp with
          covd_bases := tmp.covd_bases + 1
          base_cnt := arr_incr tmp.base_cnt cls
          tot_covd_bases := tmp.tot_covd_bases + 1
          tot_base_cnt := arr_incr tmp.tot_base_cnt cls
          bp_class := arr_set tmp.bp_class pos cls }
      else
        { tmp with
          covd_bases := tmp.covd_bases + 1
          base_cnt := arr_incr tmp.base_cnt cls }
    else tmp
  else tmp

/-! ## `separateString` -/

/-- The local state of `separateString`: `buff1` holds the characters
`buff1[0..z)` written since `z` was last reset (so `z = buff1.length`), `y`
is the next free slot of `container`, `tokenNum` the running count. -/
structure sep_state where
  buff1 : List Char
  y : Nat
  tokenNum : Nat
  container : Nat → List Char

/-- The loop `for (x = 0; x < length; x++)` of `separateString`, by recursion
on the characters from `string[x]` on. With one character left,
`string[x + 1]` is the terminating NUL (first branch of the `if`); otherwise
`string[x + 1]` is the next character. -/
def sep_loop (c : Char) : List Char → sep_state → sep_state
  | [], st => st
  | [ch], st =>
    -- buff1[z] = string[x]; buff1[z + 1] = 0
    let tok := st.buff1 ++ [ch]
    if tok.length ≠ 0 then
      { st with container := arr_set st.container st.y tok, tokenNum := st.tokenNum + 1 }
    else st
  | ch :: nxt :: rest, st =>
    if ch ≠ c then
      -- buff1[z] = string[x]; z++
      let tok := st.buff1 ++ [ch]
      if nxt = c then
        -- buff1[z] = 0; z = 0
        if tok.length ≠ 0 then
          sep_loop c (nxt :: rest)
            { buff1 := [], y := st.y + 1, tokenNum := st.tokenNum + 1,
              container := arr_set st.container st.y tok }
        else sep_loop c (nxt :: rest) { st with buff1 := [] }
      else sep_loop c (nxt :: rest) { st with buff1 := tok }
    else sep_loop c (nxt :: rest) st

/-- `separateString(string, c, container)`: the returned `tokenNum` and the
contents of `container` afterwards. -/
def separateString (string : List Char) (c : Char) (container : Nat → List Char) :
    Nat × (Nat → List Char) :=
  let st := sep_loop c string { buff1 := [], y := 0, tokenNum := 0, container := container }
  (st.tokenNum, st.container)

/-! ## `main` (`calcRoiCovg.c`) -/

/-- The global `data` at program start: static storage is zero-initialised. -/
def data_zero : pileup_data_t :=
  { beg := 0, end_ := 0, min_mapq := 0, min_depth_bam1 := 0, min_depth_bam2 := 0,
    bam1_cvg := fun _ => false, covd_bases := 0, base_cnt := fun _ => 0,
    tot_covd_bases := 0, tot_base_cnt := fun _ => 0, ref_seq := none,
    bp_class := fun _ => 0, bp_class_types := [], bp_class_container := fun _ => [],
    bp_class_number := 0, bp_class_lengths := fun _ => 0, unknown := 0, iub := 0,
    ref_id := 0, ref_len := 0 }

/-- The default class list `"AT,CG,CpG"`. -/
def default_bp_class_types : List Char := ['A', 'T', ',', 'C', 'G', ',', 'C', 'p', 'G']

/-- The part of `main` before the ROI loop that touches `data`: defaults and
options (`min_mapq`, `min_depth_bam1`, `min_depth_bam2`, `bp_class_types` are
the values after `mGetOptions`), class-list parsing, the `IUB` and `UNKNOWN`
indices, pattern lengths and upper-casing, and the reset of the totals.
`heap` is the content of the freshly allocated `bp_class_container` buffers. -/
def main_config (min_mapq min_depth_bam1 min_depth_bam2 : Int) (bp_class_types : List Char)
    (heap : Nat → List Char) : pileup_data_t :=
  let data := { data_zero with ref_id := -1, ref_seq := none }
  let data := { data with min_mapq := min_mapq, min_depth_bam1 := min_depth_bam1,
                          min_depth_bam2 := min_depth_bam2, bp_class_types := bp_class_types }
  let sep := separateString data.bp_class_types ',' heap
  let data := { data with bp_class_number := sep.1, bp_class_container := sep.2 }
  let data := { data with iub := data.bp_class_number }
  let data := { data with unknown := data.iub + 1 }
  let data := { data with
    bp_class_lengths := fun i =>
      if i < data.bp_class_number then (data.bp_class_container i).length
      else data.bp_class_lengths i
    bp_class_container := fun i =>
      if i < data.bp_class_number then (data.bp_class_container i).map toupper
      else data.bp_class_container i }
  { data with
    tot_covd_bases := 0
    tot_base_cnt := fun i => if i ≤ data.bp_class_number then 0 else data.tot_base_cnt i }

/-- The external collaborators of the ROI loop: the header hash of bam1
(`kh_get` / `kh_value`: the target id of a reference name, if any) and the
sequence provider (`fai_fetch` of the target with that id). -/
structure Env where
  hdr_hash : String → Option Nat
  fai_fetch : Nat → List Char

/-- The outcome of `getline` + `sscanf(line, "%s %lu %lu %s", ...)` on one
line of the ROI file: four converted fields, or fewer. -/
inductive RoiLine where
  | fields4 (ref_name : String) (start stop : Nat) (gene_name : String)
  | badly_formatted
deriving DecidableEq

/-- One line of the ROI file together with the columns that the two pileups
yield when the line is processed. -/
structure RoiInput where
  line : RoiLine
  pileup1 : List Column
  pileup2 : List Column
deriving DecidableEq

/-- One ROI row of the report, as printed by the `fprintf` calls. -/
structure RoiRow where
  gene_name : String
  ref_name : String
  start1 : Nat
  stop : Nat
  bases : Nat
  covd_bases : Nat
  base_cnt : List Nat
deriving DecidableEq

/-- The two `%lu` conversions of the `sscanf` call. Each stores an
`unsigned long` (8 bytes on the LP64 little-endian targets of the program)
through a pointer to a 4-byte field; `beg`, `end` and `min_mapq` are
consecutive 4-byte members of `pileup_data_t`. The store at `&data.beg`
puts the low word in `beg` and the high word in `end`; the store at
`&data.end` puts the low word in `end` and the high word in `min_mapq`. -/
def sscanf_store (data : pileup_data_t) (start stop : Nat) : pileup_data_t :=
  let data := { data with beg := start % U32, end_ := (start / U32) % U32 }
  { data with end_ := stop % U32, min_mapq := toInt32 ((stop / U32) % U32) }

/-- The columns printed after `Covered`: `base_cnt[0 .. N-2]` by the loop,
then `base_cnt[N-1]` (for `N ≥ 1`). -/
def class_columns (cnt : Nat → Nat) (bp_class_number : Nat) : List Nat :=
  (List.range (bp_class_number - 1)).map cnt ++ [cnt (bp_class_number - 1)]

/-- The start of the `else` branch for a valid ROI: `--data.beg`, the reset
of `covd_bases` and of `base_cnt[0 .. N-1]`, and the `calloc` of the mask. -/
def roi_reset (data : pileup_data_t) : pileup_data_t :=
  let data := { data with beg := dec32 data.beg }
  let data := { data with
    covd_bases := 0
    base_cnt := fun i => if i < data.bp_class_number then 0 else data.base_cnt i }
  { data with bam1_cvg := fun _ => false }

/-- The block `if (data.ref_seq == NULL || ref_id != data.ref_id)`: the
reference of the chromosome is fetched and the class cache is set to
`unknown` throughout, unless the chromosome is the one already loaded. -/
def load_chromosome (env : Env) (data : pileup_data_t) (ref_id : Nat) : pileup_data_t :=
  if data.ref_seq.isNone ∨ (ref_id : Int) ≠ data.ref_id then
    { data with
      ref_seq := some (env.fai_fetch ref_id)
      ref_len := ((env.fai_fetch ref_id).length : Int)
      bp_class := fun _ => data.unknown
      ref_id := (ref_id : Int) }
  else data

/-- The chromosome-tip adjustment: `if (data.beg == 0) ++data.beg;
if (data.end == data.ref_len) --data.end;` (the `int` `ref_len` is converted
to `unsigned` for the comparison). -/
def tip_adjust (data : pileup_data_t) : pileup_data_t :=
  let data := { data with beg := if data.beg = 0 then inc32 data.beg else data.beg }
  { data with end_ := if data.end_ = uint32_of_int data.ref_len then dec32 data.end_ else data.end_ }

/-- The body of the `else` branch for a valid ROI, up to the pileups. -/
def roi_prepare (env : Env) (data : pileup_data_t) (ref_id : Nat) : pileup_data_t :=
  tip_adjust (load_chromosome env (roi_reset data) ref_id)

/-- `uint32_t bases = data.end - data.beg`, computed right after `--data.beg`. -/
def roi_bases (data : pileup_data_t) : Nat := sub32 data.end_ (dec32 data.beg)

/-- The pileup on bam1: `pileup_func_1` on every column, in order. -/
def run_pileup1 (cols : List Column) (data : pileup_data_t) : pileup_data_t :=
  cols.foldl (fun d c => pileup_func_1 c.pos c.pl d) data

/-- The pileup on bam2: `pileup_func_2` on every column, in order. -/
def run_pileup2 (cols : List Column) (data : pileup_data_t) : pileup_data_t :=
  cols.foldl (fun d c => pileup_func_2 c.pos c.pl d) data

/-- The state after a valid ROI has been processed (both pileups done). -/
def roi_process (env : Env) (data : pileup_data_t) (ref_id : Nat) (r : RoiInput) :
    pileup_data_t :=
  run_pileup2 r.pileup2 (run_pileup1 r.pileup1 (roi_prepare env data ref_id))

/-- The report row of a processed ROI: `data0` is the state after `sscanf`,
`data` the state after both pileups. -/
def roi_row (gene_name ref_name : String) (data0 data : pileup_data_t) : RoiRow :=
  { gene_name := gene_name, ref_name := ref_name,
    start1 := data.beg + 1, stop := data.end_, bases := roi_bases data0,
    covd_bases := data.covd_bases,
    base_cnt := class_columns data.base_cnt data.bp_class_number }

/-- The result of the ROI loop: final state, the ROI rows written so far, and
whether the loop was left by `return 1`. -/
structure LoopResult where
  data : pileup_data_t
  rows : List RoiRow
  returned1 : Bool

/-- The loop `while (getline(...) != -1)` of `main`. -/
def main_loop (env : Env) : List RoiInput → pileup_data_t → LoopResult
  | [], data => { data := data, rows := [], returned1 := false }
  | r :: rest, data =>
    match r.line with
    | .badly_formatted => { data := data, rows := [], returned1 := true }
    | .fields4 ref_name start stop gene_name =>
      let data0 := sscanf_store data start stop
      match env.hdr_hash ref_name with
      | none => main_loop env rest data0
      | some ref_id =>
        if data0.beg > data0.end_ then main_loop env rest data0
        else
          let data1 := roi_process env data0 ref_id r
          let res := main_loop env rest data1
          { res with rows := roi_row gene_name ref_name data0 data1 :: res.rows }

/-- What a run writes and returns: the ROI rows, the `#NonOverlappingTotals`
row if it is written (covered total and per-class columns), and the exit
status. -/
structure MainResult where
  rows : List RoiRow
  totals : Option (Nat × List Nat)
  status : Nat
  data : pileup_data_t

/-- `main` from the configuration on (all resources opened successfully). -/
def main (env : Env) (min_mapq min_depth_bam1 min_depth_bam2 : Int)
    (bp_class_types : List Char) (heap : Nat → List Char) (rois : List RoiInput) : MainResult :=
  let res := main_loop env rois
    (main_config min_mapq min_depth_bam1 min_depth_bam2 bp_class_types heap)
  if res.returned1 then
    { rows := res.rows, totals := none, status := 1, data := res.data }
  else
    { rows := res.rows,
      totals := some (res.data.tot_covd_bases,
        class_columns res.data.tot_base_cnt res.data.bp_class_number),
      status := 0, data := res.data }

/-! ## Concrete inputs used to exercise the theorems -/

/-- A read observation that is not a deletion, with the given mapping quality. -/
def obs (qual : Nat) : bam_pileup1_t := { is_del := false, qual := qual }

/-- A column of `depth` non-deletion reads of mapping quality `qual` at `pos`. -/
def uniform_column (depth qual pos : Nat) : Column :=
  { pos := pos, pl := List.replicate depth (obs qual) }

/-- A state in the middle of an ROI `[1,4)` on the reference `ACGTN` with the
default class list: the mask is set at positions 1 and 2, nothing is cached. -/
def sample_state : pileup_data_t :=
  { main_config 20 6 8 default_bp_class_types (fun _ => []) with
    beg := 1, end_ := 4,
    bam1_cvg := fun i => decide (i < 2),
    ref_seq := some ['A', 'C', 'G', 'T', 'N'], ref_len := 5, ref_id := 0,
    bp_class := fun _ => 4 }

/-! ## Notions used to state the properties -/

/-- The test that `pileup_func_2` makes on a column before it counts it:
position inside `[beg,end)`, mask set by the bam1 pileup, and the bam2 depth
gate. -/
def passes2 (tmp : pileup_data_t) (c : Column) : Bool :=
  decide (c.pos ≥ tmp.beg ∧ c.pos < tmp.end_ ∧ tmp.bam1_cvg (c.pos - tmp.beg) = true) &&
    decide (mapq_count c.pl tmp.min_mapq ≥ tmp.min_depth_bam2)

/-- The columns of a bam2 pileup that are counted as covered. -/
def covered_cols (tmp : pileup_data_t) (cols : List Column) : List Column :=
  cols.filter (passes2 tmp)

/-- The state with its counters and its class cache blanked: what is left is
the part that `pileup_func_2` only reads. -/
def static_part (d : pileup_data_t) : pileup_data_t :=
  { d with covd_bases := 0, base_cnt := fun _ => 0, tot_covd_bases := 0,
           tot_base_cnt := fun _ => 0, bp_class := fun _ => 0 }

/-- Every entry of the class cache is `unknown` or the class that the class
loop computes for that position on the loaded reference. -/
def CacheOK (d : pileup_data_t) : Prop :=
  ∀ p, d.bp_class p = d.unknown ∨ d.bp_class p = classify d p

/-- The state with everything blanked except the depth thresholds and the
class configuration: the part that the ROI loop never changes. -/
def cfg_part (d : pileup_data_t) : pileup_data_t :=
  { static_part d with beg := 0, end_ := 0, min_mapq := 0, bam1_cvg := fun _ => false,
                       ref_seq := none, ref_id := 0, ref_len := 0 }

/-- Either no chromosome has been loaded yet, or the loaded reference is the
one of the chromosome `ref_id` and the class cache is consistent with it. -/
def Loaded (env : Env) (d : pileup_data_t) : Prop :=
  d.ref_seq = none ∨
    ∃ id : Nat, d.ref_id = (id : Int) ∧ d.ref_seq = some (env.fai_fetch id) ∧
      d.ref_len = ((env.fai_fetch id).length : Int) ∧ CacheOK d

/-- The invariant of the ROI loop relative to the configured state `cfg`:
thresholds and class configuration are the configured ones, and the loaded
chromosome (if any) is consistent with its cache. -/
def LoopInv (env : Env) (cfg d : pileup_data_t) : Prop :=
  cfg_part d = cfg_part cfg ∧ Loaded env d

/-- A header with the single target `chr1` (id 0) whose reference is
`GACNTACGTACA` (12 bases, an `N` at position 3). -/
def demo_env : Env :=
  { hdr_hash := fun name => if name = "chr1" then some 0 else none,
    fai_fetch := fun _ => ['G', 'A', 'C', 'N', 'T', 'A', 'C', 'G', 'T', 'A', 'C', 'A'] }

/-- The columns of a pileup with `depth` reads of quality `qual` at every
position `0 .. len-1`. -/
def uniform_pileup (depth qual len : Nat) : List Column :=
  (List.range len).map (uniform_column depth qual)

/-- A well-formed record `chr1 start stop gene` with uniform pileups (depth 10,
mapping quality 30) over the 12 bases of `chr1` in both samples. -/
def demo_roi (start stop : Nat) : RoiInput :=
  { line := RoiLine.fields4 "chr1" start stop "gene",
    pileup1 := uniform_pileup 10 30 12, pileup2 := uniform_pileup 10 30 12 }

/-- A line that `sscanf` does not convert into four fields. -/
def bad_roi : RoiInput :=
  { line := RoiLine.badly_formatted, pileup1 := [], pileup2 := [] }

/-- The state before an ROI of `chr1` with record `start stop` is processed by
a fresh run with the default configuration (after `sscanf`). -/
def demo_start (start stop : Nat) : pileup_data_t :=
  sscanf_store (main_config 20 6 8 default_bp_class_types (fun _ => [])) start stop

/-- The state after the uniform bam1 pileup of the ROI `3 6` of `chr1`. -/
def demo_view : pileup_data_t :=
  run_pileup1 (uniform_pileup 10 30 12) (roi_prepare demo_env (demo_start 3 6) 0)

/-- The state with which the bam2 pileup of an ROI starts when a run from the
configured state `cfg` processes the record `start stop` on chromosome `id`
with the bam1 columns `cols1`. -/
def roi_view (env : Env) (cfg : pileup_data_t) (id start stop : Nat) (cols1 : List Column) :
    pileup_data_t :=
  run_pileup1 cols1 (roi_prepare env (sscanf_store cfg start stop) id)

/-- The number of counted columns of an ROI whose position matches none of
the configured classes (class `IUB`, counted in `base_cnt[N]`). -/
def iub_hits (V : pileup_data_t) (cols2 : List Column) : Nat :=
  (covered_cols V cols2).countP (fun c => decide (classify V c.pos = V.iub))

/-- The chromosome ids of the valid records of the ROI file, in order, up to
the first badly formatted line. -/
def roi_chroms (env : Env) : List RoiInput → List Nat
  | [] => []
  | r :: rest =>
    match r.line with
    | .badly_formatted => []
    | .fields4 ref_name start stop _ =>
      match env.hdr_hash ref_name with
      | none => roi_chroms env rest
      | some id =>
        if start % 4294967296 > stop % 4294967296 then roi_chroms env rest
        else id :: roi_chroms env rest

/-- The (chromosome, position) pairs counted as covered in the ROIs of a run
from the configured state `cfg`: for every valid record, the positions of the
bam2 columns that pass the column test of that ROI. -/
def covered_pairs (env : Env) (cfg : pileup_data_t) : List RoiInput → List (Nat × Nat)
  | [] => []
  | r :: rest =>
    match r.line with
    | .badly_formatted => []
    | .fields4 ref_name start stop _ =>
      match env.hdr_hash ref_name with
      | none => covered_pairs env cfg rest
      | some id =>
        if start % 4294967296 > stop % 4294967296 then covered_pairs env cfg rest
        else
          (covered_cols (roi_view env cfg id start stop r.pileup1) r.pileup2).map
              (fun c => (id, c.pos))
            ++ covered_pairs env cfg rest

/-- All occurrences of every chromosome are consecutive: after the leading
run of the first element, that element does not occur again, and so on. -/
def grouped : List Nat → Bool
  | [] => true
  | a :: l => !(l.dropWhile (fun b => b == a)).contains a && grouped l

/-- The invariant that links the genome-wide total and the class cache with
the set `S` of pairs counted so far, before the records `rest` are read. -/
structure TotInv (env : Env) (cfg d : pileup_data_t) (S : Finset (Nat × Nat))
    (rest : List RoiInput) : Prop where
  loop : LoopInv env cfg d
  total : d.tot_covd_bases = S.card
  fresh : d.ref_seq = none → S = ∅
  cache : d.ref_seq ≠ none → ∃ cur : Nat, d.ref_id = (cur : Int) ∧
    (∀ p, d.bp_class p ≠ d.unknown ↔ (cur, p) ∈ S) ∧
    (∀ x ∈ S, x.1 = cur ∨ x.1 ∉ roi_chroms env rest) ∧
    cur ∉ (roi_chroms env rest).dropWhile (fun b => b == cur)
  group : grouped (roi_chroms env rest) = true

/-- The 10-base reference window of the scenario. -/
def scenario_window : List Char := ['A', 'C', 'G', 'T', 'A', 'C', 'G', 'T', 'A', 'C']

/-- The class list `"AT,CG"` of the scenario. -/
def scenario_classes : List Char := ['A', 'T', ',', 'C', 'G']

/-- The ROI of the scenario: the record spans the window that follows the
`left` flank of the chromosome (1-based `left.length + 1 .. left.length + 10`),
and both samples have depth 10 and mapping quality 30 at every position of the
chromosome. -/
def scenario_roi (ref_name gene_name : String) (left right : List Char) : RoiInput :=
  { line := RoiLine.fields4 ref_name (left.length + 1) (left.length + 10) gene_name,
    pileup1 := uniform_pileup 10 30 (left.length + 10 + right.length),
    pileup2 := uniform_pileup 10 30 (left.length + 10 + right.length) }

/-- The class of a centre base under the class list `"AT,CG"`. -/
def scenario_class_of (c : Char) : Nat :=
  if c = 'A' ∨ c = 'T' then 0 else if c = 'C' ∨ c = 'G' then 1 else 2

/-- A header with the single target `chr1` whose reference is the scenario's
window between the flanks `TT` and `GG`. -/
def scenario_env : Env :=
  { hdr_hash := fun name => if name = "chr1" then some 0 else none,
    fai_fetch := fun _ => ['T', 'T'] ++ scenario_window ++ ['G', 'G'] }

/-- A header with the single target `chr1` whose reference is exactly the
scenario's 10-base window. -/
def scenario_tip_env : Env :=
  { hdr_hash := fun name => if name = "chr1" then some 0 else none,
    fai_fetch := fun _ => scenario_window }

/-- The sample state with position 2 already cached as class 1 (`CG`). -/
def cached_state : pileup_data_t :=
  { sample_state with bp_class := fun p => if p = 2 then 1 else 4 }

/-- The non-empty maximal delimiter-free fields of a string, in order; `buf`
holds the characters of the field that is being read. -/
def fields_from (c : Char) : List Char → List Char → List (List Char)
  | buf, [] => if buf = [] then [] else [buf]
  | buf, ch :: rest =>
    if ch = c then (if buf = [] then fields_from c [] rest else buf :: fields_from c [] rest)
    else fields_from c (buf ++ [ch]) rest

/-- The tokens that the tokenizer loop stores, in order: the non-empty
delimiter-free fields and, if the string ends with the delimiter, one more
token that consists of the delimiter. -/
def stored_tokens (c : Char) (buf s : List Char) : List (List Char) :=
  fields_from c buf s ++ (if s.getLast? = some c then [[c]] else [])

/-- A well-formed record `chr1 2 11 gene` whose reads all have mapping quality
10, below the configured threshold 20: depth 10 at every position of `chr1` in
both samples. -/
def lowq_roi : RoiInput :=
  { line := RoiLine.fields4 "chr1" 2 11 "gene",
    pileup1 := uniform_pileup 10 10 12, pileup2 := uniform_pileup 10 10 12 }

/-- The number of bam2 pileup columns of a run. -/
def bam2_columns (rois : List RoiInput) : Nat :=
  (rois.map (fun r => r.pileup2.length)).sum

/-- The record `r` with its bam2 pileup cut after `k` columns: a run whose
last record is cut ends at the point of the uncut run where `k` columns of
that bam2 pileup have been handed to the callback. -/
def cut_pileup2 (r : RoiInput) (k : Nat) : RoiInput :=
  { r with pileup2 := r.pileup2.take k }

/-! # Theorems -/

/-! ## `getClass` and the class loop -/

/-- C4: for a length-2 pattern `{a,b}` `getClass` is true exactly when the
centre base is `a` or `b`; for a length-3 pattern with first character `a` and
third character `b` it is true exactly when (centre = `a` and next = `b`) or
(centre = `b` and prev = `a`), whatever the middle character is. -/
theorem getClass_pattern_semantics (pre mid pos a m b : Char) :
    (getClass pre mid pos [a, b] 2 = true ↔ (mid = a ∨ mid = b)) ∧
    (getClass pre mid pos [a, m, b] 3 = true ↔
      ((mid = a ∧ pos = b) ∨ (mid = b ∧ pre = a))) := by
  simp [getClass]

/-- The class loop started at `j` with `fuel` iterations left returns the
first index in `[j, j + fuel)` whose pattern matches, or `iub` if none does. -/
theorem class_loop_spec (p b n : Char) (container : Nat → List Char) (lengths : Nat → Nat)
    (iub : Nat) (fuel j : Nat) :
    (j ≤ class_loop p b n container lengths iub j fuel ∧
      class_loop p b n container lengths iub j fuel < j + fuel ∧
      getClass p b n (container (class_loop p b n container lengths iub j fuel))
        (lengths (class_loop p b n container lengths iub j fuel)) = true ∧
      ∀ i, j ≤ i → i < class_loop p b n container lengths iub j fuel →
        getClass p b n (container i) (lengths i) = false) ∨
    (class_loop p b n container lengths iub j fuel = iub ∧
      ∀ i, j ≤ i → i < j + fuel → getClass p b n (container i) (lengths i) = false) := by
  induction fuel generalizing j with
  | zero =>
    right
    refine ⟨rfl, ?_⟩
    intro i h1 h2
    omega
  | succ fuel ih =>
    unfold class_loop
    by_cases h : getClass p b n (container j) (lengths j) = true
    · left
      rw [if_pos h]
      refine ⟨le_refl _, by omega, h, ?_⟩
      intro i h1 h2
      omega
    · rw [if_neg h]
      have hf : getClass p b n (container j) (lengths j) = false := by
        simpa using h
      rcases ih (j + 1) with ⟨h1, h2, h3, h4⟩ | ⟨h1, h2⟩
      · left
        refine ⟨by omega, by omega, h3, ?_⟩
        intro i hi1 hi2
        by_cases hij : i = j
        · subst hij; exact hf
        · exact h4 i (by omega) hi2
      · right
        refine ⟨h1, ?_⟩
        intro i hi1 hi2
        by_cases hij : i = j
        · subst hij; exact hf
        · exact h2 i (by omega) (by omega)

/-- The class computed for a fresh position is at most `iub`. -/
theorem classify_le_iub (tmp : pileup_data_t) (pos : Nat) : classify tmp pos ≤ tmp.iub := by
  unfold classify
  rcases class_loop_spec (toupper (ref_at tmp (dec32 pos))) (toupper (ref_at tmp pos))
    (toupper (ref_at tmp (inc32 pos))) tmp.bp_class_container tmp.bp_class_lengths
    tmp.iub tmp.iub 0 with ⟨_, h2, _, _⟩ | ⟨h1, _⟩
  · simp only at h2 ⊢; omega
  · simp only at h1 ⊢; omega

/-- C5: a position that passes both gates and is classified for the first
time (cache entry `unknown`) gets the smallest index `j < N` whose pattern
matches the upper-cased (prev, centre, next) bases, or the IUB index `N` when
no pattern matches; it never gets the UNKNOWN sentinel `N + 1`. The same class
is the one whose ROI and genome-wide counters are incremented. -/
theorem first_match_priority (tmp : pileup_data_t) (pos : Nat) (pl : List bam_pileup1_t)
    (hin : pos ≥ tmp.beg ∧ pos < tmp.end_ ∧ tmp.bam1_cvg (pos - tmp.beg) = true)
    (hgate : mapq_count pl tmp.min_mapq ≥ tmp.min_depth_bam2)
    (hunk : tmp.bp_class pos = tmp.unknown) :
    ((((pileup_func_2 pos pl tmp).bp_class pos < tmp.iub ∧
        getClass (toupper (ref_at tmp (dec32 pos))) (toupper (ref_at tmp pos))
          (toupper (ref_at tmp (inc32 pos)))
          (tmp.bp_class_container ((pileup_func_2 pos pl tmp).bp_class pos))
          (tmp.bp_class_lengths ((pileup_func_2 pos pl tmp).bp_class pos)) = true ∧
        ∀ i, i < (pileup_func_2 pos pl tmp).bp_class pos →
          getClass (toupper (ref_at tmp (dec32 pos))) (toupper (ref_at tmp pos))
            (toupper (ref_at tmp (inc32 pos)))
            (tmp.bp_class_container i) (tmp.bp_class_lengths i) = false) ∨
      ((pileup_func_2 pos pl tmp).bp_class pos = tmp.iub ∧
        ∀ i, i < tmp.iub →
          getClass (toupper (ref_at tmp (dec32 pos))) (toupper (ref_at tmp pos))
            (toupper (ref_at tmp (inc32 pos)))
            (tmp.bp_class_container i) (tmp.bp_class_lengths i) = false)) ∧
    (pileup_func_2 pos pl tmp).bp_class pos ≠ tmp.iub + 1 ∧
    (pileup_func_2 pos pl tmp).base_cnt ((pileup_func_2 pos pl tmp).bp_class pos)
      = tmp.base_cnt ((pileup_func_2 pos pl tmp).bp_class pos) + 1 ∧
    (pileup_func_2 pos pl tmp).tot_base_cnt ((pileup_func_2 pos pl tmp).bp_class pos)
      = tmp.tot_base_cnt ((pileup_func_2 pos pl tmp).bp_class pos) + 1) := by
  have hcls : (pileup_func_2 pos pl tmp).bp_class pos = classify tmp pos := by
    simp [pileup_func_2, hin, hgate, hunk, arr_set]
  have hb : (pileup_func_2 pos pl tmp).base_cnt = arr_incr tmp.base_cnt (classify tmp pos) := by
    simp [pileup_func_2, hin, hgate, hunk]
  have ht : (pileup_func_2 pos pl tmp).tot_base_cnt
      = arr_incr tmp.tot_base_cnt (classify tmp pos) := by
    simp [pileup_func_2, hin, hgate, hunk]
  rw [hcls, hb, ht]
  refine ⟨?_, ?_, by simp [arr_incr], by simp [arr_incr]⟩
  · unfold classify
    rcases class_loop_spec (toupper (ref_at tmp (dec32 pos))) (toupper (ref_at tmp pos))
      (toupper (ref_at tmp (inc32 pos))) tmp.bp_class_container tmp.bp_class_lengths
      tmp.iub tmp.iub 0 with ⟨_, h2, h3, h4⟩ | ⟨h1, h2⟩
    · left
      exact ⟨by simpa using h2, h3, fun i hi => h4 i (Nat.zero_le _) hi⟩
    · right
      exact ⟨h1, fun i hi => h2 i (Nat.zero_le _) (by omega)⟩
  · have := classify_le_iub tmp pos
    omega

/-- Witness for C5: position 2 (`G` between `C` and `T`) of the sample state
is classified `CG` (index 1) under the default class list. -/
theorem first_match_priority_witness :
    (2 ≥ sample_state.beg ∧ 2 < sample_state.end_ ∧
      sample_state.bam1_cvg (2 - sample_state.beg) = true) ∧
    mapq_count (uniform_column 10 30 2).pl sample_state.min_mapq ≥ sample_state.min_depth_bam2 ∧
    sample_state.bp_class 2 = sample_state.unknown ∧
    (pileup_func_2 2 (uniform_column 10 30 2).pl sample_state).bp_class 2 = 1 ∧
    (pileup_func_2 2 (uniform_column 10 30 2).pl sample_state).bp_class 2
      ≠ sample_state.iub + 1 := by
  have h1 : (2 ≥ sample_state.beg ∧ 2 < sample_state.end_ ∧
      sample_state.bam1_cvg (2 - sample_state.beg) = true) := by decide
  have h2 : mapq_count (uniform_column 10 30 2).pl sample_state.min_mapq
      ≥ sample_state.min_depth_bam2 := by decide
  have h3 : sample_state.bp_class 2 = sample_state.unknown := by decide
  refine ⟨h1, h2, h3, by decide, ?_⟩
  exact (first_match_priority sample_state 2 (uniform_column 10 30 2).pl h1 h2 h3).2.1

/-! ## The depth gate -/

/-- The counting loop started from `acc` adds the number of observations that
are not deletions and have mapping quality at least `min_mapq`. -/
theorem mapq_foldl_eq (pl : List bam_pileup1_t) (min_mapq acc : Int) :
    pl.foldl
      (fun mapq_n base =>
        if !base.is_del && decide ((base.qual : Int) ≥ min_mapq) then mapq_n + 1 else mapq_n)
      acc
    = acc + ((pl.countP fun base => !base.is_del && decide ((base.qual : Int) ≥ min_mapq) : Nat)
        : Int) := by
  induction pl generalizing acc with
  | nil => simp
  | cons b pl ih =>
    rw [List.foldl_cons, ih, List.countP_cons]
    by_cases h : (!b.is_del && decide ((b.qual : Int) ≥ min_mapq)) = true
    · simp only [h, if_true]; push_cast; ring
    · simp only [h]; simp

/-- `mapq_n` is the number of observations that are not deletions and have
mapping quality at least `min_mapq`. -/
theorem mapq_count_eq (pl : List bam_pileup1_t) (min_mapq : Int) :
    mapq_count pl min_mapq
      = ((pl.countP fun base => !base.is_del && decide ((base.qual : Int) ≥ min_mapq) : Nat)
        : Int) := by
  unfold mapq_count
  rw [mapq_foldl_eq]
  simp

/-- Raising `min_mapq` never raises the count. -/
theorem mapq_count_antitone (pl : List bam_pileup1_t) (q q' : Int) (hq : q ≤ q') :
    mapq_count pl q' ≤ mapq_count pl q := by
  rw [mapq_count_eq, mapq_count_eq]
  have : pl.countP (fun base => !base.is_del && decide ((base.qual : Int) ≥ q'))
      ≤ pl.countP (fun base => !base.is_del && decide ((base.qual : Int) ≥ q)) := by
    apply List.countP_mono_left
    intro b _ hb
    simp only [Bool.and_eq_true, Bool.not_eq_true', decide_eq_true_eq] at hb ⊢
    exact ⟨hb.1, by omega⟩
  exact_mod_cast this

/-- The mask entry that the bam1 callback writes for a column inside the
interval is the verdict of the gate. -/
theorem pileup_func_1_gate (pos : Nat) (pl : List bam_pileup1_t) (tmp : pileup_data_t)
    (hin : pos ≥ tmp.beg ∧ pos < tmp.end_) :
    (pileup_func_1 pos pl tmp).bam1_cvg (pos - tmp.beg)
      = decide (mapq_count pl tmp.min_mapq ≥ tmp.min_depth_bam1) := by
  unfold pileup_func_1
  rw [if_pos hin]
  simp only [arr_set, if_true]

/-- The bam2 callback counts a column exactly when the column is inside the
interval, its mask entry is set and the gate passes. -/
theorem pileup_func_2_gate (pos : Nat) (pl : List bam_pileup1_t) (tmp : pileup_data_t) :
    (pileup_func_2 pos pl tmp).covd_bases = tmp.covd_bases + 1 ↔
      (pos ≥ tmp.beg ∧ pos < tmp.end_ ∧ tmp.bam1_cvg (pos - tmp.beg) = true) ∧
        mapq_count pl tmp.min_mapq ≥ tmp.min_depth_bam2 := by
  unfold pileup_func_2
  by_cases h1 : pos ≥ tmp.beg ∧ pos < tmp.end_ ∧ tmp.bam1_cvg (pos - tmp.beg) = true
  · rw [if_pos h1]
    by_cases h2 : mapq_count pl tmp.min_mapq ≥ tmp.min_depth_bam2
    · rw [if_pos h2]
      by_cases hu : tmp.bp_class pos = tmp.unknown
      · simp only [hu, if_true]
        exact ⟨fun _ => ⟨h1, h2⟩, fun _ => trivial⟩
      · simp only [hu, if_false]
        exact ⟨fun _ => ⟨h1, h2⟩, fun _ => trivial⟩
    · rw [if_neg h2]
      constructor
      · intro h; omega
      · intro h; exact absurd h.2 h2
  · rw [if_neg h1]
    constructor
    · intro h; omega
    · intro h; exact absurd h.1 h1

/-- C6: the gate that the callbacks apply to a column is (number of
observations that are not deletions and have mapping quality at least
`min_mapq`) `≥ min_depth`: for a column inside the interval the bam1 callback
writes that verdict into the mask, and the bam2 callback counts a column
exactly when it is inside the interval, its mask entry is set and the verdict
with `min_depth_bam2` is true. If the thresholds are lowered from
`(min_mapq', min_depth')` to `(min_mapq, min_depth)`, every mask entry that
the bam1 callback leaves set stays set, and every column that the bam2
callback counts is still counted: raising a threshold never makes a failing
column pass. -/
theorem depth_gate_monotone (tmp : pileup_data_t) (pos : Nat) (pl : List bam_pileup1_t)
    (min_mapq min_mapq' min_depth min_depth' : Int)
    (hq : min_mapq ≤ min_mapq') (hn : min_depth ≤ min_depth') :
    (∀ i,
      (pileup_func_1 pos pl
        { tmp with min_mapq := min_mapq', min_depth_bam1 := min_depth' }).bam1_cvg i = true →
      (pileup_func_1 pos pl
        { tmp with min_mapq := min_mapq, min_depth_bam1 := min_depth }).bam1_cvg i = true) ∧
    ((pileup_func_2 pos pl
        { tmp with min_mapq := min_mapq', min_depth_bam2 := min_depth' }).covd_bases
        = tmp.covd_bases + 1 →
      (pileup_func_2 pos pl
        { tmp with min_mapq := min_mapq, min_depth_bam2 := min_depth }).covd_bases
        = tmp.covd_bases + 1) ∧
    ((pos ≥ tmp.beg ∧ pos < tmp.end_) →
      ((pileup_func_1 pos pl tmp).bam1_cvg (pos - tmp.beg) = true ↔
        ((pl.countP fun base => !base.is_del && decide ((base.qual : Int) ≥ tmp.min_mapq) : Nat)
          : Int) ≥ tmp.min_depth_bam1)) ∧
    ((pileup_func_2 pos pl tmp).covd_bases = tmp.covd_bases + 1 ↔
      (pos ≥ tmp.beg ∧ pos < tmp.end_ ∧ tmp.bam1_cvg (pos - tmp.beg) = true) ∧
        ((pl.countP fun base => !base.is_del && decide ((base.qual : Int) ≥ tmp.min_mapq) : Nat)
          : Int) ≥ tmp.min_depth_bam2) := by
  have hmono := mapq_count_antitone pl min_mapq min_mapq' hq
  refine ⟨?_, ?_, ?_, ?_⟩
  · intro i hi
    by_cases hin : pos ≥ tmp.beg ∧ pos < tmp.end_
    · by_cases hidx : i = pos - tmp.beg
      · have g1 := pileup_func_1_gate pos pl
          { tmp with min_mapq := min_mapq', min_depth_bam1 := min_depth' } hin
        have g2 := pileup_func_1_gate pos pl
          { tmp with min_mapq := min_mapq, min_depth_bam1 := min_depth } hin
        rw [hidx] at hi ⊢
        have g1' : (pileup_func_1 pos pl
            { tmp with min_mapq := min_mapq', min_depth_bam1 := min_depth' }).bam1_cvg
              (pos - tmp.beg) = decide (mapq_count pl min_mapq' ≥ min_depth') := g1
        have g2' : (pileup_func_1 pos pl
            { tmp with min_mapq := min_mapq, min_depth_bam1 := min_depth }).bam1_cvg
              (pos - tmp.beg) = decide (mapq_count pl min_mapq ≥ min_depth) := g2
        rw [g1'] at hi
        rw [g2']
        simp only [decide_eq_true_eq] at hi ⊢
        omega
      · have e1 : (pileup_func_1 pos pl
            { tmp with min_mapq := min_mapq', min_depth_bam1 := min_depth' }).bam1_cvg i
            = tmp.bam1_cvg i := by
          unfold pileup_func_1
          simp only []
          rw [if_pos hin]
          simp only [arr_set, if_neg hidx]
        have e2 : (pileup_func_1 pos pl
            { tmp with min_mapq := min_mapq, min_depth_bam1 := min_depth }).bam1_cvg i
            = tmp.bam1_cvg i := by
          unfold pileup_func_1
          simp only []
          rw [if_pos hin]
          simp only [arr_set, if_neg hidx]
        rw [e2, ← e1]
        exact hi
    · have e1 : (pileup_func_1 pos pl
          { tmp with min_mapq := min_mapq', min_depth_bam1 := min_depth' }).bam1_cvg i
          = tmp.bam1_cvg i := by
        unfold pileup_func_1
        simp only []
        rw [if_neg hin]
      have e2 : (pileup_func_1 pos pl
          { tmp with min_mapq := min_mapq, min_depth_bam1 := min_depth }).bam1_cvg i
          = tmp.bam1_cvg i := by
        unfold pileup_func_1
        simp only []
        rw [if_neg hin]
      rw [e2, ← e1]
      exact hi
  · intro hi
    have g1 := (pileup_func_2_gate pos pl
      { tmp with min_mapq := min_mapq', min_depth_bam2 := min_depth' }).mp hi
    apply (pileup_func_2_gate pos pl
      { tmp with min_mapq := min_mapq, min_depth_bam2 := min_depth }).mpr
    refine ⟨g1.1, ?_⟩
    have g2 : mapq_count pl min_mapq' ≥ min_depth' := g1.2
    show mapq_count pl min_mapq ≥ min_depth
    omega
  · intro hin
    rw [pileup_func_1_gate pos pl tmp hin, ← mapq_count_eq]
    simp only [decide_eq_true_eq]
  · rw [pileup_func_2_gate, ← mapq_count_eq]

/-- Witness for C6: in the sample state the column of ten reads of quality 30
at position 2 is counted by the bam2 callback with the thresholds `(30, 10)`
and hence with `(20, 8)`. -/
theorem depth_gate_monotone_witness :
    (20 : Int) ≤ 30 ∧ (8 : Int) ≤ 10 ∧
    (pileup_func_2 2 (uniform_column 10 30 2).pl
      { sample_state with min_mapq := 30, min_depth_bam2 := 10 }).covd_bases
        = sample_state.covd_bases + 1 ∧
    (pileup_func_2 2 (uniform_column 10 30 2).pl
      { sample_state with min_mapq := 20, min_depth_bam2 := 8 }).covd_bases
        = sample_state.covd_bases + 1 :=
  ⟨by decide, by decide, by decide,
    (depth_gate_monotone sample_state 2 (uniform_column 10 30 2).pl 20 30 8 10 (by decide)
      (by decide)).2.1 (by decide)⟩

/-! ## `separateString` -/

/-- A pattern that is the last one of the string: the loop stores it in slot
`y` and counts it. -/
theorem sep_loop_last (c : Char) (p : List Char) (hp : p ≠ []) (hc : c ∉ p)
    (b : List Char) (y n : Nat) (cont : Nat → List Char) :
    (sep_loop c p { buff1 := b, y := y, tokenNum := n, container := cont }).tokenNum = n + 1 ∧
    (sep_loop c p { buff1 := b, y := y, tokenNum := n, container := cont }).container
      = arr_set cont y (b ++ p) := by
  induction p generalizing b with
  | nil => exact absurd rfl hp
  | cons ch p ih =>
    cases p with
    | nil => simp [sep_loop]
    | cons nxt rest =>
      have h1 : ch ≠ c := fun h => hc (by simp [h])
      have h2 : nxt ≠ c := fun h => hc (by simp [h])
      have h3 : c ∉ nxt :: rest := fun h => hc (List.mem_cons_of_mem _ h)
      have := ih (by simp) h3 (b ++ [ch])
      simpa [sep_loop, h1, h2] using this

/-- A pattern followed by the delimiter and a non-empty remainder: the loop
stores it in slot `y`, counts it, resets the buffer and goes on with the
remainder. -/
theorem sep_loop_token (c : Char) (p : List Char) (hp : p ≠ []) (hc : c ∉ p)
    (t : List Char) (ht : t ≠ []) (b : List Char) (y n : Nat) (cont : Nat → List Char) :
    sep_loop c (p ++ c :: t) { buff1 := b, y := y, tokenNum := n, container := cont }
      = sep_loop c t
          { buff1 := [], y := y + 1, tokenNum := n + 1, container := arr_set cont y (b ++ p) } := by
  induction p generalizing b with
  | nil => exact absurd rfl hp
  | cons ch p ih =>
    have h1 : ch ≠ c := fun h => hc (by simp [h])
    cases p with
    | nil =>
      cases t with
      | nil => exact absurd rfl ht
      | cons t0 t => simp [sep_loop, h1]
    | cons nxt rest =>
      have h2 : nxt ≠ c := fun h => hc (by simp [h])
      have h3 : c ∉ nxt :: rest := fun h => hc (List.mem_cons_of_mem _ h)
      have := ih (by simp) h3 (b ++ [ch])
      simpa [sep_loop, h1, h2] using this

/-- On a delimiter-separated list of non-empty delimiter-free patterns the
loop counts every pattern and stores them in consecutive slots from `y` on. -/
theorem sep_loop_patterns (c : Char) (ps : List (List Char)) (hne : ps ≠ [])
    (hps : ∀ p ∈ ps, p ≠ [] ∧ c ∉ p) (y n : Nat) (cont : Nat → List Char) :
    (sep_loop c (List.intercalate [c] ps)
        { buff1 := [], y := y, tokenNum := n, container := cont }).tokenNum = n + ps.length ∧
    ∀ i, (sep_loop c (List.intercalate [c] ps)
        { buff1 := [], y := y, tokenNum := n, container := cont }).container i
      = if y ≤ i ∧ i < y + ps.length then ps.getD (i - y) [] else cont i := by
  induction ps generalizing y n cont with
  | nil => exact absurd rfl hne
  | cons p ps ih =>
    have hp := hps p (by simp)
    cases ps with
    | nil =>
      have h := sep_loop_last c p hp.1 hp.2 [] y n cont
      have hi : List.intercalate [c] [p] = p := by simp [List.intercalate]
      rw [hi]
      refine ⟨by simpa using h.1, ?_⟩
      intro i
      rw [h.2]
      by_cases hiy : i = y
      · subst hiy; simp [arr_set]
      · have : ¬ (y ≤ i ∧ i < y + 1) := by omega
        simp [arr_set, hiy, this]
    | cons q rest =>
      have hq := hps q (by simp)
      have hi : List.intercalate [c] (p :: q :: rest)
          = p ++ c :: List.intercalate [c] (q :: rest) := by
        simp [List.intercalate, List.intersperse]
      have ht : List.intercalate [c] (q :: rest) ≠ [] := by
        cases q with
        | nil => exact absurd rfl hq.1
        | cons q0 q =>
          cases rest <;> simp [List.intercalate, List.intersperse]
      rw [hi, sep_loop_token c p hp.1 hp.2 _ ht]
      have := ih (by simp) (fun r hr => hps r (List.mem_cons_of_mem _ hr)) (y + 1) (n + 1)
        (arr_set cont y ([] ++ p))
      refine ⟨by rw [this.1]; simp only [List.length_cons]; omega, ?_⟩
      intro i
      rw [this.2]
      by_cases hiy : i = y
      · subst hiy
        have h1 : ¬ (i + 1 ≤ i ∧ i < i + 1 + (q :: rest).length) := by omega
        have h2 : i ≤ i ∧ i < i + (p :: q :: rest).length := by
          simp only [List.length_cons]; omega
        simp [h1, h2, arr_set]
      · by_cases hr : y + 1 ≤ i ∧ i < y + 1 + (q :: rest).length
        · have h2 : y ≤ i ∧ i < y + (p :: q :: rest).length := by
            simp only [List.length_cons] at hr ⊢; omega
          rw [if_pos hr, if_pos h2]
          obtain ⟨k, hk⟩ : ∃ k, i - y = k + 1 := ⟨i - y - 1, by omega⟩
          have hk2 : i - (y + 1) = k := by omega
          rw [hk, hk2]
          simp
        · have h2 : ¬ (y ≤ i ∧ i < y + (p :: q :: rest).length) := by
            simp only [List.length_cons] at hr ⊢; omega
          rw [if_neg hr, if_neg h2]
          simp [arr_set, hiy]

/-- C10: on a comma-delimited list of `k ≥ 1` non-empty comma-free patterns
`separateString` returns `k` and stores the patterns in `container[0..k-1]` in
their original order (the other slots are untouched); on the default
`"AT,CG,CpG"` it returns 3 with `container = ["AT", "CG", "CpG"]`. -/
theorem separateString_patterns (ps : List (List Char)) (hne : ps ≠ [])
    (hps : ∀ p ∈ ps, p ≠ [] ∧ ',' ∉ p) (container : Nat → List Char) :
    (separateString (List.intercalate [','] ps) ',' container).1 = ps.length ∧
    (∀ i, i < ps.length →
      (separateString (List.intercalate [','] ps) ',' container).2 i = ps.getD i []) ∧
    (∀ i, ps.length ≤ i →
      (separateString (List.intercalate [','] ps) ',' container).2 i = container i) ∧
    (separateString default_bp_class_types ',' container).1 = 3 ∧
    (List.range 3).map (separateString default_bp_class_types ',' container).2
      = [['A', 'T'], ['C', 'G'], ['C', 'p', 'G']] := by
  have h := sep_loop_patterns ',' ps hne hps 0 0 container
  refine ⟨by simpa [separateString] using h.1, ?_, ?_, ?_, ?_⟩
  · intro i hi
    have := h.2 i
    simpa [separateString, hi] using this
  · intro i hi
    have := h.2 i
    have hn : ¬ i < ps.length := by omega
    simpa [separateString, hn] using this
  · simp [separateString, default_bp_class_types, sep_loop]
  · simp [separateString, default_bp_class_types, sep_loop, arr_set, List.range, List.range.loop]

/-- Witness for C10: the two-pattern list `"TC,TpT"`. -/
theorem separateString_patterns_witness :
    [['T', 'C'], ['T', 'p', 'T']] ≠ [] ∧
    (∀ p ∈ [['T', 'C'], ['T', 'p', 'T']], p ≠ [] ∧ ',' ∉ p) ∧
    (separateString (List.intercalate [','] [['T', 'C'], ['T', 'p', 'T']]) ','
      (fun _ => [])).1 = 2 :=
  ⟨by decide, by decide,
    (separateString_patterns [['T', 'C'], ['T', 'p', 'T']] (by decide) (by decide)
      (fun _ => [])).1⟩

/-! ## Frame properties of the callbacks -/

/-- The bam2 callback only reads the static part of the state. -/
theorem pileup_func_2_static (pos : Nat) (pl : List bam_pileup1_t) (d : pileup_data_t) :
    static_part (pileup_func_2 pos pl d) = static_part d := by
  unfold pileup_func_2
  simp only []
  split_ifs <;> rfl

/-- The bam2 pileup leaves the static part of the state unchanged. -/
theorem run_pileup2_static (cols : List Column) (d : pileup_data_t) :
    static_part (run_pileup2 cols d) = static_part d := by
  induction cols generalizing d with
  | nil => rfl
  | cons c cs ih =>
    show static_part (run_pileup2 cs (pileup_func_2 c.pos c.pl d)) = _
    rw [ih, pileup_func_2_static]

/-- The column test depends on the static part only. -/
theorem passes2_static (d d' : pileup_data_t) (h : static_part d = static_part d') :
    passes2 d = passes2 d' := by
  have h1 : passes2 d = passes2 (static_part d) := rfl
  have h2 : passes2 d' = passes2 (static_part d') := rfl
  rw [h1, h2, h]

/-- The class of a fresh position depends on the static part only. -/
theorem classify_static (d d' : pileup_data_t) (h : static_part d = static_part d') :
    classify d = classify d' := by
  have h1 : classify d = classify (static_part d) := rfl
  have h2 : classify d' = classify (static_part d') := rfl
  rw [h1, h2, h]

/-- A column that fails the test leaves the state unchanged. -/
theorem pileup_func_2_skip (d : pileup_data_t) (c : Column) (h : passes2 d c = false) :
    pileup_func_2 c.pos c.pl d = d := by
  unfold pileup_func_2
  unfold passes2 at h
  by_cases h1 : c.pos ≥ d.beg ∧ c.pos < d.end_ ∧ d.bam1_cvg (c.pos - d.beg) = true
  · rw [if_pos h1]
    have h2 : ¬ mapq_count c.pl d.min_mapq ≥ d.min_depth_bam2 := by
      simpa [h1] using h
    rw [if_neg h2]
  · rw [if_neg h1]

/-- A column that passes the test at a position that is not cached yet. -/
theorem pileup_func_2_fresh (d : pileup_data_t) (c : Column) (h : passes2 d c = true)
    (hu : d.bp_class c.pos = d.unknown) :
    pileup_func_2 c.pos c.pl d =
      { d with
        covd_bases := d.covd_bases + 1
        base_cnt := arr_incr d.base_cnt (classify d c.pos)
        tot_covd_bases := d.tot_covd_bases + 1
        tot_base_cnt := arr_incr d.tot_base_cnt (classify d c.pos)
        bp_class := arr_set d.bp_class c.pos (classify d c.pos) } := by
  unfold passes2 at h
  simp only [Bool.and_eq_true, decide_eq_true_eq] at h
  unfold pileup_func_2
  rw [if_pos h.1, if_pos h.2]
  simp only [hu, if_true]

/-- A column that passes the test at a position that is already cached. -/
theorem pileup_func_2_cached (d : pileup_data_t) (c : Column) (h : passes2 d c = true)
    (hu : d.bp_class c.pos ≠ d.unknown) :
    pileup_func_2 c.pos c.pl d =
      { d with
        covd_bases := d.covd_bases + 1
        base_cnt := arr_incr d.base_cnt (d.bp_class c.pos) } := by
  unfold passes2 at h
  simp only [Bool.and_eq_true, decide_eq_true_eq] at h
  unfold pileup_func_2
  rw [if_pos h.1, if_pos h.2]
  simp only [hu, if_false]

/-- The bam2 callback keeps the cache consistent with the reference. -/
theorem pileup_func_2_cacheOK (d : pileup_data_t) (c : Column) (hok : CacheOK d) :
    CacheOK (pileup_func_2 c.pos c.pl d) := by
  have hcl : classify (pileup_func_2 c.pos c.pl d) = classify d :=
    classify_static _ _ (pileup_func_2_static _ _ _)
  have hun : (pileup_func_2 c.pos c.pl d).unknown = d.unknown := by
    have := congrArg pileup_data_t.unknown (pileup_func_2_static c.pos c.pl d)
    exact this
  intro p
  rw [hcl, hun]
  by_cases h : passes2 d c = true
  · by_cases hu : d.bp_class c.pos = d.unknown
    · rw [pileup_func_2_fresh d c h hu]
      by_cases hp : p = c.pos
      · right; simp [arr_set, hp]
      · simpa [arr_set, hp] using hok p
    · rw [pileup_func_2_cached d c h hu]
      exact hok p
  · rw [pileup_func_2_skip d c (by simpa using h)]
    exact hok p

/-- The counters of an ROI after the bam2 pileup, started from a state whose
cache is consistent: `covd_bases` grows by the number of counted columns, and
`base_cnt[j]` by the number of counted columns whose position has class `j`. -/
theorem run_pileup2_counts (cols : List Column) (d : pileup_data_t) (hok : CacheOK d) :
    CacheOK (run_pileup2 cols d) ∧
    (run_pileup2 cols d).covd_bases = d.covd_bases + (covered_cols d cols).length ∧
    ∀ j, (run_pileup2 cols d).base_cnt j
      = d.base_cnt j + (covered_cols d cols).countP (fun c => decide (classify d c.pos = j)) := by
  induction cols generalizing d with
  | nil => exact ⟨hok, by simp [run_pileup2, covered_cols], by simp [run_pileup2, covered_cols]⟩
  | cons c cs ih =>
    have hst := pileup_func_2_static c.pos c.pl d
    have hcl := classify_static _ _ hst
    have hps := passes2_static _ _ hst
    obtain ⟨h1, h2, h3⟩ := ih (pileup_func_2 c.pos c.pl d) (pileup_func_2_cacheOK d c hok)
    have hrun : run_pileup2 (c :: cs) d = run_pileup2 cs (pileup_func_2 c.pos c.pl d) := rfl
    rw [hrun]
    refine ⟨h1, ?_, ?_⟩
    · rw [h2]
      unfold covered_cols at *
      rw [hps]
      by_cases h : passes2 d c = true
      · rw [List.filter_cons_of_pos h]
        by_cases hu : d.bp_class c.pos = d.unknown
        · rw [pileup_func_2_fresh d c h hu]; simp only [List.length_cons]; omega
        · rw [pileup_func_2_cached d c h hu]; simp only [List.length_cons]; omega
      · rw [List.filter_cons_of_neg h, pileup_func_2_skip d c (by simpa using h)]
    · intro j
      rw [h3 j]
      unfold covered_cols at *
      rw [hps, hcl]
      by_cases h : passes2 d c = true
      · rw [List.filter_cons_of_pos h, List.countP_cons]
        by_cases hu : d.bp_class c.pos = d.unknown
        · rw [pileup_func_2_fresh d c h hu]
          by_cases hj : classify d c.pos = j
          · simp [arr_incr, hj]; omega
          · have hj2 : ¬ j = classify d c.pos := fun h => hj h.symm
            simp [arr_incr, hj, hj2]
        · rw [pileup_func_2_cached d c h hu]
          have hc : d.bp_class c.pos = classify d c.pos := by
            rcases hok c.pos with h | h
            · exact absurd h hu
            · exact h
          by_cases hj : classify d c.pos = j
          · simp [arr_incr, hj, hc]; omega
          · have hj2 : ¬ j = classify d c.pos := fun h => hj h.symm
            simp [arr_incr, hj, hj2, hc]
      · rw [List.filter_cons_of_neg h, pileup_func_2_skip d c (by simpa using h)]

/-- The bam1 callback changes the mask only. -/
theorem pileup_func_1_eq (pos : Nat) (pl : List bam_pileup1_t) (x : pileup_data_t) :
    pileup_func_1 pos pl x = { x with bam1_cvg := (pileup_func_1 pos pl x).bam1_cvg } := by
  unfold pileup_func_1
  split_ifs <;> rfl

/-- The bam1 pileup changes the mask only. -/
theorem run_pileup1_eq (cols : List Column) (x : pileup_data_t) :
    run_pileup1 cols x = { x with bam1_cvg := (run_pileup1 cols x).bam1_cvg } := by
  induction cols generalizing x with
  | nil => rfl
  | cons c cs ih =>
    have hrun : run_pileup1 (c :: cs) x = run_pileup1 cs (pileup_func_1 c.pos c.pl x) := rfl
    rw [hrun, ih (pileup_func_1 c.pos c.pl x)]
    generalize (run_pileup1 cs (pileup_func_1 c.pos c.pl x)).bam1_cvg = m
    rw [pileup_func_1_eq]

/-- The bam1 callback commutes with blanking the counters and the cache. -/
theorem pileup_func_1_static (pos : Nat) (pl : List bam_pileup1_t) (x : pileup_data_t) :
    static_part (pileup_func_1 pos pl x) = pileup_func_1 pos pl (static_part x) := by
  unfold pileup_func_1
  by_cases h : pos ≥ x.beg ∧ pos < x.end_
  · have h' : pos ≥ (static_part x).beg ∧ pos < (static_part x).end_ := h
    rw [if_pos h, if_pos h']
    rfl
  · have h' : ¬ (pos ≥ (static_part x).beg ∧ pos < (static_part x).end_) := h
    rw [if_neg h, if_neg h']

/-- The static part after the bam1 pileup depends on the static part before. -/
theorem run_pileup1_static (cols : List Column) (x y : pileup_data_t)
    (h : static_part x = static_part y) :
    static_part (run_pileup1 cols x) = static_part (run_pileup1 cols y) := by
  induction cols generalizing x y with
  | nil => exact h
  | cons c cs ih =>
    have hx : run_pileup1 (c :: cs) x = run_pileup1 cs (pileup_func_1 c.pos c.pl x) := rfl
    have hy : run_pileup1 (c :: cs) y = run_pileup1 cs (pileup_func_1 c.pos c.pl y) := rfl
    rw [hx, hy]
    apply ih
    rw [pileup_func_1_static, pileup_func_1_static, h]

/-- The bam1 pileup keeps the cache consistent. -/
theorem run_pileup1_cacheOK (cols : List Column) (x : pileup_data_t) (h : CacheOK x) :
    CacheOK (run_pileup1 cols x) := by
  rw [run_pileup1_eq]
  exact h

/-- Reading an ROI record leaves the configuration part unchanged. -/
theorem cfg_part_sscanf_store (d : pileup_data_t) (start stop : Nat) :
    cfg_part (sscanf_store d start stop) = cfg_part d := rfl

/-- The chromosome-tip adjustment leaves the configuration part unchanged. -/
theorem cfg_part_tip_adjust (x : pileup_data_t) : cfg_part (tip_adjust x) = cfg_part x := by
  simp only [cfg_part, static_part, tip_adjust]

/-- Loading a chromosome leaves the configuration part unchanged. -/
theorem cfg_part_load_chromosome (env : Env) (x : pileup_data_t) (id : Nat) :
    cfg_part (load_chromosome env x id) = cfg_part x := by
  unfold load_chromosome
  split_ifs <;> simp only [cfg_part, static_part]

/-- The reset at the start of an ROI leaves the configuration part unchanged. -/
theorem cfg_part_roi_reset (x : pileup_data_t) : cfg_part (roi_reset x) = cfg_part x := by
  simp only [cfg_part, static_part, roi_reset]

/-- The preparation of an ROI leaves the configuration part unchanged. -/
theorem cfg_part_roi_prepare (env : Env) (d : pileup_data_t) (id : Nat) :
    cfg_part (roi_prepare env d id) = cfg_part d := by
  unfold roi_prepare
  rw [cfg_part_tip_adjust, cfg_part_load_chromosome, cfg_part_roi_reset]

/-- The configuration part is a part of the static part. -/
theorem cfg_part_of_static (x y : pileup_data_t) (h : static_part x = static_part y) :
    cfg_part x = cfg_part y := by
  have hx : cfg_part x = cfg_part (static_part x) := rfl
  have hy : cfg_part y = cfg_part (static_part y) := rfl
  rw [hx, hy, h]

/-- Processing an ROI leaves the configuration part unchanged. -/
theorem cfg_part_roi_process (env : Env) (d : pileup_data_t) (id : Nat) (r : RoiInput) :
    cfg_part (roi_process env d id r) = cfg_part d := by
  unfold roi_process
  rw [cfg_part_of_static _ _ (run_pileup2_static _ _), run_pileup1_eq]
  exact cfg_part_roi_prepare env d id

/-- The chromosome-tip adjustment commutes with blanking the counters and
the cache. -/
theorem static_part_tip_adjust (x : pileup_data_t) :
    static_part (tip_adjust x) = tip_adjust (static_part x) := by
  simp only [static_part, tip_adjust]

/-- After the reset and the chromosome load of an ROI the static part is the
one that a fresh run (nothing loaded yet) reaches on the same record. -/
theorem load_chromosome_static (env : Env) (d : pileup_data_t) (start stop id : Nat)
    (hl : Loaded env d) :
    static_part (load_chromosome env (roi_reset (sscanf_store d start stop)) id)
      = static_part
          (load_chromosome env (roi_reset (sscanf_store (cfg_part d) start stop)) id) := by
  have hR : load_chromosome env (roi_reset (sscanf_store (cfg_part d) start stop)) id
      = { roi_reset (sscanf_store (cfg_part d) start stop) with
          ref_seq := some (env.fai_fetch id)
          ref_len := ((env.fai_fetch id).length : Int)
          bp_class := fun _ => (roi_reset (sscanf_store (cfg_part d) start stop)).unknown
          ref_id := (id : Int) } := by
    have hc : (roi_reset (sscanf_store (cfg_part d) start stop)).ref_seq.isNone = true ∨
        (id : Int) ≠ (roi_reset (sscanf_store (cfg_part d) start stop)).ref_id := Or.inl rfl
    unfold load_chromosome
    rw [if_pos hc]
  rw [hR]
  unfold load_chromosome
  split_ifs with h
  · simp only [static_part, roi_reset, sscanf_store, cfg_part]
  · have h1 : d.ref_seq ≠ none := by
      intro hn
      apply h
      left
      show (d.ref_seq).isNone = true
      rw [hn]; rfl
    have h2 : (id : Int) = d.ref_id := by
      by_contra hne
      exact h (Or.inr hne)
    rcases hl with hl | ⟨id', e1, e2, e3, _⟩
    · exact absurd hl h1
    · have e4 : id' = id := by
        have : (id : Int) = (id' : Int) := by rw [h2, e1]
        exact_mod_cast this.symm
      subst e4
      simp only [static_part, roi_reset, sscanf_store, cfg_part, e1, e2, e3]

/-- The static part with which an ROI is processed is the one that a fresh
run reaches on the same record. -/
theorem roi_prepare_static (env : Env) (d : pileup_data_t) (start stop id : Nat)
    (hl : Loaded env d) :
    static_part (roi_prepare env (sscanf_store d start stop) id)
      = static_part (roi_prepare env (sscanf_store (cfg_part d) start stop) id) := by
  unfold roi_prepare
  rw [static_part_tip_adjust, static_part_tip_adjust, load_chromosome_static env d start stop id hl]

/-- Loading a chromosome changes the reference fields and the cache only. -/
theorem load_chromosome_eq (env : Env) (x : pileup_data_t) (id : Nat) :
    load_chromosome env x id =
      { x with ref_seq := (load_chromosome env x id).ref_seq
               ref_len := (load_chromosome env x id).ref_len
               bp_class := (load_chromosome env x id).bp_class
               ref_id := (load_chromosome env x id).ref_id } := by
  unfold load_chromosome
  split_ifs <;> rfl

/-- After the chromosome load the reference is the one of the chromosome and
the cache is consistent with it, provided it was so before. -/
theorem load_chromosome_loaded (env : Env) (x : pileup_data_t) (id : Nat) (hl : Loaded env x) :
    (load_chromosome env x id).ref_id = (id : Int) ∧
    (load_chromosome env x id).ref_seq = some (env.fai_fetch id) ∧
    (load_chromosome env x id).ref_len = ((env.fai_fetch id).length : Int) ∧
    CacheOK (load_chromosome env x id) := by
  unfold load_chromosome
  split_ifs with h
  · refine ⟨rfl, rfl, rfl, ?_⟩
    intro p
    left
    rfl
  · have h1 : x.ref_seq ≠ none := by
      intro hn
      apply h
      left
      rw [hn]; rfl
    have h2 : (id : Int) = x.ref_id := by
      by_contra hne
      exact h (Or.inr hne)
    rcases hl with hl | ⟨id', e1, e2, e3, e4⟩
    · exact absurd hl h1
    · have e5 : id' = id := by
        have : (id : Int) = (id' : Int) := by rw [h2, e1]
        exact_mod_cast this.symm
      subst e5
      exact ⟨e1, e2, e3, e4⟩

/-- The state with which the pileups of an ROI start: counters reset, cache
consistent with the reference of the ROI's chromosome. -/
theorem roi_prepare_dynamic (env : Env) (d : pileup_data_t) (id : Nat) (hl : Loaded env d) :
    (roi_prepare env d id).covd_bases = 0 ∧
    (∀ j, j < d.bp_class_number → (roi_prepare env d id).base_cnt j = 0) ∧
    (roi_prepare env d id).tot_covd_bases = d.tot_covd_bases ∧
    (roi_prepare env d id).tot_base_cnt = d.tot_base_cnt ∧
    (roi_prepare env d id).ref_id = (id : Int) ∧
    (roi_prepare env d id).ref_seq = some (env.fai_fetch id) ∧
    (roi_prepare env d id).ref_len = ((env.fai_fetch id).length : Int) ∧
    CacheOK (roi_prepare env d id) := by
  have hl' : Loaded env (roi_reset d) := by
    rcases hl with hl | ⟨id', e1, e2, e3, e4⟩
    · left; exact hl
    · right; exact ⟨id', e1, e2, e3, e4⟩
  obtain ⟨a1, a2, a3, a4⟩ := load_chromosome_loaded env (roi_reset d) id hl'
  have hq := load_chromosome_eq env (roi_reset d) id
  unfold roi_prepare
  refine ⟨?_, ?_, ?_, ?_, a1, a2, a3, a4⟩
  · rw [hq]; rfl
  · intro j hj
    rw [hq]
    show (if j < d.bp_class_number then 0 else d.base_cnt j) = 0
    rw [if_pos hj]
  · rw [hq]; rfl
  · rw [hq]; rfl

/-! ## The ROI loop -/

/-- A badly formatted line ends the loop with `return 1`. -/
theorem main_loop_bad (env : Env) (r : RoiInput) (rest : List RoiInput) (d : pileup_data_t)
    (h : r.line = RoiLine.badly_formatted) :
    main_loop env (r :: rest) d = { data := d, rows := [], returned1 := true } := by
  rw [main_loop]
  simp only [h]

/-- A record whose chromosome is not in the header is skipped. -/
theorem main_loop_unknown (env : Env) (r : RoiInput) (rest : List RoiInput) (d : pileup_data_t)
    (ref_name gene_name : String) (start stop : Nat)
    (h : r.line = RoiLine.fields4 ref_name start stop gene_name)
    (hh : env.hdr_hash ref_name = none) :
    main_loop env (r :: rest) d = main_loop env rest (sscanf_store d start stop) := by
  rw [main_loop]
  simp only [h, hh]

/-- A record with `beg > end` is skipped. -/
theorem main_loop_inverted (env : Env) (r : RoiInput) (rest : List RoiInput) (d : pileup_data_t)
    (ref_name gene_name : String) (start stop ref_id : Nat)
    (h : r.line = RoiLine.fields4 ref_name start stop gene_name)
    (hh : env.hdr_hash ref_name = some ref_id)
    (hbe : (sscanf_store d start stop).beg > (sscanf_store d start stop).end_) :
    main_loop env (r :: rest) d = main_loop env rest (sscanf_store d start stop) := by
  rw [main_loop]
  simp only [h, hh, hbe, if_true]

/-- A valid record is processed and its row is written. -/
theorem main_loop_valid (env : Env) (r : RoiInput) (rest : List RoiInput) (d : pileup_data_t)
    (ref_name gene_name : String) (start stop ref_id : Nat)
    (h : r.line = RoiLine.fields4 ref_name start stop gene_name)
    (hh : env.hdr_hash ref_name = some ref_id)
    (hbe : ¬ (sscanf_store d start stop).beg > (sscanf_store d start stop).end_) :
    main_loop env (r :: rest) d =
      { data := (main_loop env rest (roi_process env (sscanf_store d start stop) ref_id r)).data,
        rows := roi_row gene_name ref_name (sscanf_store d start stop)
            (roi_process env (sscanf_store d start stop) ref_id r)
          :: (main_loop env rest (roi_process env (sscanf_store d start stop) ref_id r)).rows,
        returned1 :=
          (main_loop env rest (roi_process env (sscanf_store d start stop) ref_id r)).returned1 } := by
  rw [main_loop]
  simp only [h, hh, hbe, if_false]

/-- The loop on a concatenation: if the first part is not left by `return 1`,
the second part continues from its final state and the rows are appended. -/
theorem main_loop_append (env : Env) (pre post : List RoiInput) (d : pileup_data_t)
    (h : (main_loop env pre d).returned1 = false) :
    main_loop env (pre ++ post) d =
      { data := (main_loop env post (main_loop env pre d).data).data,
        rows := (main_loop env pre d).rows ++ (main_loop env post (main_loop env pre d).data).rows,
        returned1 := (main_loop env post (main_loop env pre d).data).returned1 } := by
  induction pre generalizing d with
  | nil => simp [main_loop]
  | cons r rest ih =>
    rw [List.cons_append]
    cases hline : r.line with
    | badly_formatted =>
      rw [main_loop_bad env r rest d hline] at h
      simp at h
    | fields4 ref_name start stop gene_name =>
      cases hh : env.hdr_hash ref_name with
      | none =>
        rw [main_loop_unknown env r _ d _ _ _ _ hline hh] at h ⊢
        rw [main_loop_unknown env r _ d _ _ _ _ hline hh]
        exact ih _ h
      | some ref_id =>
        by_cases hbe : (sscanf_store d start stop).beg > (sscanf_store d start stop).end_
        · rw [main_loop_inverted env r _ d _ _ _ _ _ hline hh hbe] at h ⊢
          rw [main_loop_inverted env r _ d _ _ _ _ _ hline hh hbe]
          exact ih _ h
        · rw [main_loop_valid env r _ d _ _ _ _ _ hline hh hbe] at h ⊢
          rw [main_loop_valid env r _ d _ _ _ _ _ hline hh hbe]
          simp only at h ⊢
          rw [ih _ h]
          simp

/-- The loop is left by `return 1` exactly when some line is badly formatted. -/
theorem main_loop_returned1 (env : Env) (rois : List RoiInput) (d : pileup_data_t) :
    (main_loop env rois d).returned1 = false ↔ ∀ r ∈ rois, r.line ≠ RoiLine.badly_formatted := by
  induction rois generalizing d with
  | nil => simp [main_loop]
  | cons r rest ih =>
    have key (hr : r.line ≠ RoiLine.badly_formatted) :
        (∀ x ∈ r :: rest, x.line ≠ RoiLine.badly_formatted) ↔
          ∀ x ∈ rest, x.line ≠ RoiLine.badly_formatted := by
      constructor
      · intro hx y hy; exact hx y (List.mem_cons_of_mem _ hy)
      · intro hx y hy
        rcases List.mem_cons.mp hy with hy | hy
        · subst hy; exact hr
        · exact hx y hy
    cases hline : r.line with
    | badly_formatted =>
      rw [main_loop_bad env r rest d hline]
      simp only [Bool.true_eq_false, false_iff]
      intro hall
      exact hall r (List.mem_cons_self _ _) hline
    | fields4 ref_name start stop gene_name =>
      rw [key (by rw [hline]; simp)]
      cases hh : env.hdr_hash ref_name with
      | none =>
        rw [main_loop_unknown env r _ d _ _ _ _ hline hh]
        exact ih _
      | some ref_id =>
        by_cases hbe : (sscanf_store d start stop).beg > (sscanf_store d start stop).end_
        · rw [main_loop_inverted env r _ d _ _ _ _ _ hline hh hbe]
          exact ih _
        · rw [main_loop_valid env r _ d _ _ _ _ _ hline hh hbe]
          exact ih _

/-- Reading an ROI record keeps the loaded chromosome and its cache. -/
theorem loaded_sscanf_store (env : Env) (d : pileup_data_t) (start stop : Nat)
    (hl : Loaded env d) : Loaded env (sscanf_store d start stop) := by
  rcases hl with hl | ⟨id, e1, e2, e3, e4⟩
  · left; exact hl
  · right; exact ⟨id, e1, e2, e3, e4⟩

/-- The reference fields are part of the static part. -/
theorem ref_fields_of_static (x y : pileup_data_t) (h : static_part x = static_part y) :
    x.ref_id = y.ref_id ∧ x.ref_seq = y.ref_seq ∧ x.ref_len = y.ref_len ∧
    x.beg = y.beg ∧ x.end_ = y.end_ ∧ x.bp_class_number = y.bp_class_number ∧
    x.unknown = y.unknown ∧ x.iub = y.iub := by
  refine ⟨?_, ?_, ?_, ?_, ?_, ?_, ?_, ?_⟩
  · have := congrArg pileup_data_t.ref_id h; exact this
  · have := congrArg pileup_data_t.ref_seq h; exact this
  · have := congrArg pileup_data_t.ref_len h; exact this
  · have := congrArg pileup_data_t.beg h; exact this
  · have := congrArg pileup_data_t.end_ h; exact this
  · have := congrArg pileup_data_t.bp_class_number h; exact this
  · have := congrArg pileup_data_t.unknown h; exact this
  · have := congrArg pileup_data_t.iub h; exact this

/-- After an ROI has been processed the loaded chromosome is the one of the
ROI and its cache is consistent. -/
theorem loaded_roi_process (env : Env) (d : pileup_data_t) (id : Nat) (r : RoiInput)
    (hl : Loaded env d) : Loaded env (roi_process env d id r) := by
  obtain ⟨_, _, _, _, a1, a2, a3, a4⟩ := roi_prepare_dynamic env d id hl
  have hV : CacheOK (run_pileup1 r.pileup1 (roi_prepare env d id)) :=
    run_pileup1_cacheOK _ _ a4
  have hD := (run_pileup2_counts r.pileup2 _ hV).1
  have hs := ref_fields_of_static _ _
    (run_pileup2_static r.pileup2 (run_pileup1 r.pileup1 (roi_prepare env d id)))
  have h1 := run_pileup1_eq r.pileup1 (roi_prepare env d id)
  right
  refine ⟨id, ?_, ?_, ?_, hD⟩
  · unfold roi_process; rw [hs.1, h1]; exact a1
  · unfold roi_process; rw [hs.2.1, h1]; exact a2
  · unfold roi_process; rw [hs.2.2.1, h1]; exact a3

/-- The loop invariant holds for the configured state. -/
theorem loopInv_cfg (env : Env) (cfg : pileup_data_t) (h : cfg.ref_seq = none) :
    LoopInv env cfg cfg := ⟨rfl, Or.inl h⟩

/-- The loop invariant is kept by the whole loop. -/
theorem main_loop_inv (env : Env) (cfg : pileup_data_t) (rois : List RoiInput)
    (d : pileup_data_t) (h : LoopInv env cfg d) :
    LoopInv env cfg (main_loop env rois d).data := by
  induction rois generalizing d with
  | nil => exact h
  | cons r rest ih =>
    cases hline : r.line with
    | badly_formatted =>
      rw [main_loop_bad env r rest d hline]
      exact h
    | fields4 ref_name start stop gene_name =>
      have h0 : LoopInv env cfg (sscanf_store d start stop) :=
        ⟨by rw [cfg_part_sscanf_store]; exact h.1, loaded_sscanf_store env d start stop h.2⟩
      cases hh : env.hdr_hash ref_name with
      | none =>
        rw [main_loop_unknown env r _ d _ _ _ _ hline hh]
        exact ih _ h0
      | some ref_id =>
        by_cases hbe : (sscanf_store d start stop).beg > (sscanf_store d start stop).end_
        · rw [main_loop_inverted env r _ d _ _ _ _ _ hline hh hbe]
          exact ih _ h0
        · rw [main_loop_valid env r _ d _ _ _ _ _ hline hh hbe]
          apply ih
          exact ⟨by rw [cfg_part_roi_process]; exact h0.1, loaded_roi_process env _ ref_id r h0.2⟩

/-- The printed class columns depend on `base_cnt[0 .. N-1]` only (`N ≥ 1`). -/
theorem class_columns_congr (f g : Nat → Nat) (n : Nat) (hn : 1 ≤ n)
    (h : ∀ j, j < n → f j = g j) : class_columns f n = class_columns g n := by
  unfold class_columns
  congr 1
  · apply List.map_congr_left
    intro j hj
    rw [List.mem_range] at hj
    exact h j (by omega)
  · rw [h (n - 1) (by omega)]

/-- The counters of a processed ROI in terms of the state `V` with which the
bam2 pileup starts: `covd_bases` is the number of counted columns and
`base_cnt[j]`, for a configured class `j`, the number of counted columns of
class `j`. -/
theorem roi_process_counts (env : Env) (d : pileup_data_t) (id : Nat) (r : RoiInput)
    (hl : Loaded env d) :
    (roi_process env d id r).covd_bases
      = (covered_cols (run_pileup1 r.pileup1 (roi_prepare env d id)) r.pileup2).length ∧
    (∀ j, j < d.bp_class_number → (roi_process env d id r).base_cnt j
      = (covered_cols (run_pileup1 r.pileup1 (roi_prepare env d id)) r.pileup2).countP
          (fun c => decide (classify (run_pileup1 r.pileup1 (roi_prepare env d id)) c.pos = j))) ∧
    static_part (roi_process env d id r)
      = static_part (run_pileup1 r.pileup1 (roi_prepare env d id)) := by
  obtain ⟨a1, a2, _, _, _, _, _, a4⟩ := roi_prepare_dynamic env d id hl
  have hV : CacheOK (run_pileup1 r.pileup1 (roi_prepare env d id)) :=
    run_pileup1_cacheOK _ _ a4
  obtain ⟨_, c1, c2⟩ := run_pileup2_counts r.pileup2 _ hV
  have h1 := run_pileup1_eq r.pileup1 (roi_prepare env d id)
  have hc : (run_pileup1 r.pileup1 (roi_prepare env d id)).covd_bases = 0 := by
    rw [h1]; exact a1
  have hb : ∀ j, j < d.bp_class_number →
      (run_pileup1 r.pileup1 (roi_prepare env d id)).base_cnt j = 0 := by
    intro j hj
    rw [h1]; exact a2 j hj
  refine ⟨?_, ?_, run_pileup2_static _ _⟩
  · unfold roi_process
    rw [c1, hc, Nat.zero_add]
  · intro j hj
    unfold roi_process
    rw [c2 j, hb j hj, Nat.zero_add]

/-- The row of a valid ROI is the one that a fresh run writes for it: it does
not depend on the ROIs processed before (`N ≥ 1` classes). -/
theorem roi_row_fresh (env : Env) (d : pileup_data_t) (id start stop : Nat) (r : RoiInput)
    (gene_name ref_name : String) (hl : Loaded env d) (hn : 1 ≤ d.bp_class_number) :
    roi_row gene_name ref_name (sscanf_store d start stop)
        (roi_process env (sscanf_store d start stop) id r)
      = roi_row gene_name ref_name (sscanf_store (cfg_part d) start stop)
          (roi_process env (sscanf_store (cfg_part d) start stop) id r) := by
  have hl1 := loaded_sscanf_store env d start stop hl
  have hl2 : Loaded env (sscanf_store (cfg_part d) start stop) := Or.inl rfl
  obtain ⟨x1, x2, x3⟩ := roi_process_counts env (sscanf_store d start stop) id r hl1
  obtain ⟨y1, y2, y3⟩ := roi_process_counts env (sscanf_store (cfg_part d) start stop) id r hl2
  have hs := run_pileup1_static r.pileup1 _ _ (roi_prepare_static env d start stop id hl)
  have hcov := passes2_static _ _ hs
  have hcl := classify_static _ _ hs
  have hf := ref_fields_of_static _ _ (x3.trans (hs.trans y3.symm))
  unfold roi_row
  congr 1
  · rw [hf.2.2.2.1]
  · exact hf.2.2.2.2.1
  · rw [x1, y1]
    unfold covered_cols
    rw [hcov]
  · rw [hf.2.2.2.2.2.1]
    have hN : (roi_process env (sscanf_store (cfg_part d) start stop) id r).bp_class_number
        = d.bp_class_number := by
      have := congrArg pileup_data_t.bp_class_number
        (cfg_part_roi_process env (sscanf_store (cfg_part d) start stop) id r)
      exact this
    rw [hN]
    apply class_columns_congr _ _ _ hn
    intro j hj
    rw [x2 j hj, y2 j hj]
    unfold covered_cols
    rw [hcov, hcl]

/-- A run writes the rows of its ROI loop. -/
theorem main_rows (env : Env) (q n t : Int) (types : List Char) (heap : Nat → List Char)
    (rois : List RoiInput) :
    (main env q n t types heap rois).rows
      = (main_loop env rois (main_config q n t types heap)).rows := by
  unfold main
  simp only []
  split_ifs <;> rfl

/-- Every step of the tokenizer loop on a non-empty string ends with at least
one more token counted. -/
theorem sep_loop_tokenNum_pos (c : Char) (s : List Char) (hs : s ≠ []) (st : sep_state) :
    st.tokenNum + 1 ≤ (sep_loop c s st).tokenNum := by
  induction s generalizing st with
  | nil => exact absurd rfl hs
  | cons ch s ih =>
    cases s with
    | nil => simp [sep_loop]
    | cons nxt rest =>
      have hne : nxt :: rest ≠ [] := by simp
      rw [sep_loop]
      by_cases h1 : ch ≠ c
      · rw [if_pos h1]
        simp only []
        by_cases h2 : nxt = c
        · rw [if_pos h2]
          have h3 : (st.buff1 ++ [ch]).length ≠ 0 := by simp
          rw [if_pos h3]
          have := ih hne
            { buff1 := [], y := st.y + 1, tokenNum := st.tokenNum + 1,
              container := arr_set st.container st.y (st.buff1 ++ [ch]) }
          simp only at this
          omega
        · rw [if_neg h2]
          exact ih hne { st with buff1 := st.buff1 ++ [ch] }
      · rw [if_neg h1]
        exact ih hne st

/-- A non-empty class string configures at least one class, no chromosome is
loaded at the start of the loop, and `unknown = iub + 1 = N + 1`. -/
theorem main_config_facts (q n t : Int) (types : List Char) (heap : Nat → List Char) :
    (main_config q n t types heap).ref_seq = none ∧
    (main_config q n t types heap).iub = (main_config q n t types heap).bp_class_number ∧
    (main_config q n t types heap).unknown = (main_config q n t types heap).iub + 1 ∧
    (main_config q n t types heap).tot_covd_bases = 0 ∧
    (types ≠ [] → 1 ≤ (main_config q n t types heap).bp_class_number) := by
  refine ⟨rfl, rfl, rfl, rfl, ?_⟩
  intro h
  have := sep_loop_tokenNum_pos ',' types h
    { buff1 := [], y := 0, tokenNum := 0, container := heap }
  simpa [main_config, separateString] using this

/-- The rows written for a single record do not depend on the state in which
the loop reaches it. -/
theorem main_loop_single_rows (env : Env) (cfg d : pileup_data_t) (r : RoiInput)
    (hinv : LoopInv env cfg d) (hcfg : cfg.ref_seq = none) (hn : 1 ≤ cfg.bp_class_number) :
    (main_loop env [r] d).rows = (main_loop env [r] cfg).rows := by
  have hN : d.bp_class_number = cfg.bp_class_number := by
    have := congrArg pileup_data_t.bp_class_number hinv.1
    exact this
  cases hline : r.line with
  | badly_formatted =>
    rw [main_loop_bad env r [] d hline, main_loop_bad env r [] cfg hline]
  | fields4 ref_name start stop gene_name =>
    cases hh : env.hdr_hash ref_name with
    | none =>
      rw [main_loop_unknown env r _ d _ _ _ _ hline hh,
        main_loop_unknown env r _ cfg _ _ _ _ hline hh]
      rfl
    | some ref_id =>
      by_cases hbe : (sscanf_store d start stop).beg > (sscanf_store d start stop).end_
      · have hbe' : (sscanf_store cfg start stop).beg > (sscanf_store cfg start stop).end_ := hbe
        rw [main_loop_inverted env r _ d _ _ _ _ _ hline hh hbe,
          main_loop_inverted env r _ cfg _ _ _ _ _ hline hh hbe']
        rfl
      · have hbe' : ¬ (sscanf_store cfg start stop).beg > (sscanf_store cfg start stop).end_ :=
          hbe
        rw [main_loop_valid env r _ d _ _ _ _ _ hline hh hbe,
          main_loop_valid env r _ cfg _ _ _ _ _ hline hh hbe']
        simp only [main_loop]
        rw [roi_row_fresh env d ref_id start stop r gene_name ref_name hinv.2 (by omega),
          roi_row_fresh env cfg ref_id start stop r gene_name ref_name (Or.inl hcfg) hn,
          hinv.1]

/-! ## Claims on whole runs -/

/-- C8: the row reported for an ROI (covered-base count and per-class counts)
is the same whether the ROI is processed first, with a fresh class cache, or
after any sequence of earlier ROIs: the rows of a run on `pre ++ [r]` are the
rows of the run on `pre` followed by the rows of the run on `r` alone. -/
theorem roi_rows_independent (env : Env) (q n t : Int) (types : List Char)
    (heap : Nat → List Char) (pre : List RoiInput) (r : RoiInput)
    (htypes : types ≠ []) (hpre : ∀ x ∈ pre, x.line ≠ RoiLine.badly_formatted) :
    (main env q n t types heap (pre ++ [r])).rows
      = (main env q n t types heap pre).rows ++ (main env q n t types heap [r]).rows := by
  obtain ⟨hc, _, _, _, hn⟩ := main_config_facts q n t types heap
  rw [main_rows, main_rows, main_rows,
    main_loop_append env pre [r] _ ((main_loop_returned1 env pre _).mpr hpre)]
  simp only
  rw [main_loop_single_rows env (main_config q n t types heap) _ r
    (main_loop_inv env _ pre _ (loopInv_cfg env _ hc)) hc (hn htypes)]

/-- C7 (amended): a badly formatted ROI line ends the run: the exit status
is 1, the totals row is not written, no later ROI is processed, and the rows
written are those of the ROIs before the line. -/
theorem malformed_roi_aborts (env : Env) (q n t : Int) (types : List Char)
    (heap : Nat → List Char) (pre post : List RoiInput) (bad : RoiInput)
    (hbad : bad.line = RoiLine.badly_formatted)
    (hpre : ∀ x ∈ pre, x.line ≠ RoiLine.badly_formatted) :
    (main env q n t types heap (pre ++ bad :: post)).status = 1 ∧
    (main env q n t types heap (pre ++ bad :: post)).totals = none ∧
    (main env q n t types heap (pre ++ bad :: post)).rows
      = (main env q n t types heap pre).rows := by
  have hl := main_loop_append env pre (bad :: post) (main_config q n t types heap)
    ((main_loop_returned1 env pre _).mpr hpre)
  rw [main_loop_bad env bad post _ hbad] at hl
  simp only [List.append_nil] at hl
  refine ⟨?_, ?_, ?_⟩
  · unfold main
    rw [hl]
    rfl
  · unfold main
    rw [hl]
    rfl
  · rw [main_rows, main_rows, hl]

/-! ## The mask and the coverage intersection -/

/-- The fields of the prepared state that do not depend on the chromosome:
counters reset, mask cleared, thresholds and totals as before. -/
theorem roi_prepare_fields (env : Env) (d : pileup_data_t) (id : Nat) :
    (roi_prepare env d id).covd_bases = 0 ∧
    (roi_prepare env d id).bam1_cvg = (fun _ => false) ∧
    (roi_prepare env d id).tot_covd_bases = d.tot_covd_bases ∧
    (roi_prepare env d id).tot_base_cnt = d.tot_base_cnt ∧
    (roi_prepare env d id).min_mapq = d.min_mapq ∧
    (roi_prepare env d id).min_depth_bam1 = d.min_depth_bam1 ∧
    (roi_prepare env d id).min_depth_bam2 = d.min_depth_bam2 := by
  have hq := load_chromosome_eq env (roi_reset d) id
  unfold roi_prepare
  rw [hq]
  exact ⟨rfl, rfl, rfl, rfl, rfl, rfl, rfl⟩

/-- The bam1 callback keeps the interval and the thresholds. -/
theorem pileup_func_1_frame (pos : Nat) (pl : List bam_pileup1_t) (x : pileup_data_t) :
    (pileup_func_1 pos pl x).beg = x.beg ∧ (pileup_func_1 pos pl x).end_ = x.end_ ∧
    (pileup_func_1 pos pl x).min_mapq = x.min_mapq ∧
    (pileup_func_1 pos pl x).min_depth_bam1 = x.min_depth_bam1 := by
  rw [pileup_func_1_eq]
  exact ⟨rfl, rfl, rfl, rfl⟩

/-- A mask entry that is set after the bam1 pileup was set before it, or some
column of the pileup inside `[beg,end)` at that offset passed the bam1 gate. -/
theorem run_pileup1_mask_true (cols : List Column) (x : pileup_data_t) (i : Nat)
    (h : (run_pileup1 cols x).bam1_cvg i = true) :
    x.bam1_cvg i = true ∨
      ∃ c ∈ cols, c.pos ≥ x.beg ∧ c.pos < x.end_ ∧ c.pos - x.beg = i ∧
        mapq_count c.pl x.min_mapq ≥ x.min_depth_bam1 := by
  induction cols generalizing x with
  | nil => left; exact h
  | cons c cs ih =>
    have hrun : run_pileup1 (c :: cs) x = run_pileup1 cs (pileup_func_1 c.pos c.pl x) := rfl
    rw [hrun] at h
    obtain ⟨f1, f2, f3, f4⟩ := pileup_func_1_frame c.pos c.pl x
    rcases ih _ h with h1 | ⟨c', hc', g1, g2, g3, g4⟩
    · unfold pileup_func_1 at h1
      by_cases hr : c.pos ≥ x.beg ∧ c.pos < x.end_
      · rw [if_pos hr] at h1
        by_cases hi : i = c.pos - x.beg
        · right
          refine ⟨c, List.mem_cons_self _ _, hr.1, hr.2, hi.symm, ?_⟩
          simpa [arr_set, hi] using h1
        · left
          simpa [arr_set, hi] using h1
      · rw [if_neg hr] at h1
        left; exact h1
    · right
      rw [f1] at g1 g3
      rw [f2] at g2
      rw [f3, f4] at g4
      exact ⟨c', List.mem_cons_of_mem _ hc', g1, g2, g3, g4⟩

/-- A bam2 pileup all of whose columns fail the column test changes nothing. -/
theorem run_pileup2_none (cols : List Column) (x : pileup_data_t)
    (h : ∀ c ∈ cols, passes2 x c = false) : run_pileup2 cols x = x := by
  induction cols with
  | nil => rfl
  | cons c cs ih =>
    have hrun : run_pileup2 (c :: cs) x = run_pileup2 cs (pileup_func_2 c.pos c.pl x) := rfl
    rw [hrun, pileup_func_2_skip x c (h c (List.mem_cons_self _ _))]
    exact ih (fun c' hc' => h c' (List.mem_cons_of_mem _ hc'))

/-- C3: while the bam2 pileup of an ROI runs (the state `W` has the static
part reached after the bam1 pileup `cols1`), a column at `p` changes
`covd_bases` only if `p` is in `[beg,end)`, some bam1 column at `p` passed the
bam1 gate (which set the mask at `p`), and the column passes the bam2 gate; it
then adds exactly 1. In every other case the whole state (ROI counters,
totals, class cache) is unchanged. In particular, when every bam2 column of
an ROI is below `min_depth_bam2`, the ROI ends with `covd_bases = 0` and
unchanged totals. -/
theorem coverage_intersection (env : Env) (d : pileup_data_t) (id : Nat)
    (cols1 : List Column) (W : pileup_data_t)
    (hW : static_part W = static_part (run_pileup1 cols1 (roi_prepare env d id)))
    (c : Column) :
    ((pileup_func_2 c.pos c.pl W).covd_bases ≠ W.covd_bases →
      (W.beg ≤ c.pos ∧ c.pos < W.end_) ∧
      W.bam1_cvg (c.pos - W.beg) = true ∧
      (∃ c1 ∈ cols1, c1.pos = c.pos ∧ mapq_count c1.pl W.min_mapq ≥ W.min_depth_bam1) ∧
      mapq_count c.pl W.min_mapq ≥ W.min_depth_bam2 ∧
      (pileup_func_2 c.pos c.pl W).covd_bases = W.covd_bases + 1) ∧
    (¬ ((W.beg ≤ c.pos ∧ c.pos < W.end_) ∧ W.bam1_cvg (c.pos - W.beg) = true ∧
        mapq_count c.pl W.min_mapq ≥ W.min_depth_bam2) →
      pileup_func_2 c.pos c.pl W = W) ∧
    (∀ r : RoiInput,
      (∀ c2 ∈ r.pileup2, mapq_count c2.pl d.min_mapq < d.min_depth_bam2) →
      (roi_process env d id r).covd_bases = 0 ∧
      (roi_process env d id r).tot_covd_bases = d.tot_covd_bases ∧
      (roi_process env d id r).tot_base_cnt = d.tot_base_cnt) := by
  obtain ⟨p1, p2, p3, p4, p5, p6, p7⟩ := roi_prepare_fields env d id
  refine ⟨?_, ?_, ?_⟩
  · intro hne
    have hp : passes2 W c = true := by
      by_contra hp
      exact hne (by rw [pileup_func_2_skip W c (by simpa using hp)])
    have hp' := hp
    unfold passes2 at hp'
    simp only [Bool.and_eq_true, decide_eq_true_eq] at hp'
    obtain ⟨⟨h1, h2, h3⟩, h4⟩ := hp'
    have hm : W.bam1_cvg = (run_pileup1 cols1 (roi_prepare env d id)).bam1_cvg := by
      have := congrArg pileup_data_t.bam1_cvg hW
      exact this
    have hb : W.beg = (roi_prepare env d id).beg := by
      have := congrArg pileup_data_t.beg hW
      rw [run_pileup1_eq] at this
      exact this
    have hq : W.min_mapq = (roi_prepare env d id).min_mapq := by
      have := congrArg pileup_data_t.min_mapq hW
      rw [run_pileup1_eq] at this
      exact this
    have hd1 : W.min_depth_bam1 = (roi_prepare env d id).min_depth_bam1 := by
      have := congrArg pileup_data_t.min_depth_bam1 hW
      rw [run_pileup1_eq] at this
      exact this
    refine ⟨⟨h1, h2⟩, h3, ?_, h4, ?_⟩
    · rw [hm] at h3
      rcases run_pileup1_mask_true cols1 _ _ h3 with h0 | ⟨c1, hc1, g1, _, g3, g4⟩
      · rw [p2] at h0
        exact absurd h0 (by simp)
      · refine ⟨c1, hc1, ?_, ?_⟩
        · rw [← hb] at g1 g3
          omega
        · rw [hq, hd1]
          exact g4
    · by_cases hu : W.bp_class c.pos = W.unknown
      · rw [pileup_func_2_fresh W c hp hu]
      · rw [pileup_func_2_cached W c hp hu]
  · intro hn
    apply pileup_func_2_skip
    unfold passes2
    by_contra hp
    simp only [Bool.not_eq_false, Bool.and_eq_true, decide_eq_true_eq] at hp
    exact hn ⟨⟨hp.1.1, hp.1.2.1⟩, hp.1.2.2, hp.2⟩
  · intro r hall
    have hV := run_pileup1_eq r.pileup1 (roi_prepare env d id)
    have hnone : run_pileup2 r.pileup2 (run_pileup1 r.pileup1 (roi_prepare env d id))
        = run_pileup1 r.pileup1 (roi_prepare env d id) := by
      apply run_pileup2_none
      intro c2 hc2
      have hlt := hall c2 hc2
      unfold passes2
      have hg : ¬ mapq_count c2.pl (run_pileup1 r.pileup1 (roi_prepare env d id)).min_mapq
          ≥ (run_pileup1 r.pileup1 (roi_prepare env d id)).min_depth_bam2 := by
        rw [hV]
        show ¬ mapq_count c2.pl (roi_prepare env d id).min_mapq
          ≥ (roi_prepare env d id).min_depth_bam2
        rw [p5, p7]
        omega
      simp [hg]
    unfold roi_process
    rw [hnone, hV]
    exact ⟨p1, p3, p4⟩

/-- Witness for C3: on `chr1` with the ROI record `3 6` and a uniform bam1
pileup, a bam2 column of ten good reads at position 3 adds 1 to `covd_bases`,
and a column of five reads changes nothing. -/
theorem coverage_intersection_witness :
    static_part demo_view
      = static_part (run_pileup1 (uniform_pileup 10 30 12)
          (roi_prepare demo_env (demo_start 3 6) 0)) ∧
    (pileup_func_2 (uniform_column 10 30 3).pos (uniform_column 10 30 3).pl demo_view).covd_bases
      = demo_view.covd_bases + 1 ∧
    pileup_func_2 (uniform_column 5 30 3).pos (uniform_column 5 30 3).pl demo_view = demo_view :=
  ⟨rfl,
    ((coverage_intersection demo_env (demo_start 3 6) 0 (uniform_pileup 10 30 12) demo_view rfl
      (uniform_column 10 30 3)).1 (by decide)).2.2.2.2,
    (coverage_intersection demo_env (demo_start 3 6) 0 (uniform_pileup 10 30 12) demo_view rfl
      (uniform_column 5 30 3)).2.1 (by decide)⟩

/-- Witness for C8: on `chr1`, the ROI `4 9` processed after the overlapping
ROI `2 6` gets the row it gets when processed alone. -/
theorem roi_rows_independent_witness :
    default_bp_class_types ≠ [] ∧
    (∀ x ∈ [demo_roi 2 6], x.line ≠ RoiLine.badly_formatted) ∧
    (main demo_env 20 6 8 default_bp_class_types (fun _ => []) ([demo_roi 2 6] ++ [demo_roi 4 9])).rows
      = (main demo_env 20 6 8 default_bp_class_types (fun _ => []) [demo_roi 2 6]).rows
        ++ (main demo_env 20 6 8 default_bp_class_types (fun _ => []) [demo_roi 4 9]).rows :=
  ⟨by decide, by decide,
    roi_rows_independent demo_env 20 6 8 default_bp_class_types (fun _ => []) [demo_roi 2 6]
      (demo_roi 4 9) (by decide) (by decide)⟩

/-- C7 (counterexample): with a badly formatted first line and a well-formed
second line, the run writes no row for the second line and no totals row, and
returns 1; the second line alone would have produced a row. -/
theorem malformed_roi_not_skipped :
    (main demo_env 20 6 8 default_bp_class_types (fun _ => []) [bad_roi, demo_roi 2 11]).rows = [] ∧
    (main demo_env 20 6 8 default_bp_class_types (fun _ => []) [bad_roi, demo_roi 2 11]).totals
      = none ∧
    (main demo_env 20 6 8 default_bp_class_types (fun _ => []) [bad_roi, demo_roi 2 11]).status = 1 ∧
    (main demo_env 20 6 8 default_bp_class_types (fun _ => []) [demo_roi 2 11]).rows.length = 1 := by
  decide

/-- Witness for C7 (amended): a badly formatted line between two ROIs of
`chr1`. -/
theorem malformed_roi_aborts_witness :
    bad_roi.line = RoiLine.badly_formatted ∧
    (∀ x ∈ [demo_roi 2 6], x.line ≠ RoiLine.badly_formatted) ∧
    (main demo_env 20 6 8 default_bp_class_types (fun _ => [])
      ([demo_roi 2 6] ++ bad_roi :: [demo_roi 4 9])).status = 1 :=
  ⟨rfl, by decide,
    (malformed_roi_aborts demo_env 20 6 8 default_bp_class_types (fun _ => []) [demo_roi 2 6]
      [demo_roi 4 9] bad_roi rfl (by decide)).1⟩

/-! ## Per-class counts of an ROI -/

/-- An indicator summed over `0 .. n-1`. -/
theorem sum_range_indicator (a n : Nat) :
    ((List.range n).map (fun j => if a = j then 1 else 0)).sum = if a < n then 1 else 0 := by
  induction n with
  | zero => simp
  | succ n ih =>
    rw [List.sum_range_succ, ih]
    by_cases h1 : a < n
    · have h2 : a ≠ n := by omega
      have h3 : a < n + 1 := by omega
      simp [h1, h2, h3]
    · by_cases h2 : a = n
      · subst h2; simp
      · have h3 : ¬ a < n + 1 := by omega
        simp [h1, h2, h3]

/-- Counting the elements of a list by the value of `f`, over all values
`0 .. n-1`, counts the elements whose value is below `n`. -/
theorem sum_countP_classes {α : Type} (L : List α) (f : α → Nat) (n : Nat) :
    ((List.range n).map (fun j => L.countP (fun x => decide (f x = j)))).sum
      = L.countP (fun x => decide (f x < n)) := by
  induction L with
  | nil => simp
  | cons x L ih =>
    have h : (fun j => (x :: L).countP (fun y => decide (f y = j)))
        = fun j => L.countP (fun y => decide (f y = j)) + (if f x = j then 1 else 0) := by
      funext j
      rw [List.countP_cons]
      simp
    rw [h, List.sum_map_add, ih, sum_range_indicator, List.countP_cons]
    simp

/-- The printed class columns sum to the sum of `base_cnt[0 .. N-1]`. -/
theorem class_columns_sum (f : Nat → Nat) (n : Nat) (hn : 1 ≤ n) :
    (class_columns f n).sum = ((List.range n).map f).sum := by
  obtain ⟨m, rfl⟩ : ∃ m, n = m + 1 := ⟨n - 1, by omega⟩
  unfold class_columns
  rw [List.sum_range_succ]
  simp

/-- The row that a run from `cfg` writes for a single valid record. -/
theorem main_loop_single_valid (env : Env) (cfg : pileup_data_t) (r : RoiInput)
    (ref_name gene_name : String) (start stop id : Nat)
    (hline : r.line = RoiLine.fields4 ref_name start stop gene_name)
    (hid : env.hdr_hash ref_name = some id)
    (hval : ¬ start % 4294967296 > stop % 4294967296) :
    (main_loop env [r] cfg).rows
      = [roi_row gene_name ref_name (sscanf_store cfg start stop)
          (roi_process env (sscanf_store cfg start stop) id r)] := by
  have hbe : ¬ (sscanf_store cfg start stop).beg > (sscanf_store cfg start stop).end_ := hval
  rw [main_loop_valid env r _ cfg _ _ _ _ _ hline hid hbe]
  simp [main_loop]

/-- The class computed for a position is a configured class or `IUB`:
if it is not below `N` it is `N`. -/
theorem classify_lt_or_iub (V : pileup_data_t) (p : Nat) :
    classify V p < V.iub ∨ classify V p = V.iub := by
  have := classify_le_iub V p
  omega

/-- C2 (amended): in the row of a processed ROI, the sum of the per-class
columns plus the number of the ROI's counted columns whose position matches
no configured class (class IUB, counted in `base_cnt[N]`, which is not a
column of the row) equals `covd_bases`. -/
theorem roi_row_class_sum (env : Env) (q n t : Int) (types : List Char)
    (heap : Nat → List Char) (pre : List RoiInput) (r : RoiInput)
    (ref_name gene_name : String) (start stop id : Nat)
    (htypes : types ≠ []) (hpre : ∀ x ∈ pre, x.line ≠ RoiLine.badly_formatted)
    (hline : r.line = RoiLine.fields4 ref_name start stop gene_name)
    (hid : env.hdr_hash ref_name = some id)
    (hval : ¬ start % 4294967296 > stop % 4294967296) :
    ∃ row, (main env q n t types heap (pre ++ [r])).rows
        = (main env q n t types heap pre).rows ++ [row] ∧
      row.base_cnt.sum
          + iub_hits (roi_view env (main_config q n t types heap) id start stop r.pileup1)
              r.pileup2
        = row.covd_bases := by
  obtain ⟨hc, hiub, _, _, hn⟩ := main_config_facts q n t types heap
  have hN := hn htypes
  refine ⟨roi_row gene_name ref_name (sscanf_store (main_config q n t types heap) start stop)
    (roi_process env (sscanf_store (main_config q n t types heap) start stop) id r), ?_, ?_⟩
  · rw [main_rows, main_rows,
      main_loop_append env pre [r] _ ((main_loop_returned1 env pre _).mpr hpre)]
    simp only
    rw [main_loop_single_rows env (main_config q n t types heap) _ r
      (main_loop_inv env _ pre _ (loopInv_cfg env _ hc)) hc hN,
      main_loop_single_valid env _ r ref_name gene_name start stop id hline hid hval]
  · have hl : Loaded env (sscanf_store (main_config q n t types heap) start stop) := Or.inl rfl
    obtain ⟨x1, x2, x3⟩ := roi_process_counts env _ id r hl
    have hNr : (roi_process env (sscanf_store (main_config q n t types heap) start stop)
        id r).bp_class_number = (main_config q n t types heap).bp_class_number := by
      have := congrArg pileup_data_t.bp_class_number (cfg_part_roi_process env
        (sscanf_store (main_config q n t types heap) start stop) id r)
      exact this
    have hVi : (roi_view env (main_config q n t types heap) id start stop r.pileup1).iub
        = (main_config q n t types heap).bp_class_number := by
      have := congrArg pileup_data_t.iub (cfg_part_roi_prepare env
        (sscanf_store (main_config q n t types heap) start stop) id)
      unfold roi_view
      rw [run_pileup1_eq]
      exact this.trans hiub
    unfold roi_row iub_hits
    simp only
    rw [hNr, class_columns_sum _ _ hN, x1]
    have hmap : (List.range (main_config q n t types heap).bp_class_number).map
          (roi_process env (sscanf_store (main_config q n t types heap) start stop) id r).base_cnt
        = (List.range (main_config q n t types heap).bp_class_number).map (fun j =>
            (covered_cols (roi_view env (main_config q n t types heap) id start stop r.pileup1)
              r.pileup2).countP (fun c => decide
                (classify (roi_view env (main_config q n t types heap) id start stop r.pileup1)
                  c.pos = j))) := by
      apply List.map_congr_left
      intro j hj
      rw [List.mem_range] at hj
      exact x2 j hj
    rw [hmap, sum_countP_classes, hVi]
    have hV : roi_view env (main_config q n t types heap) id start stop r.pileup1
        = run_pileup1 r.pileup1
            (roi_prepare env (sscanf_store (main_config q n t types heap) start stop) id) := rfl
    rw [← hV]
    generalize covered_cols (roi_view env (main_config q n t types heap) id start stop
      r.pileup1) r.pileup2 = L
    have hcls := fun p => classify_lt_or_iub
      (roi_view env (main_config q n t types heap) id start stop r.pileup1) p
    rw [hVi] at hcls
    induction L with
    | nil => simp
    | cons c L ih =>
      rw [List.countP_cons, List.countP_cons, List.length_cons]
      rcases hcls c.pos with h | h
      · have h2 : ¬ classify (roi_view env (main_config q n t types heap) id start stop
            r.pileup1) c.pos = (main_config q n t types heap).bp_class_number := by omega
        simp [h, h2]
        omega
      · have h2 : ¬ classify (roi_view env (main_config q n t types heap) id start stop
            r.pileup1) c.pos < (main_config q n t types heap).bp_class_number := by omega
        simp [h, h2]
        omega

/-- C2 (counterexample): with the default class list, the ROI `3 6` of `chr1`
(bases `C N T A`) has 4 covered bases but its class columns are 2, 1, 0: their
sum is 3, the `N` being counted in the IUB bucket that is not printed. -/
theorem roi_row_sum_misses_iub :
    (main demo_env 20 6 8 default_bp_class_types (fun _ => []) [demo_roi 3 6]).rows.map
        (fun row => (row.covd_bases, row.base_cnt, row.base_cnt.sum))
      = [(4, [2, 1, 0], 3)] := by
  decide

/-- Witness for C2 (amended): the ROI `3 6` of `chr1` processed after the ROI
`2 6`. -/
theorem roi_row_class_sum_witness :
    default_bp_class_types ≠ [] ∧
    (∀ x ∈ [demo_roi 2 6], x.line ≠ RoiLine.badly_formatted) ∧
    (demo_roi 3 6).line = RoiLine.fields4 "chr1" 3 6 "gene" ∧
    demo_env.hdr_hash "chr1" = some 0 ∧
    ¬ 3 % 4294967296 > 6 % 4294967296 ∧
    ∃ row, (main demo_env 20 6 8 default_bp_class_types (fun _ => [])
          ([demo_roi 2 6] ++ [demo_roi 3 6])).rows
        = (main demo_env 20 6 8 default_bp_class_types (fun _ => []) [demo_roi 2 6]).rows ++ [row] ∧
      row.base_cnt.sum
          + iub_hits (roi_view demo_env (main_config 20 6 8 default_bp_class_types (fun _ => []))
              0 3 6 (demo_roi 3 6).pileup1) (demo_roi 3 6).pileup2
        = row.covd_bases :=
  ⟨by decide, by decide, rfl, by decide, by decide,
    roi_row_class_sum demo_env 20 6 8 default_bp_class_types (fun _ => []) [demo_roi 2 6]
      (demo_roi 3 6) "chr1" "gene" 3 6 0 (by decide) (by decide) rfl (by decide) (by decide)⟩

/-! ## Genome-wide totals -/

/-- The bam2 pileup of an ROI on chromosome `id`: if the cache marks exactly
the positions of the pairs in `S` and the total is the size of `S`, the same
holds afterwards for `S` extended by the pairs of the counted columns. -/
theorem run_pileup2_totals (cols : List Column) (x : pileup_data_t) (id : Nat)
    (S : Finset (Nat × Nat)) (hiu : x.iub < x.unknown)
    (hS : ∀ p, x.bp_class p ≠ x.unknown ↔ (id, p) ∈ S)
    (ht : x.tot_covd_bases = S.card) :
    (run_pileup2 cols x).tot_covd_bases
      = (S ∪ ((covered_cols x cols).map (fun c => (id, c.pos))).toFinset).card ∧
    ∀ p, (run_pileup2 cols x).bp_class p ≠ x.unknown ↔
      (id, p) ∈ S ∪ ((covered_cols x cols).map (fun c => (id, c.pos))).toFinset := by
  induction cols generalizing x S with
  | nil => simpa [run_pileup2, covered_cols] using ⟨ht, hS⟩
  | cons c cs ih =>
    have hrun : run_pileup2 (c :: cs) x = run_pileup2 cs (pileup_func_2 c.pos c.pl x) := rfl
    have hst := pileup_func_2_static c.pos c.pl x
    have hps := passes2_static _ _ hst
    have hf := ref_fields_of_static _ _ hst
    rw [hrun]
    by_cases h : passes2 x c = true
    · have hcov : covered_cols x (c :: cs) = c :: covered_cols (pileup_func_2 c.pos c.pl x) cs := by
        unfold covered_cols
        rw [List.filter_cons_of_pos h, hps]
      rw [hcov, List.map_cons, List.toFinset_cons, Finset.union_insert,
        ← Finset.insert_union]
      have key : (pileup_func_2 c.pos c.pl x).tot_covd_bases = (insert (id, c.pos) S).card ∧
          ∀ p, (pileup_func_2 c.pos c.pl x).bp_class p ≠ (pileup_func_2 c.pos c.pl x).unknown ↔
            (id, p) ∈ insert (id, c.pos) S := by
        rw [hf.2.2.2.2.2.2.1]
        by_cases hu : x.bp_class c.pos = x.unknown
        · have hnot : (id, c.pos) ∉ S := fun hin => ((hS c.pos).mpr hin) hu
          rw [pileup_func_2_fresh x c h hu]
          refine ⟨by rw [Finset.card_insert_of_not_mem hnot]; simp only; omega, ?_⟩
          intro p
          by_cases hp : p = c.pos
          · rw [hp]
            have := classify_le_iub x c.pos
            simp [arr_set]
            omega
          · have hne : (id, p) ≠ (id, c.pos) := by
              intro he
              exact hp (Prod.mk.inj he).2
            simp only [arr_set, hp, if_false, Finset.mem_insert, hne, false_or]
            exact hS p
        · have hin : (id, c.pos) ∈ S := (hS c.pos).mp hu
          rw [pileup_func_2_cached x c h hu, Finset.insert_eq_of_mem hin]
          exact ⟨ht, hS⟩
      have hiu' : (pileup_func_2 c.pos c.pl x).iub < (pileup_func_2 c.pos c.pl x).unknown := by
        rw [hf.2.2.2.2.2.2.1, hf.2.2.2.2.2.2.2]; exact hiu
      have := ih (pileup_func_2 c.pos c.pl x) (insert (id, c.pos) S) hiu' key.2 key.1
      rw [hf.2.2.2.2.2.2.1] at this
      exact this
    · have hcov : covered_cols x (c :: cs) = covered_cols x cs := by
        unfold covered_cols
        rw [List.filter_cons_of_neg h]
      rw [hcov, pileup_func_2_skip x c (by simpa using h)]
      exact ih x S hiu hS ht

/-- The class cache after the preparation of an ROI: blank if the chromosome
was (re)loaded, unchanged otherwise; the sentinel values are unchanged. -/
theorem roi_prepare_cache (env : Env) (d : pileup_data_t) (id : Nat) :
    (roi_prepare env d id).bp_class
      = (if d.ref_seq.isNone ∨ (id : Int) ≠ d.ref_id then (fun _ => d.unknown) else d.bp_class) ∧
    (roi_prepare env d id).unknown = d.unknown ∧
    (roi_prepare env d id).iub = d.iub := by
  have h1 : (roi_prepare env d id).bp_class = (load_chromosome env (roi_reset d) id).bp_class := by
    simp only [roi_prepare, tip_adjust]
  have h2 : (roi_prepare env d id).unknown = (load_chromosome env (roi_reset d) id).unknown := by
    simp only [roi_prepare, tip_adjust]
  have h3 : (roi_prepare env d id).iub = (load_chromosome env (roi_reset d) id).iub := by
    simp only [roi_prepare, tip_adjust]
  rw [h1, h2, h3]
  have hc : ((roi_reset d).ref_seq.isNone ∨ (id : Int) ≠ (roi_reset d).ref_id)
      ↔ (d.ref_seq.isNone ∨ (id : Int) ≠ d.ref_id) := Iff.rfl
  unfold load_chromosome
  by_cases h : (roi_reset d).ref_seq.isNone ∨ (id : Int) ≠ (roi_reset d).ref_id
  · rw [if_pos h, if_pos (hc.mp h)]
    exact ⟨rfl, rfl, rfl⟩
  · rw [if_neg h, if_neg (fun h' => h (hc.mpr h'))]
    exact ⟨rfl, rfl, rfl⟩

/-- The chromosomes of a list of records that starts with a valid record. -/
theorem roi_chroms_valid (env : Env) (r : RoiInput) (rest : List RoiInput)
    (ref_name gene_name : String) (start stop id : Nat)
    (hline : r.line = RoiLine.fields4 ref_name start stop gene_name)
    (hid : env.hdr_hash ref_name = some id)
    (hval : ¬ start % 4294967296 > stop % 4294967296) :
    roi_chroms env (r :: rest) = id :: roi_chroms env rest ∧
    ∀ cfg, covered_pairs env cfg (r :: rest)
      = (covered_cols (roi_view env cfg id start stop r.pileup1) r.pileup2).map
          (fun c => (id, c.pos)) ++ covered_pairs env cfg rest := by
  refine ⟨?_, ?_⟩
  · rw [roi_chroms]
    simp only [hline, hid, hval, if_false]
  · intro cfg
    rw [covered_pairs]
    simp only [hline, hid, hval, if_false]

/-- The chromosomes of a list of records that starts with a skipped record. -/
theorem roi_chroms_skipped (env : Env) (r : RoiInput) (rest : List RoiInput)
    (ref_name gene_name : String) (start stop : Nat)
    (hline : r.line = RoiLine.fields4 ref_name start stop gene_name)
    (hskip : env.hdr_hash ref_name = none ∨ start % 4294967296 > stop % 4294967296) :
    roi_chroms env (r :: rest) = roi_chroms env rest ∧
    ∀ cfg, covered_pairs env cfg (r :: rest) = covered_pairs env cfg rest := by
  refine ⟨?_, ?_⟩
  · rw [roi_chroms]
    rcases hskip with h | h
    · simp only [hline, h]
    · cases hh : env.hdr_hash ref_name <;> simp only [hline, hh, h, if_true]
  · intro cfg
    rw [covered_pairs]
    rcases hskip with h | h
    · simp only [hline, h]
    · cases hh : env.hdr_hash ref_name <;> simp only [hline, hh, h, if_true]

/-- Unfolding of `grouped` on a non-empty list. -/
theorem grouped_cons (a : Nat) (l : List Nat) :
    grouped (a :: l) = true ↔ a ∉ l.dropWhile (fun b => b == a) ∧ grouped l = true := by
  simp [grouped]

/-- The invariant of the totals is kept when a record is skipped. -/
theorem totInv_skipped (env : Env) (cfg d : pileup_data_t) (S : Finset (Nat × Nat))
    (r : RoiInput) (rest : List RoiInput) (ref_name gene_name : String) (start stop : Nat)
    (hline : r.line = RoiLine.fields4 ref_name start stop gene_name)
    (hskip : env.hdr_hash ref_name = none ∨ start % 4294967296 > stop % 4294967296)
    (h : TotInv env cfg d S (r :: rest)) :
    TotInv env cfg (sscanf_store d start stop) S rest := by
  have hch := (roi_chroms_skipped env r rest ref_name gene_name start stop hline hskip).1
  obtain ⟨h1, h2, h3, h4, h5⟩ := h
  rw [hch] at h4 h5
  exact ⟨⟨by rw [cfg_part_sscanf_store]; exact h1.1, loaded_sscanf_store env d start stop h1.2⟩,
    h2, h3, h4, h5⟩

/-- The static part with which the bam2 pileup of an ROI runs is the one of
the view of the ROI from the configured state. -/
theorem roi_view_static (env : Env) (cfg d : pileup_data_t) (start stop id : Nat)
    (cols1 : List Column) (hinv : LoopInv env cfg d) (hcfg : cfg.ref_seq = none) :
    static_part (run_pileup1 cols1 (roi_prepare env (sscanf_store d start stop) id))
      = static_part (roi_view env cfg id start stop cols1) := by
  unfold roi_view
  apply run_pileup1_static
  rw [roi_prepare_static env d start stop id hinv.2,
    roi_prepare_static env cfg start stop id (Or.inl hcfg), hinv.1]

/-- The invariant of the totals is kept when a valid record is processed: the
pairs counted in the ROI are added to `S`. -/
theorem totInv_valid (env : Env) (cfg d : pileup_data_t) (S : Finset (Nat × Nat))
    (r : RoiInput) (rest : List RoiInput) (ref_name gene_name : String) (start stop id : Nat)
    (hcfgu : cfg.iub < cfg.unknown) (hcfgn : cfg.ref_seq = none)
    (hline : r.line = RoiLine.fields4 ref_name start stop gene_name)
    (hid : env.hdr_hash ref_name = some id)
    (hval : ¬ start % 4294967296 > stop % 4294967296)
    (h : TotInv env cfg d S (r :: rest)) :
    TotInv env cfg (roi_process env (sscanf_store d start stop) id r)
      (S ∪ ((covered_cols (roi_view env cfg id start stop r.pileup1) r.pileup2).map
        (fun c => (id, c.pos))).toFinset) rest := by
  obtain ⟨h1, h2, h3, h4, h5⟩ := h
  have hch := (roi_chroms_valid env r rest ref_name gene_name start stop id hline hid hval).1
  rw [hch] at h4 h5
  obtain ⟨g1, g2⟩ := (grouped_cons _ _).mp h5
  have hlX : Loaded env (sscanf_store d start stop) := loaded_sscanf_store env d start stop h1.2
  have hunk : d.unknown = cfg.unknown := by
    have := congrArg pileup_data_t.unknown h1.1
    exact this
  have hiub : d.iub = cfg.iub := by
    have := congrArg pileup_data_t.iub h1.1
    exact this
  obtain ⟨c1, c2, c3⟩ := roi_prepare_cache env (sscanf_store d start stop) id
  obtain ⟨_, _, p3, _, _, _, _⟩ := roi_prepare_fields env (sscanf_store d start stop) id
  obtain ⟨_, _, _, _, q1, q2, _, _⟩ := roi_prepare_dynamic env (sscanf_store d start stop) id hlX
  have hV := run_pileup1_eq r.pileup1 (roi_prepare env (sscanf_store d start stop) id)
  have hVu : (run_pileup1 r.pileup1 (roi_prepare env (sscanf_store d start stop) id)).unknown
      = d.unknown := by rw [hV]; exact c2
  have hVi : (run_pileup1 r.pileup1 (roi_prepare env (sscanf_store d start stop) id)).iub
      = d.iub := by rw [hV]; exact c3
  have hVt : (run_pileup1 r.pileup1 (roi_prepare env (sscanf_store d start stop) id)).tot_covd_bases
      = d.tot_covd_bases := by rw [hV]; exact p3
  have hVc : (run_pileup1 r.pileup1 (roi_prepare env (sscanf_store d start stop) id)).bp_class
      = (roi_prepare env (sscanf_store d start stop) id).bp_class := by rw [hV]
  have hVr : (run_pileup1 r.pileup1 (roi_prepare env (sscanf_store d start stop) id)).ref_seq
      = some (env.fai_fetch id) := by rw [hV]; exact q2
  have hVid : (run_pileup1 r.pileup1 (roi_prepare env (sscanf_store d start stop) id)).ref_id
      = (id : Int) := by rw [hV]; exact q1
  have hS : ∀ p, (run_pileup1 r.pileup1 (roi_prepare env (sscanf_store d start stop) id)).bp_class p
      ≠ (run_pileup1 r.pileup1 (roi_prepare env (sscanf_store d start stop) id)).unknown
      ↔ (id, p) ∈ S := by
    intro p
    rw [hVc, hVu, c1]
    by_cases hre : (sscanf_store d start stop).ref_seq.isNone
        ∨ (id : Int) ≠ (sscanf_store d start stop).ref_id
    · rw [if_pos hre]
      constructor
      · intro hne
        exact absurd rfl hne
      · intro hin
        exfalso
        by_cases hn : d.ref_seq = none
        · rw [h3 hn] at hin
          exact absurd hin (Finset.not_mem_empty _)
        · obtain ⟨cur, e1, _, e3, _⟩ := h4 hn
          have hne : id ≠ cur := by
            rcases hre with hre | hre
            · have hre' : d.ref_seq.isNone = true := hre
              cases hd : d.ref_seq with
              | none => exact absurd hd hn
              | some s => rw [hd] at hre'; exact absurd hre' (by simp)
            · intro he
              apply hre
              show (id : Int) = d.ref_id
              rw [e1, he]
          rcases e3 (id, p) hin with h | h
          · exact hne h
          · exact h (List.mem_cons_self _ _)
    · rw [if_neg hre]
      have hn : d.ref_seq ≠ none := by
        intro hn
        apply hre
        left
        show d.ref_seq.isNone = true
        rw [hn]; rfl
      have hidr : (id : Int) = d.ref_id := by
        by_contra hne
        exact hre (Or.inr hne)
      obtain ⟨cur, e1, e2, _, _⟩ := h4 hn
      have hcur : cur = id := by
        have : (id : Int) = (cur : Int) := by rw [hidr, e1]
        exact_mod_cast this.symm
      subst hcur
      exact e2 p
  have hiu : (run_pileup1 r.pileup1 (roi_prepare env (sscanf_store d start stop) id)).iub
      < (run_pileup1 r.pileup1 (roi_prepare env (sscanf_store d start stop) id)).unknown := by
    rw [hVi, hVu, hiub, hunk]; exact hcfgu
  obtain ⟨t1, t2⟩ := run_pileup2_totals r.pileup2 _ id S hiu hS (hVt.trans h2)
  have hvs := roi_view_static env cfg d start stop id r.pileup1 h1 hcfgn
  have hcov : covered_cols (run_pileup1 r.pileup1 (roi_prepare env (sscanf_store d start stop) id))
      = covered_cols (roi_view env cfg id start stop r.pileup1) := by
    funext cols
    unfold covered_cols
    rw [passes2_static _ _ hvs]
  rw [hcov] at t1 t2
  have hD := ref_fields_of_static _ _ (run_pileup2_static r.pileup2
    (run_pileup1 r.pileup1 (roi_prepare env (sscanf_store d start stop) id)))
  refine ⟨⟨by rw [cfg_part_roi_process, cfg_part_sscanf_store]; exact h1.1,
      loaded_roi_process env _ id r hlX⟩, t1, ?_, ?_, g2⟩
  · intro hnone
    exfalso
    have : (roi_process env (sscanf_store d start stop) id r).ref_seq = some (env.fai_fetch id) := by
      unfold roi_process
      rw [hD.2.1, hVr]
    rw [this] at hnone
    exact absurd hnone (by simp)
  · intro _
    refine ⟨id, ?_, ?_, ?_, g1⟩
    · unfold roi_process
      rw [hD.1, hVid]
    · intro p
      have := t2 p
      unfold roi_process
      rw [hD.2.2.2.2.2.2.1]
      exact this
    · intro x hx
      rcases Finset.mem_union.mp hx with hx | hx
      · by_cases hn : d.ref_seq = none
        · rw [h3 hn] at hx
          exact absurd hx (Finset.not_mem_empty _)
        · obtain ⟨cur, _, _, e3, e4⟩ := h4 hn
          rcases e3 x hx with h | h
          · by_cases hc : cur = id
            · left; rw [h, hc]
            · right
              rw [h]
              have hdw : List.dropWhile (fun b => b == cur) (id :: roi_chroms env rest)
                  = id :: roi_chroms env rest := by
                apply List.dropWhile_cons_of_neg
                simp
                exact fun he => hc he.symm
              rw [hdw] at e4
              exact fun hm => e4 (List.mem_cons_of_mem _ hm)
          · right
            exact fun hm => h (List.mem_cons_of_mem _ hm)
      · left
        rw [List.mem_toFinset, List.mem_map] at hx
        obtain ⟨c, _, hc⟩ := hx
        rw [← hc]

/-- The genome-wide total after the loop is the number of distinct pairs
counted before and during it. -/
theorem main_loop_totals (env : Env) (cfg : pileup_data_t) (hcfgu : cfg.iub < cfg.unknown)
    (hcfgn : cfg.ref_seq = none) (rois : List RoiInput) (d : pileup_data_t)
    (S : Finset (Nat × Nat)) (h : TotInv env cfg d S rois) :
    (main_loop env rois d).data.tot_covd_bases
      = (S ∪ (covered_pairs env cfg rois).toFinset).card := by
  induction rois generalizing d S with
  | nil =>
    simp only [main_loop, covered_pairs, List.toFinset_nil, Finset.union_empty]
    exact h.total
  | cons r rest ih =>
    cases hline : r.line with
    | badly_formatted =>
      rw [main_loop_bad env r rest d hline, covered_pairs]
      simp only [hline, List.toFinset_nil, Finset.union_empty]
      exact h.total
    | fields4 ref_name start stop gene_name =>
      cases hh : env.hdr_hash ref_name with
      | none =>
        rw [main_loop_unknown env r _ d _ _ _ _ hline hh,
          (roi_chroms_skipped env r rest ref_name gene_name start stop hline (Or.inl hh)).2 cfg]
        exact ih _ _ (totInv_skipped env cfg d S r rest ref_name gene_name start stop hline
          (Or.inl hh) h)
      | some ref_id =>
        by_cases hbe : start % 4294967296 > stop % 4294967296
        · have hbe' : (sscanf_store d start stop).beg > (sscanf_store d start stop).end_ := hbe
          rw [main_loop_inverted env r _ d _ _ _ _ _ hline hh hbe',
            (roi_chroms_skipped env r rest ref_name gene_name start stop hline (Or.inr hbe)).2 cfg]
          exact ih _ _ (totInv_skipped env cfg d S r rest ref_name gene_name start stop hline
            (Or.inr hbe) h)
        · have hbe' : ¬ (sscanf_store d start stop).beg > (sscanf_store d start stop).end_ := hbe
          rw [main_loop_valid env r _ d _ _ _ _ _ hline hh hbe',
            (roi_chroms_valid env r rest ref_name gene_name start stop ref_id hline hh hbe).2 cfg]
          simp only
          rw [ih _ _ (totInv_valid env cfg d S r rest ref_name gene_name start stop ref_id
            hcfgu hcfgn hline hh hbe h), List.toFinset_append, Finset.union_assoc]

/-- In a run whose valid ROIs are grouped by chromosome the final
`tot_covd_bases`, read as a natural, is the number of distinct (chromosome,
position) pairs counted as covered in at least one ROI. -/
theorem main_tot_distinct (env : Env) (q n t : Int) (types : List Char)
    (heap : Nat → List Char) (rois : List RoiInput)
    (hg : grouped (roi_chroms env rois) = true) :
    (main env q n t types heap rois).data.tot_covd_bases
      = ((covered_pairs env (main_config q n t types heap) rois).dedup).length := by
  obtain ⟨hc, hiub, hunk, htot, _⟩ := main_config_facts q n t types heap
  have hinv : TotInv env (main_config q n t types heap) (main_config q n t types heap) ∅ rois :=
    ⟨loopInv_cfg env _ hc, by rw [htot]; rfl, fun _ => rfl, fun hne => absurd hc hne, hg⟩
  have key := main_loop_totals env (main_config q n t types heap) (by omega) hc rois _ ∅ hinv
  rw [Finset.empty_union, List.card_toFinset] at key
  have hdata : (main env q n t types heap rois).data
      = (main_loop env rois (main_config q n t types heap)).data := by
    unfold main
    simp only []
    split_ifs <;> rfl
  rw [hdata]
  exact key

/-! ## The interval of an ROI and the mask after the bam1 pileup -/

/-- The interval with which an ROI is processed: `beg` is decremented and
then moved off position 0; `end` is moved off the chromosome end. -/
theorem roi_prepare_interval (env : Env) (d : pileup_data_t) (id : Nat) :
    (roi_prepare env d id).beg
      = (if dec32 d.beg = 0 then inc32 (dec32 d.beg) else dec32 d.beg) ∧
    (roi_prepare env d id).end_
      = (if d.end_ = uint32_of_int (load_chromosome env (roi_reset d) id).ref_len
          then dec32 d.end_ else d.end_) := by
  have hq := load_chromosome_eq env (roi_reset d) id
  have e1 : (load_chromosome env (roi_reset d) id).beg = dec32 d.beg := by
    rw [hq]; rfl
  have e2 : (load_chromosome env (roi_reset d) id).end_ = d.end_ := by
    rw [hq]; rfl
  unfold roi_prepare
  generalize load_chromosome env (roi_reset d) id = y at e1 e2
  simp only [tip_adjust, e1, e2]
  exact ⟨trivial, trivial⟩

/-- The ROI counters after the preparation: `base_cnt[0 .. N-1]` are reset,
the entries from `N` on (the IUB bucket is `base_cnt[N]`) are kept. -/
theorem roi_prepare_base_cnt (env : Env) (d : pileup_data_t) (id : Nat) (j : Nat) :
    (roi_prepare env d id).base_cnt j = if j < d.bp_class_number then 0 else d.base_cnt j := by
  have hq := load_chromosome_eq env (roi_reset d) id
  unfold roi_prepare
  rw [hq]
  simp only [tip_adjust, roi_reset]

/-- A mask entry is set after the bam1 pileup if it was set before or some
column inside `[beg,end)` has that offset, provided every such column passes
the bam1 gate. -/
theorem run_pileup1_mask_set (cols : List Column) (x : pileup_data_t) (i : Nat)
    (hall : ∀ c ∈ cols, c.pos ≥ x.beg → c.pos < x.end_ → c.pos - x.beg = i →
      mapq_count c.pl x.min_mapq ≥ x.min_depth_bam1)
    (h : x.bam1_cvg i = true ∨ ∃ c ∈ cols, c.pos ≥ x.beg ∧ c.pos < x.end_ ∧ c.pos - x.beg = i) :
    (run_pileup1 cols x).bam1_cvg i = true := by
  induction cols generalizing x with
  | nil =>
    rcases h with h | ⟨c, hc, _⟩
    · exact h
    · exact absurd hc (List.not_mem_nil _)
  | cons c cs ih =>
    have hrun : run_pileup1 (c :: cs) x = run_pileup1 cs (pileup_func_1 c.pos c.pl x) := rfl
    obtain ⟨f1, f2, f3, f4⟩ := pileup_func_1_frame c.pos c.pl x
    rw [hrun]
    apply ih
    · intro c' hc' g1 g2 g3
      rw [f1] at g1 g3
      rw [f2] at g2
      rw [f3, f4]
      exact hall c' (List.mem_cons_of_mem _ hc') g1 g2 g3
    · have hstep : x.bam1_cvg i = true ∨ (c.pos ≥ x.beg ∧ c.pos < x.end_ ∧ c.pos - x.beg = i) →
          (pileup_func_1 c.pos c.pl x).bam1_cvg i = true := by
        intro hor
        unfold pileup_func_1
        by_cases hr : c.pos ≥ x.beg ∧ c.pos < x.end_
        · rw [if_pos hr]
          by_cases hi : i = c.pos - x.beg
          · have := hall c (List.mem_cons_self _ _) hr.1 hr.2 hi.symm
            simp [arr_set, hi, this]
          · rcases hor with h0 | ⟨_, _, h3⟩
            · simpa [arr_set, hi] using h0
            · exact absurd h3.symm hi
        · rw [if_neg hr]
          rcases hor with h0 | ⟨h1, h2, _⟩
          · exact h0
          · exact absurd ⟨h1, h2⟩ hr
      rcases h with h | ⟨c', hc', g1, g2, g3⟩
      · left; exact hstep (Or.inl h)
      · rcases List.mem_cons.mp hc' with he | hm
        · subst he
          left; exact hstep (Or.inr ⟨g1, g2, g3⟩)
        · right
          rw [f1, f2]
          exact ⟨c', hm, g1, g2, g3⟩

/-- The positions `0 .. L-1` that lie in `[o, o + k)`. -/
theorem filter_range_interval (L o k : Nat) (h : o + k ≤ L) :
    (List.range L).filter (fun p => decide (o ≤ p ∧ p < o + k)) = List.range' o k := by
  have hsplit : List.range L
      = List.range' 0 o ++ (List.range' o k ++ List.range' (o + k) (L - (o + k))) := by
    have a1 := List.range'_append_1 o k (L - (o + k))
    have a2 := List.range'_append_1 0 o (L - (o + k) + k)
    simp only [Nat.zero_add] at a2
    rw [List.range_eq_range', a1, a2]
    congr 1
    omega
  rw [hsplit, List.filter_append, List.filter_append]
  have h1 : (List.range' 0 o).filter (fun p => decide (o ≤ p ∧ p < o + k)) = [] := by
    rw [List.filter_eq_nil_iff]
    intro a ha
    rw [List.mem_range'_1] at ha
    simp only [decide_eq_true_eq]
    omega
  have h2 : (List.range' o k).filter (fun p => decide (o ≤ p ∧ p < o + k)) = List.range' o k := by
    rw [List.filter_eq_self]
    intro a ha
    rw [List.mem_range'_1] at ha
    simp only [decide_eq_true_eq]
    omega
  have h3 : (List.range' (o + k) (L - (o + k))).filter (fun p => decide (o ≤ p ∧ p < o + k))
      = [] := by
    rw [List.filter_eq_nil_iff]
    intro a ha
    rw [List.mem_range'_1] at ha
    simp only [decide_eq_true_eq]
    omega
  rw [h1, h2, h3]
  simp

/-! ## The uniform-depth scenario -/

/-- The configuration of the scenario: two length-2 classes `AT` and `CG`. -/
theorem scenario_config (heap : Nat → List Char) :
    (main_config 20 6 8 scenario_classes heap).bp_class_number = 2 ∧
    (main_config 20 6 8 scenario_classes heap).iub = 2 ∧
    (main_config 20 6 8 scenario_classes heap).bp_class_container 0 = ['A', 'T'] ∧
    (main_config 20 6 8 scenario_classes heap).bp_class_container 1 = ['C', 'G'] ∧
    (main_config 20 6 8 scenario_classes heap).bp_class_lengths 0 = 2 ∧
    (main_config 20 6 8 scenario_classes heap).bp_class_lengths 1 = 2 ∧
    (main_config 20 6 8 scenario_classes heap).min_depth_bam1 = 6 ∧
    (main_config 20 6 8 scenario_classes heap).min_depth_bam2 = 8 ∧
    (main_config 20 6 8 scenario_classes heap).base_cnt = (fun _ => 0) ∧
    (main_config 20 6 8 scenario_classes heap).ref_seq = none := by
  have hA : toupper 'A' = 'A' := by decide
  have hT : toupper 'T' = 'T' := by decide
  have hC : toupper 'C' = 'C' := by decide
  have hG : toupper 'G' = 'G' := by decide
  refine ⟨?_, ?_, ?_, ?_, ?_, ?_, rfl, rfl, rfl, rfl⟩ <;>
    simp [main_config, separateString, scenario_classes, sep_loop, arr_set, hA, hT, hC, hG]

/-- With the two length-2 classes `AT` and `CG` the class of a position is
decided by its upper-cased centre base alone. -/
theorem scenario_classify (V : pileup_data_t) (p : Nat)
    (h0 : V.bp_class_container 0 = ['A', 'T']) (h1 : V.bp_class_container 1 = ['C', 'G'])
    (l0 : V.bp_class_lengths 0 = 2) (l1 : V.bp_class_lengths 1 = 2) (hi : V.iub = 2) :
    classify V p = scenario_class_of (toupper (ref_at V p)) := by
  unfold classify
  simp only [hi]
  unfold class_loop class_loop class_loop
  simp only [Nat.zero_add, h0, h1, l0, l1, getClass, scenario_class_of, List.getD_cons_zero,
    List.getD_cons_succ, if_true]
  by_cases a : toupper (ref_at V p) = 'A' ∨ toupper (ref_at V p) = 'T'
  · simp [a]
  · by_cases b : toupper (ref_at V p) = 'C' ∨ toupper (ref_at V p) = 'G'
    · simp [a, b]
    · simp [a, b]

/-- Counting the uniform columns of given positions by class is counting the
classes of the positions. -/
theorem countP_class_uniform (V : pileup_data_t) (l : List Nat) (j depth qual : Nat) :
    ((l.map (uniform_column depth qual)).countP (fun c => decide (classify V c.pos = j)))
      = (l.map (classify V)).count j := by
  induction l with
  | nil => rfl
  | cons a l ih =>
    rw [List.map_cons, List.map_cons, List.countP_cons, List.count_cons, ih]
    have : (uniform_column depth qual a).pos = a := rfl
    rw [this]
    by_cases h : classify V a = j
    · simp [h]
    · simp [h]

/-- The state with which the bam2 pileup of the scenario's ROI starts: the
interval is the window, the mask is set on the whole window, the thresholds
in force are `min_mapq = 0` (as stored by `sscanf`), 6 and 8. -/
theorem scenario_view (env : Env) (heap : Nat → List Char) (left right : List Char)
    (ref_name gene_name : String) (id : Nat)
    (hleft : left ≠ []) (hright : right ≠ [])
    (hlen : left.length + 10 + right.length < 2147483648)
    (href : env.fai_fetch id = left ++ scenario_window ++ right) :
    (roi_view env (main_config 20 6 8 scenario_classes heap) id (left.length + 1)
      (left.length + 10) (scenario_roi ref_name gene_name left right).pileup1).beg = left.length ∧
    (roi_view env (main_config 20 6 8 scenario_classes heap) id (left.length + 1)
      (left.length + 10) (scenario_roi ref_name gene_name left right).pileup1).end_
      = left.length + 10 ∧
    (∀ p, left.length ≤ p → p < left.length + 10 →
      (roi_view env (main_config 20 6 8 scenario_classes heap) id (left.length + 1)
        (left.length + 10) (scenario_roi ref_name gene_name left right).pileup1).bam1_cvg
          (p - left.length) = true) ∧
    (roi_view env (main_config 20 6 8 scenario_classes heap) id (left.length + 1)
      (left.length + 10) (scenario_roi ref_name gene_name left right).pileup1).min_mapq = 0 ∧
    (roi_view env (main_config 20 6 8 scenario_classes heap) id (left.length + 1)
      (left.length + 10) (scenario_roi ref_name gene_name left right).pileup1).ref_seq
      = some (left ++ scenario_window ++ right) := by
  have ho : 1 ≤ left.length := by
    cases left with
    | nil => exact absurd rfl hleft
    | cons a l => simp
  have hr : 1 ≤ right.length := by
    cases right with
    | nil => exact absurd rfl hright
    | cons a l => simp
  obtain ⟨_, _, _, _, _, _, k1, _, _, k4⟩ := scenario_config heap
  have hX1 : (sscanf_store (main_config 20 6 8 scenario_classes heap) (left.length + 1)
      (left.length + 10)).beg = left.length + 1 := by
    show (left.length + 1) % 4294967296 = left.length + 1
    omega
  have hX2 : (sscanf_store (main_config 20 6 8 scenario_classes heap) (left.length + 1)
      (left.length + 10)).end_ = left.length + 10 := by
    show (left.length + 10) % 4294967296 = left.length + 10
    omega
  have hX3 : (sscanf_store (main_config 20 6 8 scenario_classes heap) (left.length + 1)
      (left.length + 10)).min_mapq = 0 := by
    show toInt32 ((left.length + 10) / 4294967296 % 4294967296) = 0
    have : (left.length + 10) / 4294967296 = 0 := by omega
    rw [this]
    decide
  have hlX : Loaded env (sscanf_store (main_config 20 6 8 scenario_classes heap)
      (left.length + 1) (left.length + 10)) := Or.inl k4
  obtain ⟨i1, i2⟩ := roi_prepare_interval env (sscanf_store
    (main_config 20 6 8 scenario_classes heap) (left.length + 1) (left.length + 10)) id
  obtain ⟨_, f2, _, _, f5, f6, _⟩ := roi_prepare_fields env (sscanf_store
    (main_config 20 6 8 scenario_classes heap) (left.length + 1) (left.length + 10)) id
  obtain ⟨_, _, _, _, _, q2, _, _⟩ := roi_prepare_dynamic env (sscanf_store
    (main_config 20 6 8 scenario_classes heap) (left.length + 1) (left.length + 10)) id hlX
  have hlen' : (load_chromosome env (roi_reset (sscanf_store
      (main_config 20 6 8 scenario_classes heap) (left.length + 1) (left.length + 10))) id).ref_len
      = ((left.length + 10 + right.length : Nat) : Int) := by
    have := (load_chromosome_loaded env (roi_reset (sscanf_store
      (main_config 20 6 8 scenario_classes heap) (left.length + 1) (left.length + 10))) id
      (Or.inl k4)).2.2.1
    rw [this, href]
    simp [scenario_window]
    omega
  have hdec : dec32 (left.length + 1) = left.length := by
    unfold dec32
    rw [if_neg (by omega)]
    omega
  have hu : uint32_of_int ((left.length + 10 + right.length : Nat) : Int)
      = left.length + 10 + right.length := by
    unfold uint32_of_int
    omega
  rw [hX1, hdec, if_neg (by omega)] at i1
  rw [hX2, hlen', hu, if_neg (by omega)] at i2
  have hV := run_pileup1_eq (scenario_roi ref_name gene_name left right).pileup1
    (roi_prepare env (sscanf_store (main_config 20 6 8 scenario_classes heap)
      (left.length + 1) (left.length + 10)) id)
  unfold roi_view
  refine ⟨by rw [hV]; exact i1, by rw [hV]; exact i2, ?_, by rw [hV]; exact f5.trans hX3,
    by rw [hV, ← href]; exact q2⟩
  intro p hp1 hp2
  apply run_pileup1_mask_set
  · intro c hc _ _ _
    rw [f5, f6, hX3]
    have hcm : c ∈ uniform_pileup 10 30 (left.length + 10 + right.length) := hc
    unfold uniform_pileup at hcm
    rw [List.mem_map] at hcm
    obtain ⟨a, _, ha⟩ := hcm
    rw [← ha]
    show mapq_count (List.replicate 10 (obs 30)) 0
      ≥ (main_config 20 6 8 scenario_classes heap).min_depth_bam1
    rw [k1]
    decide
  · right
    refine ⟨uniform_column 10 30 p, ?_, ?_, ?_, ?_⟩
    · show uniform_column 10 30 p ∈ uniform_pileup 10 30 (left.length + 10 + right.length)
      unfold uniform_pileup
      rw [List.mem_map]
      exact ⟨p, by rw [List.mem_range]; omega, rfl⟩
    · rw [i1]; exact hp1
    · rw [i2]; exact hp2
    · rw [i1]; rfl

/-- The counters after the scenario's ROI has been processed. -/
theorem scenario_counts (env : Env) (heap : Nat → List Char) (left right : List Char)
    (ref_name gene_name : String) (id : Nat)
    (hleft : left ≠ []) (hright : right ≠ [])
    (hlen : left.length + 10 + right.length < 2147483648)
    (href : env.fai_fetch id = left ++ scenario_window ++ right) :
    (roi_process env (sscanf_store (main_config 20 6 8 scenario_classes heap) (left.length + 1)
      (left.length + 10)) id (scenario_roi ref_name gene_name left right)).covd_bases = 10 ∧
    (roi_process env (sscanf_store (main_config 20 6 8 scenario_classes heap) (left.length + 1)
      (left.length + 10)) id (scenario_roi ref_name gene_name left right)).base_cnt 0 = 5 ∧
    (roi_process env (sscanf_store (main_config 20 6 8 scenario_classes heap) (left.length + 1)
      (left.length + 10)) id (scenario_roi ref_name gene_name left right)).base_cnt 1 = 5 ∧
    (roi_process env (sscanf_store (main_config 20 6 8 scenario_classes heap) (left.length + 1)
      (left.length + 10)) id (scenario_roi ref_name gene_name left right)).base_cnt 2 = 0 ∧
    (roi_process env (sscanf_store (main_config 20 6 8 scenario_classes heap) (left.length + 1)
      (left.length + 10)) id (scenario_roi ref_name gene_name left right)).beg = left.length ∧
    (roi_process env (sscanf_store (main_config 20 6 8 scenario_classes heap) (left.length + 1)
      (left.length + 10)) id (scenario_roi ref_name gene_name left right)).end_
        = left.length + 10 ∧
    (roi_process env (sscanf_store (main_config 20 6 8 scenario_classes heap) (left.length + 1)
      (left.length + 10)) id (scenario_roi ref_name gene_name left right)).bp_class_number = 2 := by
  obtain ⟨k0, ki, kc0, kc1, kl0, kl1, _, k2, kb, k4⟩ := scenario_config heap
  obtain ⟨v1, v2, v3, v4, v5⟩ := scenario_view env heap left right ref_name gene_name id
    hleft hright hlen href
  have hlX : Loaded env (sscanf_store (main_config 20 6 8 scenario_classes heap)
      (left.length + 1) (left.length + 10)) := Or.inl k4
  obtain ⟨a1, _, _, _, _, _, _, a4⟩ := roi_prepare_dynamic env (sscanf_store
    (main_config 20 6 8 scenario_classes heap) (left.length + 1) (left.length + 10)) id hlX
  have hV : roi_view env (main_config 20 6 8 scenario_classes heap) id (left.length + 1)
      (left.length + 10) (scenario_roi ref_name gene_name left right).pileup1
      = run_pileup1 (scenario_roi ref_name gene_name left right).pileup1
          (roi_prepare env (sscanf_store (main_config 20 6 8 scenario_classes heap)
            (left.length + 1) (left.length + 10)) id) := rfl
  have hD : roi_process env (sscanf_store (main_config 20 6 8 scenario_classes heap)
      (left.length + 1) (left.length + 10)) id (scenario_roi ref_name gene_name left right)
      = run_pileup2 (uniform_pileup 10 30 (left.length + 10 + right.length))
          (roi_view env (main_config 20 6 8 scenario_classes heap) id (left.length + 1)
            (left.length + 10) (scenario_roi ref_name gene_name left right).pileup1) := rfl
  rw [hD]
  generalize hVdef : roi_view env (main_config 20 6 8 scenario_classes heap) id
    (left.length + 1) (left.length + 10) (scenario_roi ref_name gene_name left right).pileup1
    = V at v1 v2 v3 v4 v5 hV
  have hVe := run_pileup1_eq (scenario_roi ref_name gene_name left right).pileup1
    (roi_prepare env (sscanf_store (main_config 20 6 8 scenario_classes heap)
      (left.length + 1) (left.length + 10)) id)
  rw [← hV] at hVe
  have hcp : cfg_part V = cfg_part (main_config 20 6 8 scenario_classes heap) := by
    rw [hVe]
    exact cfg_part_roi_prepare env _ id
  have hc0 : V.bp_class_container 0 = ['A', 'T'] := by
    have := congrArg pileup_data_t.bp_class_container hcp
    exact (congrFun this 0).trans kc0
  have hc1 : V.bp_class_container 1 = ['C', 'G'] := by
    have := congrArg pileup_data_t.bp_class_container hcp
    exact (congrFun this 1).trans kc1
  have hl0 : V.bp_class_lengths 0 = 2 := by
    have := congrArg pileup_data_t.bp_class_lengths hcp
    exact (congrFun this 0).trans kl0
  have hl1 : V.bp_class_lengths 1 = 2 := by
    have := congrArg pileup_data_t.bp_class_lengths hcp
    exact (congrFun this 1).trans kl1
  have hiub : V.iub = 2 := by
    have := congrArg pileup_data_t.iub hcp
    exact this.trans ki
  have hN : V.bp_class_number = 2 := by
    have := congrArg pileup_data_t.bp_class_number hcp
    exact this.trans k0
  have hd2 : V.min_depth_bam2 = 8 := by
    have := congrArg pileup_data_t.min_depth_bam2 hcp
    exact this.trans k2
  have hcov0 : V.covd_bases = 0 := by rw [hVe]; exact a1
  have hbc : ∀ j, V.base_cnt j = 0 := by
    intro j
    rw [hVe]
    show (roi_prepare env (sscanf_store (main_config 20 6 8 scenario_classes heap)
      (left.length + 1) (left.length + 10)) id).base_cnt j = 0
    rw [roi_prepare_base_cnt]
    split_ifs
    · rfl
    · show (main_config 20 6 8 scenario_classes heap).base_cnt j = 0
      rw [kb]
  have hok : CacheOK V := by
    rw [hV]
    exact run_pileup1_cacheOK _ _ a4
  have hpass : ∀ p, passes2 V (uniform_column 10 30 p)
      = decide (left.length ≤ p ∧ p < left.length + 10) := by
    intro p
    unfold passes2
    have hpos : (uniform_column 10 30 p).pos = p := rfl
    have hgate : mapq_count (uniform_column 10 30 p).pl V.min_mapq ≥ V.min_depth_bam2 := by
      rw [v4, hd2]
      show mapq_count (List.replicate 10 (obs 30)) 0 ≥ 8
      decide
    rw [hpos, v1, v2]
    by_cases hin : left.length ≤ p ∧ p < left.length + 10
    · have := v3 p hin.1 hin.2
      simp [hin, this, hgate]
    · have : ¬ (p ≥ left.length ∧ p < left.length + 10 ∧ V.bam1_cvg (p - left.length) = true) :=
        fun h => hin ⟨h.1, h.2.1⟩
      simp [hin, this]
  have hcols : covered_cols V (uniform_pileup 10 30 (left.length + 10 + right.length))
      = (List.range' left.length 10).map (uniform_column 10 30) := by
    unfold covered_cols uniform_pileup
    rw [List.filter_map]
    have : (passes2 V ∘ uniform_column 10 30)
        = fun p => decide (left.length ≤ p ∧ p < left.length + 10) := by
      funext p
      exact hpass p
    rw [this, filter_range_interval _ _ _ (by omega)]
  have hcls : ∀ i, i < 10 → classify V (left.length + i)
      = scenario_class_of (toupper (scenario_window.getD i NUL)) := by
    intro i hi
    rw [scenario_classify V _ hc0 hc1 hl0 hl1 hiub]
    unfold ref_at
    rw [v5]
    simp only
    rw [List.append_assoc, List.getD_append_right _ _ _ _ (by omega),
      List.getD_append _ _ _ _ (by simp [scenario_window]; omega)]
    congr 3
    omega
  have hmap : (List.range' left.length 10).map (classify V) = [0, 1, 1, 0, 0, 1, 1, 0, 0, 1] := by
    have hr : List.range' left.length 10
        = [left.length + 0, left.length + 1, left.length + 2, left.length + 3, left.length + 4,
           left.length + 5, left.length + 6, left.length + 7, left.length + 8,
           left.length + 9] := rfl
    rw [hr]
    simp only [List.map_cons, List.map_nil]
    rw [hcls 0 (by omega), hcls 1 (by omega), hcls 2 (by omega), hcls 3 (by omega),
      hcls 4 (by omega), hcls 5 (by omega), hcls 6 (by omega), hcls 7 (by omega),
      hcls 8 (by omega), hcls 9 (by omega)]
    decide
  obtain ⟨_, c1, c2⟩ := run_pileup2_counts
    (uniform_pileup 10 30 (left.length + 10 + right.length)) V hok
  have hst := ref_fields_of_static _ _ (run_pileup2_static
    (uniform_pileup 10 30 (left.length + 10 + right.length)) V)
  refine ⟨?_, ?_, ?_, ?_, hst.2.2.2.1.trans v1, hst.2.2.2.2.1.trans v2,
    hst.2.2.2.2.2.1.trans hN⟩
  · rw [c1, hcov0, hcols]
    simp
  · rw [c2 0, hbc 0, hcols, countP_class_uniform, hmap]
    decide
  · rw [c2 1, hbc 1, hcols, countP_class_uniform, hmap]
    decide
  · rw [c2 2, hbc 2, hcols, countP_class_uniform, hmap]
    decide

/-- C9: with classes `"AT,CG"`, thresholds 20, 6 and 8, both samples at depth
10 and mapping quality 30 everywhere, and one ROI spanning the window
`ACGTACGTAC` inside a chromosome (at least one base on either side), the row
of the ROI reports 10 covered bases, 5 in class AT and 5 in class CG, and no
position falls into the IUB bucket. -/
theorem scenario_uniform_depth (env : Env) (heap : Nat → List Char) (left right : List Char)
    (ref_name gene_name : String) (id : Nat)
    (hleft : left ≠ []) (hright : right ≠ [])
    (hlen : left.length + 10 + right.length < 2147483648)
    (hid : env.hdr_hash ref_name = some id)
    (href : env.fai_fetch id = left ++ scenario_window ++ right) :
    (main env 20 6 8 scenario_classes heap [scenario_roi ref_name gene_name left right]).rows
      = [{ gene_name := gene_name, ref_name := ref_name, start1 := left.length + 1,
           stop := left.length + 10, bases := 10, covd_bases := 10, base_cnt := [5, 5] }] ∧
    (main env 20 6 8 scenario_classes heap
      [scenario_roi ref_name gene_name left right]).data.base_cnt 2 = 0 := by
  obtain ⟨s1, s2, s3, s4, s5, s6, s7⟩ := scenario_counts env heap left right ref_name gene_name
    id hleft hright hlen href
  have hval : ¬ (left.length + 1) % 4294967296 > (left.length + 10) % 4294967296 := by omega
  have hbe : ¬ (sscanf_store (main_config 20 6 8 scenario_classes heap) (left.length + 1)
      (left.length + 10)).beg > (sscanf_store (main_config 20 6 8 scenario_classes heap)
      (left.length + 1) (left.length + 10)).end_ := hval
  have hbases : roi_bases (sscanf_store (main_config 20 6 8 scenario_classes heap)
      (left.length + 1) (left.length + 10)) = 10 := by
    show sub32 ((left.length + 10) % 4294967296) (dec32 ((left.length + 1) % 4294967296)) = 10
    have e1 : (left.length + 10) % 4294967296 = left.length + 10 := by omega
    have e2 : (left.length + 1) % 4294967296 = left.length + 1 := by omega
    rw [e1, e2]
    have hd : dec32 (left.length + 1) = left.length := by
      unfold dec32
      rw [if_neg (Nat.succ_ne_zero _)]
      rfl
    rw [hd]
    unfold sub32
    rw [if_pos (Nat.le_add_right _ _)]
    exact Nat.add_sub_cancel_left _ _
  constructor
  · rw [main_rows, main_loop_single_valid env _ _ ref_name gene_name (left.length + 1)
      (left.length + 10) id rfl hid hval]
    unfold roi_row
    rw [s1, s5, s6, s7, hbases]
    simp [class_columns, s2, s3, List.range_succ]
  · have hdata : (main env 20 6 8 scenario_classes heap
        [scenario_roi ref_name gene_name left right]).data
        = (main_loop env [scenario_roi ref_name gene_name left right]
            (main_config 20 6 8 scenario_classes heap)).data := by
      unfold main
      simp only []
      split_ifs <;> rfl
    rw [hdata, main_loop_valid env _ _ _ ref_name gene_name (left.length + 1)
      (left.length + 10) id rfl hid hbe]
    simp only [main_loop]
    exact s4

/-- Witness for C9: the window between the flanks `TT` and `GG` on `chr1`. -/
theorem scenario_uniform_depth_witness :
    ['T', 'T'] ≠ [] ∧ ['G', 'G'] ≠ [] ∧
    ['T', 'T'].length + 10 + ['G', 'G'].length < 2147483648 ∧
    scenario_env.hdr_hash "chr1" = some 0 ∧
    scenario_env.fai_fetch 0 = ['T', 'T'] ++ scenario_window ++ ['G', 'G'] ∧
    (main scenario_env 20 6 8 scenario_classes (fun _ => [])
        [scenario_roi "chr1" "gene" ['T', 'T'] ['G', 'G']]).rows
      = [{ gene_name := "gene", ref_name := "chr1", start1 := ['T', 'T'].length + 1,
           stop := ['T', 'T'].length + 10, bases := 10, covd_bases := 10, base_cnt := [5, 5] }] :=
  ⟨by decide, by decide, by decide, by decide, rfl,
    (scenario_uniform_depth scenario_env (fun _ => []) ['T', 'T'] ['G', 'G'] "chr1" "gene" 0
      (by decide) (by decide) (by decide) (by decide) rfl).1⟩
/-- C9 (counterexample): when the 10-base window is the whole chromosome and
the ROI spans it (record `1 10`), the chromosome-tip adjustment processes
`[1,9)` only: the row reports 8 covered bases, 4 in class AT and 4 in class CG,
not 10, 5 and 5. -/
theorem scenario_whole_chromosome_trimmed :
    (main scenario_tip_env 20 6 8 scenario_classes (fun _ => [])
        [scenario_roi "chr1" "gene" [] []]).rows
      = [{ gene_name := "gene", ref_name := "chr1", start1 := 2, stop := 9, bases := 10,
           covd_bases := 8, base_cnt := [4, 4] }] := by
  decide

/-! ## The class cache and the totals -/

/-- The cache after one bam2 column: entries other than the column's position
are kept, an entry that is not `unknown` is kept, and a changed entry was
`unknown` before and holds a class index of at most `iub` afterwards. -/
theorem pileup_func_2_cache (pos : Nat) (pl : List bam_pileup1_t) (d : pileup_data_t) (p : Nat) :
    (d.bp_class p ≠ d.unknown → (pileup_func_2 pos pl d).bp_class p = d.bp_class p) ∧
    ((pileup_func_2 pos pl d).bp_class p ≠ d.bp_class p →
      p = pos ∧ d.bp_class p = d.unknown ∧ (pileup_func_2 pos pl d).bp_class p ≤ d.iub) := by
  unfold pileup_func_2
  by_cases h1 : pos ≥ d.beg ∧ pos < d.end_ ∧ d.bam1_cvg (pos - d.beg) = true
  · rw [if_pos h1]
    by_cases h2 : mapq_count pl d.min_mapq ≥ d.min_depth_bam2
    · rw [if_pos h2]
      by_cases hu : d.bp_class pos = d.unknown
      · by_cases hp : p = pos
        · subst hp
          refine ⟨fun hne => absurd hu hne, fun _ => ⟨rfl, hu, ?_⟩⟩
          simp only [hu, if_true, arr_set]
          exact classify_le_iub d p
        · constructor
          · intro _
            simp only [hu, if_true, arr_set, if_neg hp]
          · intro hne
            exfalso
            apply hne
            simp only [hu, if_true, arr_set, if_neg hp]
      · constructor
        · intro _
          simp only [hu, if_false]
        · intro hne
          exfalso
          apply hne
          simp only [hu, if_false]
    · rw [if_neg h2]
      exact ⟨fun _ => rfl, fun hne => absurd rfl hne⟩
  · rw [if_neg h1]
    exact ⟨fun _ => rfl, fun hne => absurd rfl hne⟩

/-- A cache entry that is not `unknown` survives a whole bam2 pileup. -/
theorem run_pileup2_cache_kept (cols : List Column) (d : pileup_data_t) (p : Nat)
    (h : d.bp_class p ≠ d.unknown) : (run_pileup2 cols d).bp_class p = d.bp_class p := by
  induction cols generalizing d with
  | nil => rfl
  | cons c cs ih =>
    have hrun : run_pileup2 (c :: cs) d = run_pileup2 cs (pileup_func_2 c.pos c.pl d) := rfl
    have hk := (pileup_func_2_cache c.pos c.pl d p).1 h
    have hun : (pileup_func_2 c.pos c.pl d).unknown = d.unknown :=
      (ref_fields_of_static _ _ (pileup_func_2_static c.pos c.pl d)).2.2.2.2.2.2.1
    rw [hrun, ih (pileup_func_2 c.pos c.pl d) (by rw [hk, hun]; exact h), hk]

/-- An ROI of the chromosome that is already loaded: the reference, the
sentinel and every cache entry that is not `unknown` are kept. -/
theorem roi_process_same_chrom (env : Env) (d : pileup_data_t) (id : Nat) (r : RoiInput)
    (hno : ¬ (d.ref_seq.isNone ∨ (id : Int) ≠ d.ref_id)) :
    (roi_process env d id r).ref_seq = d.ref_seq ∧
    (roi_process env d id r).ref_id = d.ref_id ∧
    (roi_process env d id r).unknown = d.unknown ∧
    ∀ p, d.bp_class p ≠ d.unknown → (roi_process env d id r).bp_class p = d.bp_class p := by
  have hc := (roi_prepare_cache env d id).1
  have hu := (roi_prepare_cache env d id).2.1
  rw [if_neg hno] at hc
  have hno' : ¬ ((roi_reset d).ref_seq.isNone ∨ (id : Int) ≠ (roi_reset d).ref_id) := hno
  have hprep : roi_prepare env d id = tip_adjust (roi_reset d) := by
    unfold roi_prepare load_chromosome
    rw [if_neg hno']
  have hrs : (roi_prepare env d id).ref_seq = d.ref_seq := by
    rw [hprep]; simp only [tip_adjust, roi_reset]
  have hri : (roi_prepare env d id).ref_id = d.ref_id := by
    rw [hprep]; simp only [tip_adjust, roi_reset]
  have h1 := run_pileup1_eq r.pileup1 (roi_prepare env d id)
  have hs := ref_fields_of_static _ _
    (run_pileup2_static r.pileup2 (run_pileup1 r.pileup1 (roi_prepare env d id)))
  have hV : (run_pileup1 r.pileup1 (roi_prepare env d id)).bp_class = d.bp_class := by
    rw [h1]; exact hc
  have hVu : (run_pileup1 r.pileup1 (roi_prepare env d id)).unknown = d.unknown := by
    rw [h1]; exact hu
  unfold roi_process
  refine ⟨?_, ?_, ?_, ?_⟩
  · rw [hs.2.1, h1]; exact hrs
  · rw [hs.1, h1]; exact hri
  · rw [hs.2.2.2.2.2.2.1]; exact hVu
  · intro p h
    rw [run_pileup2_cache_kept _ _ p (by rw [hV, hVu]; exact h), hV]

/-- A cache entry that is not `unknown` survives every later record of the ROI
loop as long as the records name the loaded chromosome (or are skipped). -/
theorem main_loop_cache_kept (env : Env) (id : Nat) (rois : List RoiInput) (d : pileup_data_t)
    (p : Nat) (hs : d.ref_seq.isNone = false) (hid : d.ref_id = (id : Int))
    (hr : ∀ r ∈ rois, ∀ ref_name start stop gene_name id2,
      r.line = RoiLine.fields4 ref_name start stop gene_name →
      env.hdr_hash ref_name = some id2 → id2 = id)
    (h : d.bp_class p ≠ d.unknown) :
    (main_loop env rois d).data.bp_class p = d.bp_class p := by
  induction rois generalizing d with
  | nil => rfl
  | cons r rest ih =>
    have hr' : ∀ r ∈ rest, ∀ ref_name start stop gene_name id2,
        r.line = RoiLine.fields4 ref_name start stop gene_name →
        env.hdr_hash ref_name = some id2 → id2 = id :=
      fun x hx => hr x (List.mem_cons_of_mem _ hx)
    cases hline : r.line with
    | badly_formatted =>
      rw [main_loop_bad env r rest d hline]
    | fields4 ref_name start stop gene_name =>
      have e1 : (sscanf_store d start stop).ref_seq = d.ref_seq := by
        simp only [sscanf_store]
      have e2 : (sscanf_store d start stop).ref_id = d.ref_id := by
        simp only [sscanf_store]
      have e3 : (sscanf_store d start stop).bp_class = d.bp_class := by
        simp only [sscanf_store]
      have e4 : (sscanf_store d start stop).unknown = d.unknown := by
        simp only [sscanf_store]
      have skip : (main_loop env rest (sscanf_store d start stop)).data.bp_class p
          = d.bp_class p := by
        rw [ih (sscanf_store d start stop) (by rw [e1]; exact hs) (by rw [e2]; exact hid) hr'
          (by rw [e3, e4]; exact h), e3]
      cases hh : env.hdr_hash ref_name with
      | none =>
        rw [main_loop_unknown env r _ d _ _ _ _ hline hh]
        exact skip
      | some ref_id =>
        by_cases hbe : (sscanf_store d start stop).beg > (sscanf_store d start stop).end_
        · rw [main_loop_inverted env r _ d _ _ _ _ _ hline hh hbe]
          exact skip
        · rw [main_loop_valid env r _ d _ _ _ _ _ hline hh hbe]
          have hi : ref_id = id := hr r (List.mem_cons_self _ _) _ _ _ _ _ hline hh
          subst hi
          have hno : ¬ ((sscanf_store d start stop).ref_seq.isNone ∨
              (ref_id : Int) ≠ (sscanf_store d start stop).ref_id) := by
            rw [e1, e2, hs, hid]
            simp
          obtain ⟨a1, a2, a3, a4⟩ := roi_process_same_chrom env _ ref_id r hno
          have hp := a4 p (by rw [e3, e4]; exact h)
          show (main_loop env rest (roi_process env (sscanf_store d start stop) ref_id r)).data.bp_class p
            = d.bp_class p
          rw [ih _ (by rw [a1, e1]; exact hs) (by rw [a2, e2]; exact hid) hr'
            (by rw [hp, a3, e3, e4]; exact h), hp, e3]

/-- C15: class-cache monotonicity. When a chromosome is (re)loaded every cache
entry is `unknown`; a bam2 column never changes an entry that is not
`unknown`, and an entry that it does change was `unknown` before, belongs to
the position of the column and holds a class index (at most `iub`, hence not
`unknown`) afterwards, so that an entry is written at most once; an entry that
is not `unknown` survives every bam2 pileup, every later ROI of the same
chromosome (one that does not reload) and every later stretch of the ROI loop
whose records name the loaded chromosome. -/
theorem class_cache_monotone (env : Env) (d : pileup_data_t) (hiu : d.iub < d.unknown) :
    (∀ (id : Nat) (p : Nat), d.ref_seq.isNone ∨ (id : Int) ≠ d.ref_id →
      (load_chromosome env d id).bp_class p = (load_chromosome env d id).unknown) ∧
    (∀ pos pl p, d.bp_class p ≠ d.unknown →
      (pileup_func_2 pos pl d).bp_class p = d.bp_class p) ∧
    (∀ pos pl p, (pileup_func_2 pos pl d).bp_class p ≠ d.bp_class p →
      p = pos ∧ d.bp_class p = d.unknown ∧
        (pileup_func_2 pos pl d).bp_class p ≠ (pileup_func_2 pos pl d).unknown) ∧
    (∀ cols p, d.bp_class p ≠ d.unknown → (run_pileup2 cols d).bp_class p = d.bp_class p) ∧
    (∀ (id start stop : Nat) (r : RoiInput) (p : Nat), ¬ (d.ref_seq.isNone ∨ (id : Int) ≠ d.ref_id) →
      d.bp_class p ≠ d.unknown →
      (roi_process env (sscanf_store d start stop) id r).bp_class p = d.bp_class p) ∧
    (∀ (id : Nat) (rois : List RoiInput) (p : Nat),
      d.ref_seq.isNone = false → d.ref_id = (id : Int) →
      (∀ r ∈ rois, ∀ ref_name start stop gene_name id2,
        r.line = RoiLine.fields4 ref_name start stop gene_name →
        env.hdr_hash ref_name = some id2 → id2 = id) →
      d.bp_class p ≠ d.unknown →
      (main_loop env rois d).data.bp_class p = d.bp_class p) := by
  refine ⟨?_, ?_, ?_, ?_, ?_, fun id rois p hs hid hr h =>
    main_loop_cache_kept env id rois d p hs hid hr h⟩
  · intro id p h
    unfold load_chromosome
    rw [if_pos h]
  · intro pos pl p h
    exact (pileup_func_2_cache pos pl d p).1 h
  · intro pos pl p h
    obtain ⟨a, b, c⟩ := (pileup_func_2_cache pos pl d p).2 h
    have hun : (pileup_func_2 pos pl d).unknown = d.unknown :=
      (ref_fields_of_static _ _ (pileup_func_2_static pos pl d)).2.2.2.2.2.2.1
    refine ⟨a, b, ?_⟩
    rw [hun]
    omega
  · intro cols p h
    exact run_pileup2_cache_kept cols d p h
  · intro id start stop r p hno h
    have hc := (roi_prepare_cache env (sscanf_store d start stop) id).1
    have hu := (roi_prepare_cache env (sscanf_store d start stop) id).2.1
    have hno' : ¬ ((sscanf_store d start stop).ref_seq.isNone ∨
        (id : Int) ≠ (sscanf_store d start stop).ref_id) := hno
    rw [if_neg hno'] at hc
    have h1 := run_pileup1_eq r.pileup1 (roi_prepare env (sscanf_store d start stop) id)
    have hV : (run_pileup1 r.pileup1 (roi_prepare env (sscanf_store d start stop) id)).bp_class
        = d.bp_class := by
      rw [h1]; exact hc
    have hVu : (run_pileup1 r.pileup1 (roi_prepare env (sscanf_store d start stop) id)).unknown
        = d.unknown := by
      rw [h1]; exact hu
    unfold roi_process
    rw [run_pileup2_cache_kept _ _ p (by rw [hV, hVu]; exact h), hV]

/-- C15 on a concrete state: in the sample state with position 2 cached as
class 1, a column at position 2 that passes both gates leaves the entry as it is. -/
theorem class_cache_monotone_witness :
    cached_state.iub < cached_state.unknown ∧
    (pileup_func_2 2 (uniform_column 10 30 2).pl cached_state).bp_class 2
      = cached_state.bp_class 2 :=
  ⟨by decide,
    (class_cache_monotone demo_env cached_state (by decide)).2.1 2 (uniform_column 10 30 2).pl 2
      (by decide)⟩

/-- C16: cached-class reuse. A bam2 column inside the interval whose position
is flagged in the bam1 mask, whose depth reaches `min_depth_bam2` and whose
cached class `c` is not `unknown` increments `covd_bases` and `base_cnt[c]` by
one and changes nothing else: `tot_covd_bases`, `tot_base_cnt`, the cache and
every other `base_cnt` entry are as before. -/
theorem cached_class_reuse (pos : Nat) (pl : List bam_pileup1_t) (tmp : pileup_data_t)
    (hb : pos ≥ tmp.beg ∧ pos < tmp.end_) (hm : tmp.bam1_cvg (pos - tmp.beg) = true)
    (hd : mapq_count pl tmp.min_mapq ≥ tmp.min_depth_bam2)
    (hc : tmp.bp_class pos ≠ tmp.unknown) :
    pileup_func_2 pos pl tmp
      = { tmp with covd_bases := tmp.covd_bases + 1
                   base_cnt := arr_incr tmp.base_cnt (tmp.bp_class pos) } ∧
    (pileup_func_2 pos pl tmp).covd_bases = tmp.covd_bases + 1 ∧
    (pileup_func_2 pos pl tmp).base_cnt (tmp.bp_class pos)
      = tmp.base_cnt (tmp.bp_class pos) + 1 ∧
    (∀ j, j ≠ tmp.bp_class pos → (pileup_func_2 pos pl tmp).base_cnt j = tmp.base_cnt j) ∧
    (pileup_func_2 pos pl tmp).tot_covd_bases = tmp.tot_covd_bases ∧
    (pileup_func_2 pos pl tmp).tot_base_cnt = tmp.tot_base_cnt ∧
    (pileup_func_2 pos pl tmp).bp_class = tmp.bp_class := by
  have he : pileup_func_2 pos pl tmp
      = { tmp with covd_bases := tmp.covd_bases + 1
                   base_cnt := arr_incr tmp.base_cnt (tmp.bp_class pos) } := by
    unfold pileup_func_2
    rw [if_pos ⟨hb.1, hb.2, hm⟩, if_pos hd]
    simp only [hc, if_false]
  refine ⟨he, ?_, ?_, ?_, ?_, ?_, ?_⟩
  · rw [he]
  · rw [he]; simp only [arr_incr, if_true]
  · intro j hj
    rw [he]; simp only [arr_incr, if_neg hj]
  · rw [he]
  · rw [he]
  · rw [he]

/-- C16 on a concrete state: a depth-10 column at the cached position 2 of the
sample state. -/
theorem cached_class_reuse_witness :
    (2 ≥ cached_state.beg ∧ 2 < cached_state.end_) ∧
    cached_state.bam1_cvg (2 - cached_state.beg) = true ∧
    mapq_count (uniform_column 10 30 2).pl cached_state.min_mapq ≥ cached_state.min_depth_bam2 ∧
    cached_state.bp_class 2 ≠ cached_state.unknown ∧
    (pileup_func_2 2 (uniform_column 10 30 2).pl cached_state).covd_bases
      = cached_state.covd_bases + 1 ∧
    (pileup_func_2 2 (uniform_column 10 30 2).pl cached_state).tot_covd_bases
      = cached_state.tot_covd_bases :=
  ⟨by decide, by decide, by decide, by decide,
    (cached_class_reuse 2 (uniform_column 10 30 2).pl cached_state (by decide) (by decide)
      (by decide) (by decide)).2.1,
    (cached_class_reuse 2 (uniform_column 10 30 2).pl cached_state (by decide) (by decide)
      (by decide) (by decide)).2.2.2.2.1⟩

/-- Induction over the ROI loop: a property `Q` of the state that survives the
read of a record and the processing of an ROI holds for the final state, and a
property `R` that holds for the row of every ROI processed from a state with
`Q` holds for all rows written. -/
theorem main_loop_induct (env : Env) (cfg : pileup_data_t) (Q : pileup_data_t → Prop)
    (R : RoiRow → Prop)
    (hs : ∀ d start stop, LoopInv env cfg d → Q d → Q (sscanf_store d start stop))
    (hp : ∀ d id r, LoopInv env cfg d → Q d → Q (roi_process env d id r))
    (hr : ∀ d id r gene_name ref_name, LoopInv env cfg d → Q d →
      R (roi_row gene_name ref_name d (roi_process env d id r)))
    (rois : List RoiInput) (d : pileup_data_t) (hinv : LoopInv env cfg d) (hq : Q d) :
    Q (main_loop env rois d).data ∧ ∀ row ∈ (main_loop env rois d).rows, R row := by
  induction rois generalizing d with
  | nil =>
    refine ⟨hq, ?_⟩
    intro row hrow
    simp [main_loop] at hrow
  | cons r rest ih =>
    cases hline : r.line with
    | badly_formatted =>
      rw [main_loop_bad env r rest d hline]
      refine ⟨hq, ?_⟩
      intro row hrow
      simp at hrow
    | fields4 ref_name start stop gene_name =>
      have h0 : LoopInv env cfg (sscanf_store d start stop) :=
        ⟨by rw [cfg_part_sscanf_store]; exact hinv.1, loaded_sscanf_store env d start stop hinv.2⟩
      have q0 := hs d start stop hinv hq
      cases hh : env.hdr_hash ref_name with
      | none =>
        rw [main_loop_unknown env r _ d _ _ _ _ hline hh]
        exact ih _ h0 q0
      | some ref_id =>
        by_cases hbe : (sscanf_store d start stop).beg > (sscanf_store d start stop).end_
        · rw [main_loop_inverted env r _ d _ _ _ _ _ hline hh hbe]
          exact ih _ h0 q0
        · rw [main_loop_valid env r _ d _ _ _ _ _ hline hh hbe]
          have h1 : LoopInv env cfg (roi_process env (sscanf_store d start stop) ref_id r) :=
            ⟨by rw [cfg_part_roi_process]; exact h0.1, loaded_roi_process env _ ref_id r h0.2⟩
          have q1 := hp _ ref_id r h0 q0
          obtain ⟨i1, i2⟩ := ih _ h1 q1
          refine ⟨i1, ?_⟩
          intro row hrow
          rcases List.mem_cons.mp hrow with e | e
          · rw [e]
            exact hr _ ref_id r gene_name ref_name h0 q0
          · exact i2 row e

/-- The final state of a run is the final state of its ROI loop. -/
theorem main_data (env : Env) (q n t : Int) (types : List Char) (heap : Nat → List Char)
    (rois : List RoiInput) :
    (main env q n t types heap rois).data
      = (main_loop env rois (main_config q n t types heap)).data := by
  unfold main
  simp only []
  split_ifs <;> rfl

/-- Incrementing one entry below `n` adds one to the sum of the first `n`
entries; incrementing an entry from `n` on leaves the sum as it is. -/
theorem sum_range_arr_incr (f : Nat → Nat) (c n : Nat) :
    ((List.range n).map (arr_incr f c)).sum
      = ((List.range n).map f).sum + (if c < n then 1 else 0) := by
  induction n with
  | zero => simp
  | succ n ih =>
    rw [List.sum_range_succ, List.sum_range_succ, ih]
    by_cases h1 : c < n
    · have h2 : n ≠ c := by omega
      have h3 : c < n + 1 := by omega
      simp only [arr_incr, if_pos h1, if_neg h2, if_pos h3]
      omega
    · by_cases h2 : n = c
      · subst h2
        simp [arr_incr]
        omega
      · have h3 : ¬ c < n + 1 := by omega
        simp only [arr_incr, if_neg h1, if_neg h2, if_neg h3]
        omega

/-- The totals partition as a property of a state: `tot_covd_bases` is the sum
of `tot_base_cnt[0 .. iub]`. -/
theorem pileup_func_2_tot_sum (pos : Nat) (pl : List bam_pileup1_t) (d : pileup_data_t)
    (h : d.tot_covd_bases = ((List.range (d.iub + 1)).map d.tot_base_cnt).sum) :
    (pileup_func_2 pos pl d).tot_covd_bases
      = ((List.range ((pileup_func_2 pos pl d).iub + 1)).map
          (pileup_func_2 pos pl d).tot_base_cnt).sum := by
  have hiub : (pileup_func_2 pos pl d).iub = d.iub :=
    (ref_fields_of_static _ _ (pileup_func_2_static pos pl d)).2.2.2.2.2.2.2
  rw [hiub]
  unfold pileup_func_2
  by_cases h1 : pos ≥ d.beg ∧ pos < d.end_ ∧ d.bam1_cvg (pos - d.beg) = true
  · rw [if_pos h1]
    by_cases h2 : mapq_count pl d.min_mapq ≥ d.min_depth_bam2
    · rw [if_pos h2]
      by_cases hu : d.bp_class pos = d.unknown
      · simp only [hu, if_true]
        rw [sum_range_arr_incr, if_pos (Nat.lt_succ_of_le (classify_le_iub d pos)), h]
      · simp only [hu, if_false]
        exact h
    · rw [if_neg h2]; exact h
  · rw [if_neg h1]; exact h

/-- The totals partition survives a whole bam2 pileup. -/
theorem run_pileup2_tot_sum (cols : List Column) (d : pileup_data_t)
    (h : d.tot_covd_bases = ((List.range (d.iub + 1)).map d.tot_base_cnt).sum) :
    (run_pileup2 cols d).tot_covd_bases
      = ((List.range ((run_pileup2 cols d).iub + 1)).map (run_pileup2 cols d).tot_base_cnt).sum := by
  induction cols generalizing d with
  | nil => exact h
  | cons c cs ih =>
    have hrun : run_pileup2 (c :: cs) d = run_pileup2 cs (pileup_func_2 c.pos c.pl d) := rfl
    rw [hrun]
    exact ih _ (pileup_func_2_tot_sum c.pos c.pl d h)

/-- The totals partition survives the processing of an ROI. -/
theorem roi_process_tot_sum (env : Env) (d : pileup_data_t) (id : Nat) (r : RoiInput)
    (h : d.tot_covd_bases = ((List.range (d.iub + 1)).map d.tot_base_cnt).sum) :
    (roi_process env d id r).tot_covd_bases
      = ((List.range ((roi_process env d id r).iub + 1)).map
          (roi_process env d id r).tot_base_cnt).sum := by
  unfold roi_process
  apply run_pileup2_tot_sum
  rw [run_pileup1_eq]
  obtain ⟨_, _, a3, a4, _⟩ := roi_prepare_fields env d id
  have a5 := (roi_prepare_cache env d id).2.2
  show (roi_prepare env d id).tot_covd_bases
    = ((List.range ((roi_prepare env d id).iub + 1)).map (roi_prepare env d id).tot_base_cnt).sum
  rw [a3, a4, a5]
  exact h

/-- One bam2 column never lowers the genome-wide total and raises it by at
most one. -/
theorem pileup_func_2_tot_le (pos : Nat) (pl : List bam_pileup1_t) (d : pileup_data_t) :
    d.tot_covd_bases ≤ (pileup_func_2 pos pl d).tot_covd_bases ∧
    (pileup_func_2 pos pl d).tot_covd_bases ≤ d.tot_covd_bases + 1 := by
  unfold pileup_func_2
  by_cases h1 : pos ≥ d.beg ∧ pos < d.end_ ∧ d.bam1_cvg (pos - d.beg) = true
  · rw [if_pos h1]
    by_cases h2 : mapq_count pl d.min_mapq ≥ d.min_depth_bam2
    · rw [if_pos h2]
      by_cases hu : d.bp_class pos = d.unknown
      · simp only [hu, if_true]
        omega
      · simp only [hu, if_false]
        omega
    · rw [if_neg h2]; omega
  · rw [if_neg h1]; omega

/-- A bam2 pileup never lowers the genome-wide total and raises it by at most
the number of its columns. -/
theorem run_pileup2_tot_le (cols : List Column) (d : pileup_data_t) :
    d.tot_covd_bases ≤ (run_pileup2 cols d).tot_covd_bases ∧
    (run_pileup2 cols d).tot_covd_bases ≤ d.tot_covd_bases + cols.length := by
  induction cols generalizing d with
  | nil => exact ⟨le_refl _, le_refl _⟩
  | cons c cs ih =>
    have hrun : run_pileup2 (c :: cs) d = run_pileup2 cs (pileup_func_2 c.pos c.pl d) := rfl
    obtain ⟨a1, a2⟩ := pileup_func_2_tot_le c.pos c.pl d
    obtain ⟨b1, b2⟩ := ih (pileup_func_2 c.pos c.pl d)
    rw [hrun]
    simp only [List.length_cons]
    omega

/-- The genome-wide total after the first `k` columns of a bam2 pileup is at
most the total after the whole pileup. -/
theorem run_pileup2_take_le (cols : List Column) (k : Nat) (d : pileup_data_t) :
    (run_pileup2 (cols.take k) d).tot_covd_bases ≤ (run_pileup2 cols d).tot_covd_bases := by
  have hsplit : run_pileup2 cols d = run_pileup2 (cols.drop k) (run_pileup2 (cols.take k) d) := by
    unfold run_pileup2
    rw [← List.foldl_append, List.take_append_drop]
  rw [hsplit]
  exact (run_pileup2_tot_le _ _).1

/-- The genome-wide total before and after the processing of an ROI. -/
theorem roi_process_tot_le (env : Env) (d : pileup_data_t) (id : Nat) (r : RoiInput) :
    d.tot_covd_bases ≤ (roi_process env d id r).tot_covd_bases ∧
    (roi_process env d id r).tot_covd_bases ≤ d.tot_covd_bases + r.pileup2.length ∧
    ∀ k, (roi_process env d id (cut_pileup2 r k)).tot_covd_bases
      ≤ (roi_process env d id r).tot_covd_bases := by
  have hV : (run_pileup1 r.pileup1 (roi_prepare env d id)).tot_covd_bases = d.tot_covd_bases := by
    rw [run_pileup1_eq]
    exact (roi_prepare_fields env d id).2.2.1
  obtain ⟨a1, a2⟩ := run_pileup2_tot_le r.pileup2 (run_pileup1 r.pileup1 (roi_prepare env d id))
  rw [hV] at a1 a2
  refine ⟨a1, a2, ?_⟩
  intro k
  exact run_pileup2_take_le r.pileup2 k (run_pileup1 r.pileup1 (roi_prepare env d id))

/-- Reading a record keeps the genome-wide totals. -/
theorem sscanf_store_tot (d : pileup_data_t) (start stop : Nat) :
    (sscanf_store d start stop).tot_covd_bases = d.tot_covd_bases ∧
    (sscanf_store d start stop).tot_base_cnt = d.tot_base_cnt := by
  constructor <;> simp only [sscanf_store]

/-- The ROI loop never lowers the genome-wide total and raises it by at most
the number of bam2 columns of its records. -/
theorem main_loop_tot_le (env : Env) (rois : List RoiInput) (d : pileup_data_t) :
    d.tot_covd_bases ≤ (main_loop env rois d).data.tot_covd_bases ∧
    (main_loop env rois d).data.tot_covd_bases ≤ d.tot_covd_bases + bam2_columns rois := by
  induction rois generalizing d with
  | nil => exact ⟨le_refl _, Nat.le_add_right _ _⟩
  | cons r rest ih =>
    have hcol : bam2_columns (r :: rest) = r.pileup2.length + bam2_columns rest := by
      simp [bam2_columns]
    have e0 : ∀ start stop, (sscanf_store d start stop).tot_covd_bases = d.tot_covd_bases :=
      fun start stop => (sscanf_store_tot d start stop).1
    cases hline : r.line with
    | badly_formatted =>
      rw [main_loop_bad env r rest d hline]
      exact ⟨le_refl _, Nat.le_add_right _ _⟩
    | fields4 ref_name start stop gene_name =>
      have skip : d.tot_covd_bases
            ≤ (main_loop env rest (sscanf_store d start stop)).data.tot_covd_bases ∧
          (main_loop env rest (sscanf_store d start stop)).data.tot_covd_bases
            ≤ d.tot_covd_bases + bam2_columns (r :: rest) := by
        obtain ⟨i1, i2⟩ := ih (sscanf_store d start stop)
        rw [e0 start stop] at i1 i2
        rw [hcol]
        omega
      cases hh : env.hdr_hash ref_name with
      | none =>
        rw [main_loop_unknown env r _ d _ _ _ _ hline hh]
        exact skip
      | some ref_id =>
        by_cases hbe : (sscanf_store d start stop).beg > (sscanf_store d start stop).end_
        · rw [main_loop_inverted env r _ d _ _ _ _ _ hline hh hbe]
          exact skip
        · rw [main_loop_valid env r _ d _ _ _ _ _ hline hh hbe]
          obtain ⟨p1, p2, _⟩ := roi_process_tot_le env (sscanf_store d start stop) ref_id r
          obtain ⟨i1, i2⟩ := ih (roi_process env (sscanf_store d start stop) ref_id r)
          rw [e0 start stop] at p1 p2
          rw [hcol]
          show d.tot_covd_bases
              ≤ (main_loop env rest
                  (roi_process env (sscanf_store d start stop) ref_id r)).data.tot_covd_bases ∧
            (main_loop env rest
                (roi_process env (sscanf_store d start stop) ref_id r)).data.tot_covd_bases
              ≤ d.tot_covd_bases + (r.pileup2.length + bam2_columns rest)
          omega

/-- The genome-wide total at the point of a run where the records `pre` and
the first `k` bam2 columns of the record `r` have been processed is at most
the final total. -/
theorem main_loop_tot_point (env : Env) (pre : List RoiInput) (r : RoiInput)
    (post : List RoiInput) (k : Nat) (d : pileup_data_t) :
    (main_loop env (pre ++ [cut_pileup2 r k]) d).data.tot_covd_bases
      ≤ (main_loop env (pre ++ r :: post) d).data.tot_covd_bases := by
  induction pre generalizing d with
  | nil =>
    rw [List.nil_append, List.nil_append]
    have hcl : (cut_pileup2 r k).line = r.line := rfl
    have e0 : ∀ start stop, (sscanf_store d start stop).tot_covd_bases = d.tot_covd_bases :=
      fun start stop => (sscanf_store_tot d start stop).1
    cases hline : r.line with
    | badly_formatted =>
      rw [main_loop_bad env r post d hline, main_loop_bad env _ [] d (hcl.trans hline)]
    | fields4 ref_name start stop gene_name =>
      have skip : (main_loop env [] (sscanf_store d start stop)).data.tot_covd_bases
          ≤ (main_loop env post (sscanf_store d start stop)).data.tot_covd_bases :=
        (main_loop_tot_le env post (sscanf_store d start stop)).1
      cases hh : env.hdr_hash ref_name with
      | none =>
        rw [main_loop_unknown env r _ d _ _ _ _ hline hh,
          main_loop_unknown env _ _ d _ _ _ _ (hcl.trans hline) hh]
        exact skip
      | some ref_id =>
        by_cases hbe : (sscanf_store d start stop).beg > (sscanf_store d start stop).end_
        · rw [main_loop_inverted env r _ d _ _ _ _ _ hline hh hbe,
            main_loop_inverted env _ _ d _ _ _ _ _ (hcl.trans hline) hh hbe]
          exact skip
        · rw [main_loop_valid env r _ d _ _ _ _ _ hline hh hbe,
            main_loop_valid env _ _ d _ _ _ _ _ (hcl.trans hline) hh hbe]
          have h1 := (roi_process_tot_le env (sscanf_store d start stop) ref_id r).2.2 k
          have h2 := (main_loop_tot_le env post
            (roi_process env (sscanf_store d start stop) ref_id r)).1
          show (roi_process env (sscanf_store d start stop) ref_id
                (cut_pileup2 r k)).tot_covd_bases
            ≤ (main_loop env post
                (roi_process env (sscanf_store d start stop) ref_id r)).data.tot_covd_bases
          omega
  | cons x pre ih =>
    rw [List.cons_append, List.cons_append]
    cases hline : x.line with
    | badly_formatted =>
      rw [main_loop_bad env x _ d hline, main_loop_bad env x _ d hline]
    | fields4 ref_name start stop gene_name =>
      cases hh : env.hdr_hash ref_name with
      | none =>
        rw [main_loop_unknown env x _ d _ _ _ _ hline hh,
          main_loop_unknown env x _ d _ _ _ _ hline hh]
        exact ih _
      | some ref_id =>
        by_cases hbe : (sscanf_store d start stop).beg > (sscanf_store d start stop).end_
        · rw [main_loop_inverted env x _ d _ _ _ _ _ hline hh hbe,
            main_loop_inverted env x _ d _ _ _ _ _ hline hh hbe]
          exact ih _
        · rw [main_loop_valid env x _ d _ _ _ _ _ hline hh hbe,
            main_loop_valid env x _ d _ _ _ _ _ hline hh hbe]
          exact ih _

/-- The bam2 columns of a run up to a point are at most those of the run. -/
theorem bam2_columns_point (pre : List RoiInput) (r : RoiInput) (post : List RoiInput)
    (k : Nat) :
    bam2_columns (pre ++ [cut_pileup2 r k]) ≤ bam2_columns (pre ++ r :: post) := by
  have h : (cut_pileup2 r k).pileup2.length ≤ r.pileup2.length := by
    show (r.pileup2.take k).length ≤ r.pileup2.length
    rw [List.length_take]
    omega
  simp only [bam2_columns, List.map_append, List.sum_append, List.map_cons, List.sum_cons,
    List.map_nil, List.sum_nil]
  omega

/-- In the final state of a run `tot_covd_bases` is the sum of
`tot_base_cnt[0 .. N]`, as long as the counters are read as naturals. -/
theorem main_tot_sum (env : Env) (q n t : Int) (types : List Char)
    (heap : Nat → List Char) (rois : List RoiInput) :
    (main env q n t types heap rois).data.tot_covd_bases
      = ((List.range ((main env q n t types heap rois).data.bp_class_number + 1)).map
          (main env q n t types heap rois).data.tot_base_cnt).sum ∧
    (main env q n t types heap rois).data.iub
      = (main env q n t types heap rois).data.bp_class_number ∧
    (main env q n t types heap rois).data.bp_class_number
      = (main_config q n t types heap).bp_class_number := by
  rw [main_data]
  have hcfg := main_config_facts q n t types heap
  have hinv0 := loopInv_cfg env (main_config q n t types heap) hcfg.1
  have hinv := main_loop_inv env (main_config q n t types heap) rois _ hinv0
  have hq0 : (main_config q n t types heap).tot_covd_bases
      = ((List.range ((main_config q n t types heap).iub + 1)).map
          (main_config q n t types heap).tot_base_cnt).sum := by
    rw [hcfg.2.2.2.1]
    symm
    apply List.sum_eq_zero
    intro x hx
    obtain ⟨j, hj, rfl⟩ := List.mem_map.mp hx
    rw [List.mem_range] at hj
    have hj2 : j ≤ (main_config q n t types heap).bp_class_number := by
      rw [← hcfg.2.1]; omega
    simp only [main_config]
    simp only [main_config] at hj2
    rw [if_pos hj2]
  have key := (main_loop_induct env (main_config q n t types heap)
    (fun d => d.tot_covd_bases = ((List.range (d.iub + 1)).map d.tot_base_cnt).sum)
    (fun _ => True)
    (fun d start stop _ hq => hq)
    (fun d id r _ hq => roi_process_tot_sum env d id r hq)
    (fun _ _ _ _ _ _ _ => trivial) rois _ hinv0 hq0).1
  have e1 : (main_loop env rois (main_config q n t types heap)).data.iub
      = (main_config q n t types heap).iub := by
    have := congrArg pileup_data_t.iub hinv.1
    exact this
  have e2 : (main_loop env rois (main_config q n t types heap)).data.bp_class_number
      = (main_config q n t types heap).bp_class_number := by
    have := congrArg pileup_data_t.bp_class_number hinv.1
    exact this
  have hiub : (main_loop env rois (main_config q n t types heap)).data.iub
      = (main_loop env rois (main_config q n t types heap)).data.bp_class_number := by
    rw [e1, e2]
    exact hcfg.2.1
  refine ⟨?_, hiub, e2⟩
  rw [← hiub]; exact key

/-- The final genome-wide total of a run is at most the number of bam2 columns
of the run. -/
theorem main_tot_le_columns (env : Env) (q n t : Int) (types : List Char)
    (heap : Nat → List Char) (rois : List RoiInput) :
    (main env q n t types heap rois).data.tot_covd_bases ≤ bam2_columns rois := by
  rw [main_data]
  have h := (main_loop_tot_le env rois (main_config q n t types heap)).2
  rw [(main_config_facts q n t types heap).2.2.2.1, Nat.zero_add] at h
  exact h

/-- C17: totals partition. In a run with fewer than 100 configured classes
(the IUB index `N` is inside the counter arrays) and fewer than `2^32` bam2
columns (no `++` on a 32-bit genome-wide counter wraps), `tot_covd_bases` is
the sum of `tot_base_cnt[0 .. N]`, the IUB bucket `tot_base_cnt[N]` included,
and the total and every summand are below `2^32`: in the final state, and at
every point of the run, that is after the records `pre` and the first `k`
bam2 columns of the next record `r`. -/
theorem totals_partition (env : Env) (q n t : Int) (types : List Char)
    (heap : Nat → List Char) (rois : List RoiInput)
    (hN : (main_config q n t types heap).bp_class_number < 100)
    (hb : bam2_columns rois < 4294967296) :
    ((main env q n t types heap rois).data.tot_covd_bases
        = ((List.range ((main env q n t types heap rois).data.bp_class_number + 1)).map
            (main env q n t types heap rois).data.tot_base_cnt).sum ∧
      (main env q n t types heap rois).data.iub
        = (main env q n t types heap rois).data.bp_class_number ∧
      (main env q n t types heap rois).data.iub < 100 ∧
      (main env q n t types heap rois).data.tot_covd_bases < 4294967296 ∧
      ∀ i, i ≤ (main env q n t types heap rois).data.bp_class_number →
        (main env q n t types heap rois).data.tot_base_cnt i < 4294967296) ∧
    ∀ pre r post k, rois = pre ++ r :: post →
      (main env q n t types heap (pre ++ [cut_pileup2 r k])).data.tot_covd_bases
        = ((List.range
            ((main env q n t types heap (pre ++ [cut_pileup2 r k])).data.bp_class_number
              + 1)).map
            (main env q n t types heap (pre ++ [cut_pileup2 r k])).data.tot_base_cnt).sum ∧
      (main env q n t types heap (pre ++ [cut_pileup2 r k])).data.tot_covd_bases
        < 4294967296 ∧
      ∀ i, i ≤ (main env q n t types heap (pre ++ [cut_pileup2 r k])).data.bp_class_number →
        (main env q n t types heap (pre ++ [cut_pileup2 r k])).data.tot_base_cnt i
          < 4294967296 := by
  have entry : ∀ l : List RoiInput, bam2_columns l < 4294967296 →
      (main env q n t types heap l).data.tot_covd_bases < 4294967296 ∧
      ∀ i, i ≤ (main env q n t types heap l).data.bp_class_number →
        (main env q n t types heap l).data.tot_base_cnt i < 4294967296 := by
    intro l hl
    have h1 := main_tot_le_columns env q n t types heap l
    have h2 := (main_tot_sum env q n t types heap l).1
    refine ⟨by omega, ?_⟩
    intro i hi
    have hmem : (main env q n t types heap l).data.tot_base_cnt i
        ∈ (List.range ((main env q n t types heap l).data.bp_class_number + 1)).map
            (main env q n t types heap l).data.tot_base_cnt :=
      List.mem_map.mpr ⟨i, List.mem_range.mpr (by omega), rfl⟩
    have := List.le_sum_of_mem hmem
    omega
  obtain ⟨s1, s2, s3⟩ := main_tot_sum env q n t types heap rois
  refine ⟨⟨s1, s2, by rw [s2, s3]; exact hN, (entry rois hb).1, (entry rois hb).2⟩, ?_⟩
  intro pre r post k hsplit
  have hcol : bam2_columns (pre ++ [cut_pileup2 r k]) < 4294967296 := by
    have := bam2_columns_point pre r post k
    rw [← hsplit] at this
    omega
  exact ⟨(main_tot_sum env q n t types heap _).1, (entry _ hcol).1, (entry _ hcol).2⟩

/-- Witness for C17: the run over the overlapping ROIs `2 6` and `4 9` of
`chr1` with the three default classes and 24 bam2 columns; after the first
record and two bam2 columns of the second the total is below `2^32`. -/
theorem totals_partition_witness :
    (main_config 20 6 8 default_bp_class_types (fun _ => [])).bp_class_number < 100 ∧
    bam2_columns [demo_roi 2 6, demo_roi 4 9] < 4294967296 ∧
    (main demo_env 20 6 8 default_bp_class_types (fun _ => [])
        [demo_roi 2 6, demo_roi 4 9]).data.tot_covd_bases
      = ((List.range ((main demo_env 20 6 8 default_bp_class_types (fun _ => [])
            [demo_roi 2 6, demo_roi 4 9]).data.bp_class_number + 1)).map
          (main demo_env 20 6 8 default_bp_class_types (fun _ => [])
            [demo_roi 2 6, demo_roi 4 9]).data.tot_base_cnt).sum ∧
    (main demo_env 20 6 8 default_bp_class_types (fun _ => [])
        ([demo_roi 2 6] ++ [cut_pileup2 (demo_roi 4 9) 2])).data.tot_covd_bases
      < 4294967296 :=
  ⟨by decide, by decide,
    (totals_partition demo_env 20 6 8 default_bp_class_types (fun _ => [])
      [demo_roi 2 6, demo_roi 4 9] (by decide) (by decide)).1.1,
    ((totals_partition demo_env 20 6 8 default_bp_class_types (fun _ => [])
      [demo_roi 2 6, demo_roi 4 9] (by decide) (by decide)).2
        [demo_roi 2 6] (demo_roi 4 9) [] 2 rfl).2.1⟩

/-- C1: in a run whose valid ROIs are grouped by chromosome, with fewer than
100 configured classes (the IUB index is inside the counter arrays) and fewer
than `2^32` distinct (chromosome, position) pairs counted as covered (the
number fits the 32-bit counter), the final `tot_covd_bases` (the first field
of the totals row, when it is written) is the number of distinct pairs counted
as covered in at least one ROI: a position is counted once however many ROIs
cover it. The counter is below `2^32` at every point of the run (after the
records `pre` and the first `k` bam2 columns of the next record `r`), so that
no `++` on it wraps. -/
theorem totals_count_distinct (env : Env) (q n t : Int) (types : List Char)
    (heap : Nat → List Char) (rois : List RoiInput)
    (hg : grouped (roi_chroms env rois) = true)
    (hN : (main_config q n t types heap).bp_class_number < 100)
    (hb : ((covered_pairs env (main_config q n t types heap) rois).dedup).length
      < 4294967296) :
    (main env q n t types heap rois).data.tot_covd_bases
      = ((covered_pairs env (main_config q n t types heap) rois).dedup).length ∧
    (∀ tot cols, (main env q n t types heap rois).totals = some (tot, cols) →
      tot = ((covered_pairs env (main_config q n t types heap) rois).dedup).length) ∧
    (main env q n t types heap rois).data.iub < 100 ∧
    (main env q n t types heap rois).data.tot_covd_bases < 4294967296 ∧
    ∀ pre r post k, rois = pre ++ r :: post →
      (main env q n t types heap (pre ++ [cut_pileup2 r k])).data.tot_covd_bases
        < 4294967296 := by
  have key := main_tot_distinct env q n t types heap rois hg
  obtain ⟨_, s2, s3⟩ := main_tot_sum env q n t types heap rois
  refine ⟨key, ?_, by rw [s2, s3]; exact hN, by rw [key]; exact hb, ?_⟩
  · intro tot cols htotals
    unfold main at htotals
    simp only [] at htotals
    split_ifs at htotals
    simp only [Option.some.injEq, Prod.mk.injEq] at htotals
    rw [← htotals.1, ← main_data env q n t types heap rois]
    exact key
  · intro pre r post k hsplit
    have hp := main_loop_tot_point env pre r post k (main_config q n t types heap)
    rw [← hsplit, ← main_data, ← main_data] at hp
    rw [key] at hp
    omega

set_option maxRecDepth 8000 in
/-- Witness for C1: the overlapping ROIs `2 6` and `4 9` of `chr1`, processed
as `[1,6)` and `[3,9)`, give a total of 8, the size of the union `[1,9)`. -/
theorem totals_count_distinct_witness :
    grouped (roi_chroms demo_env [demo_roi 2 6, demo_roi 4 9]) = true ∧
    (main_config 20 6 8 default_bp_class_types (fun _ => [])).bp_class_number < 100 ∧
    ((covered_pairs demo_env (main_config 20 6 8 default_bp_class_types (fun _ => []))
        [demo_roi 2 6, demo_roi 4 9]).dedup).length < 4294967296 ∧
    (main demo_env 20 6 8 default_bp_class_types (fun _ => [])
        [demo_roi 2 6, demo_roi 4 9]).data.tot_covd_bases
      = ((covered_pairs demo_env (main_config 20 6 8 default_bp_class_types (fun _ => []))
          [demo_roi 2 6, demo_roi 4 9]).dedup).length ∧
    (main demo_env 20 6 8 default_bp_class_types (fun _ => [])
        [demo_roi 2 6, demo_roi 4 9]).data.tot_covd_bases = 8 :=
  ⟨by decide, by decide, by decide,
    (totals_count_distinct demo_env 20 6 8 default_bp_class_types (fun _ => [])
      [demo_roi 2 6, demo_roi 4 9] (by decide) (by decide) (by decide)).1,
    by decide⟩

/-! ## The default class list -/

/-- The fields that `sscanf` stores for a record whose bounds fit 32 bits. -/
theorem sscanf_store_interval (d : pileup_data_t) (start stop : Nat)
    (h2 : start ≤ stop) (h3 : stop < 4294967296) :
    (sscanf_store d start stop).beg = start ∧ (sscanf_store d start stop).end_ = stop := by
  constructor
  · show start % 4294967296 = start
    omega
  · show stop % 4294967296 = stop
    omega

/-- The interval of an ROI `1 ≤ start ≤ stop` (32-bit values) whatever the
chromosome is: `beg` is `start - 1`, or 1 for `start = 1`; `end` is `stop` or
`stop - 1`; `bases` is `stop - start + 1`. -/
theorem roi_interval_bounds (env : Env) (d : pileup_data_t) (id start stop : Nat)
    (h1 : 1 ≤ start) (h2 : start ≤ stop) (h3 : stop < 4294967296) :
    (roi_prepare env (sscanf_store d start stop) id).beg = (if start = 1 then 1 else start - 1) ∧
    (roi_prepare env (sscanf_store d start stop) id).end_
      = (if stop = uint32_of_int
            (load_chromosome env (roi_reset (sscanf_store d start stop)) id).ref_len
          then stop - 1 else stop) ∧
    roi_bases (sscanf_store d start stop) = stop + 1 - start := by
  obtain ⟨x1, x2⟩ := sscanf_store_interval d start stop h2 h3
  obtain ⟨i1, i2⟩ := roi_prepare_interval env (sscanf_store d start stop) id
  have hdec : dec32 start = start - 1 := by
    unfold dec32
    rw [if_neg (by omega)]
  have hdec2 : dec32 stop = stop - 1 := by
    unfold dec32
    rw [if_neg (by omega)]
  have hinc : inc32 0 = 1 := by decide
  refine ⟨?_, ?_, ?_⟩
  · rw [i1, x1, hdec]
    by_cases hs : start = 1
    · rw [if_pos hs]
      have h0 : start - 1 = 0 := by omega
      rw [h0, if_pos rfl, hinc]
    · rw [if_neg hs, if_neg (by omega)]
  · rw [i2, x2, hdec2]
  · unfold roi_bases
    rw [x1, x2, hdec]
    unfold sub32
    rw [if_pos (by omega)]
    omega

/-- The length stored for the chromosome of an ROI, in a loop state. -/
theorem roi_ref_len (env : Env) (d : pileup_data_t) (id start stop : Nat) (hl : Loaded env d)
    (hL : (env.fai_fetch id).length < 2147483648) :
    uint32_of_int (load_chromosome env (roi_reset (sscanf_store d start stop)) id).ref_len
      = (env.fai_fetch id).length := by
  have hl' : Loaded env (roi_reset (sscanf_store d start stop)) := by
    rcases hl with hl | ⟨id', e1, e2, e3, e4⟩
    · left; exact hl
    · right; exact ⟨id', e1, e2, e3, e4⟩
  rw [(load_chromosome_loaded env _ id hl').2.2.1]
  unfold uint32_of_int
  omega

/-- The pileups of an ROI keep its interval. -/
theorem run_pileups_interval (cols1 cols2 : List Column) (A : pileup_data_t) :
    (run_pileup2 cols2 (run_pileup1 cols1 A)).beg = A.beg ∧
    (run_pileup2 cols2 (run_pileup1 cols1 A)).end_ = A.end_ := by
  have hs := ref_fields_of_static _ _ (run_pileup2_static cols2 (run_pileup1 cols1 A))
  have h1 := run_pileup1_eq cols1 A
  constructor
  · rw [hs.2.2.2.1, h1]
  · rw [hs.2.2.2.2.1, h1]

/-- C11: edge-ROI conversion. An ROI record with 1-based inclusive bounds
`1 ≤ start ≤ stop` (32-bit values) on a chromosome of length `ref_len` (an
`int`), read at any point of a run, passes the validity check and is processed
with `beg = start - 1`, except that `beg = 1` when `start = 1`, and with `end`
equal to `stop`, except that it is `stop - 1` when `stop = ref_len`; the
pileups keep that interval. -/
theorem edge_roi_conversion (env : Env) (q n t : Int) (types : List Char)
    (heap : Nat → List Char) (pre : List RoiInput) (r : RoiInput) (id start stop : Nat)
    (h1 : 1 ≤ start) (h2 : start ≤ stop) (h3 : stop < 4294967296)
    (hL : (env.fai_fetch id).length < 2147483648) :
    ¬ (sscanf_store (main_loop env pre (main_config q n t types heap)).data start stop).beg
        > (sscanf_store (main_loop env pre (main_config q n t types heap)).data start stop).end_ ∧
    (roi_prepare env
        (sscanf_store (main_loop env pre (main_config q n t types heap)).data start stop) id).beg
      = (if start = 1 then 1 else start - 1) ∧
    (roi_prepare env
        (sscanf_store (main_loop env pre (main_config q n t types heap)).data start stop) id).end_
      = (if stop = (env.fai_fetch id).length then stop - 1 else stop) ∧
    (roi_process env
        (sscanf_store (main_loop env pre (main_config q n t types heap)).data start stop) id r).beg
      = (if start = 1 then 1 else start - 1) ∧
    (roi_process env
        (sscanf_store (main_loop env pre (main_config q n t types heap)).data start stop) id r).end_
      = (if stop = (env.fai_fetch id).length then stop - 1 else stop) := by
  have hcfg := main_config_facts q n t types heap
  have hinv := main_loop_inv env (main_config q n t types heap) pre _
    (loopInv_cfg env (main_config q n t types heap) hcfg.1)
  generalize (main_loop env pre (main_config q n t types heap)).data = d at hinv
  obtain ⟨x1, x2⟩ := sscanf_store_interval d start stop h2 h3
  obtain ⟨b1, b2, _⟩ := roi_interval_bounds env d id start stop h1 h2 h3
  rw [roi_ref_len env d id start stop hinv.2 hL] at b2
  obtain ⟨p1, p2⟩ := run_pileups_interval r.pileup1 r.pileup2
    (roi_prepare env (sscanf_store d start stop) id)
  refine ⟨?_, b1, b2, ?_, ?_⟩
  · rw [x1, x2]; omega
  · unfold roi_process; rw [p1]; exact b1
  · unfold roi_process; rw [p2]; exact b2

/-- C11 on a concrete run: on the 12-base `chr1` the record `1 12`, both of
whose ends are chromosome tips, is processed as `[1,11)`. -/
theorem edge_roi_conversion_witness :
    (1 ≤ 1 ∧ 1 ≤ 12 ∧ 12 < 4294967296 ∧ (demo_env.fai_fetch 0).length < 2147483648) ∧
    (roi_prepare demo_env
        (sscanf_store (main_loop demo_env []
          (main_config 20 6 8 default_bp_class_types (fun _ => []))).data 1 12) 0).beg = 1 ∧
    (roi_prepare demo_env
        (sscanf_store (main_loop demo_env []
          (main_config 20 6 8 default_bp_class_types (fun _ => []))).data 1 12) 0).end_ = 11 :=
  ⟨by decide,
    (edge_roi_conversion demo_env 20 6 8 default_bp_class_types (fun _ => []) [] (demo_roi 1 12)
      0 1 12 (by decide) (by decide) (by decide) (by decide)).2.1,
    (edge_roi_conversion demo_env 20 6 8 default_bp_class_types (fun _ => []) [] (demo_roi 1 12)
      0 1 12 (by decide) (by decide) (by decide) (by decide)).2.2.1⟩

/-- C13 fails on the code: the record `chr1 1 1` (first base of the 12-base
`chr1`) passes the validity check, its row is written, and it is processed
with `beg = 1 = end`, so that `beg < end` does not hold. -/
theorem single_base_tip_roi_empty :
    (main demo_env 20 6 8 default_bp_class_types (fun _ => []) [demo_roi 1 1]).rows.length = 1 ∧
    (roi_prepare demo_env (demo_start 1 1) 0).beg = 1 ∧
    (roi_prepare demo_env (demo_start 1 1) 0).end_ = 1 ∧
    (main demo_env 20 6 8 default_bp_class_types (fun _ => []) [demo_roi 1 1]).data.beg = 1 ∧
    (main demo_env 20 6 8 default_bp_class_types (fun _ => []) [demo_roi 1 1]).data.end_ = 1 ∧
    ¬ (roi_prepare demo_env (demo_start 1 1) 0).beg
        < (roi_prepare demo_env (demo_start 1 1) 0).end_ := by
  decide

/-- C13 (amended): an ROI record with `1 ≤ start ≤ stop` (32-bit values) on a
chromosome of length `ref_len`, read at any point of a run, is processed with
an interval `[beg,end)` that satisfies `beg < end` unless the ROI consists of
chromosome-tip bases only: `start = stop = 1`, `start = stop = ref_len`, or
the ROI `1 .. 2` of a 2-base chromosome; in those cases the tip adjustment
leaves an empty interval (`end ≤ beg ≤ end + 1`). -/
theorem roi_interval_nonempty (env : Env) (q n t : Int) (types : List Char)
    (heap : Nat → List Char) (pre : List RoiInput) (id start stop : Nat)
    (h1 : 1 ≤ start) (h2 : start ≤ stop) (h3 : stop < 4294967296)
    (hL : (env.fai_fetch id).length < 2147483648) :
    ((roi_prepare env
        (sscanf_store (main_loop env pre (main_config q n t types heap)).data start stop) id).beg
      < (roi_prepare env
        (sscanf_store (main_loop env pre (main_config q n t types heap)).data start stop) id).end_
      ↔ ¬ (start = stop ∧ (start = 1 ∨ stop = (env.fai_fetch id).length)) ∧
        ¬ (start = 1 ∧ stop = 2 ∧ (env.fai_fetch id).length = 2)) ∧
    (roi_prepare env
        (sscanf_store (main_loop env pre (main_config q n t types heap)).data start stop) id).beg
      ≤ (roi_prepare env
        (sscanf_store (main_loop env pre (main_config q n t types heap)).data start stop) id).end_
          + 1 := by
  have hcfg := main_config_facts q n t types heap
  have hinv := main_loop_inv env (main_config q n t types heap) pre _
    (loopInv_cfg env (main_config q n t types heap) hcfg.1)
  generalize (main_loop env pre (main_config q n t types heap)).data = d at hinv
  obtain ⟨b1, b2, _⟩ := roi_interval_bounds env d id start stop h1 h2 h3
  rw [roi_ref_len env d id start stop hinv.2 hL] at b2
  rw [b1, b2]
  constructor
  · split_ifs <;> omega
  · split_ifs <;> omega

/-- C13 (amended) on a concrete run: the record `2 11` of the 12-base `chr1`
is processed with a non-empty interval. -/
theorem roi_interval_nonempty_witness :
    (1 ≤ 2 ∧ 2 ≤ 11 ∧ 11 < 4294967296 ∧ (demo_env.fai_fetch 0).length < 2147483648) ∧
    (roi_prepare demo_env
        (sscanf_store (main_loop demo_env []
          (main_config 20 6 8 default_bp_class_types (fun _ => []))).data 2 11) 0).beg
      < (roi_prepare demo_env
        (sscanf_store (main_loop demo_env []
          (main_config 20 6 8 default_bp_class_types (fun _ => []))).data 2 11) 0).end_ :=
  ⟨by decide,
    ((roi_interval_nonempty demo_env 20 6 8 default_bp_class_types (fun _ => []) [] 0 2 11
      (by decide) (by decide) (by decide) (by decide)).1).mpr (by decide)⟩

/-- C20: mask indexing in bounds. `bases = end - beg` is computed after the
decrement of `beg` and before the tip adjustment; for an ROI record with
`1 ≤ start ≤ stop` (32-bit values), read in any state, it is
`stop - start + 1`, and every position `p` that passes the bounds check
`beg ≤ p < end` of the adjusted interval, which both pileups keep, has a mask
index `p - beg` below `bases`. -/
theorem mask_index_in_bounds (env : Env) (d : pileup_data_t) (id start stop : Nat)
    (cols1 cols2 : List Column) (p : Nat)
    (h1 : 1 ≤ start) (h2 : start ≤ stop) (h3 : stop < 4294967296)
    (hp : (run_pileup2 cols2 (run_pileup1 cols1
            (roi_prepare env (sscanf_store d start stop) id))).beg ≤ p ∧
          p < (run_pileup2 cols2 (run_pileup1 cols1
            (roi_prepare env (sscanf_store d start stop) id))).end_) :
    roi_bases (sscanf_store d start stop) = stop + 1 - start ∧
    (run_pileup2 cols2 (run_pileup1 cols1
        (roi_prepare env (sscanf_store d start stop) id))).beg
      = (roi_prepare env (sscanf_store d start stop) id).beg ∧
    (run_pileup2 cols2 (run_pileup1 cols1
        (roi_prepare env (sscanf_store d start stop) id))).end_
      = (roi_prepare env (sscanf_store d start stop) id).end_ ∧
    p - (run_pileup2 cols2 (run_pileup1 cols1
        (roi_prepare env (sscanf_store d start stop) id))).beg
      < roi_bases (sscanf_store d start stop) := by
  obtain ⟨b1, b2, b3⟩ := roi_interval_bounds env d id start stop h1 h2 h3
  obtain ⟨p1, p2⟩ := run_pileups_interval cols1 cols2
    (roi_prepare env (sscanf_store d start stop) id)
  rw [p1, p2] at hp
  refine ⟨b3, p1, p2, ?_⟩
  rw [p1, b3]
  rw [b1, b2] at hp
  rw [b1]
  obtain ⟨hp1, hp2⟩ := hp
  split_ifs at hp1 hp2 ⊢ <;> omega

/-- C20 on a concrete state: the record `1 12` of the 12-base `chr1`, processed
as `[1,11)` with a mask of 12 entries, at position 10. -/
theorem mask_index_in_bounds_witness :
    (1 ≤ 1 ∧ 1 ≤ 12 ∧ 12 < 4294967296) ∧
    ((run_pileup2 [] (run_pileup1 []
        (roi_prepare demo_env
          (sscanf_store (main_config 20 6 8 default_bp_class_types (fun _ => [])) 1 12) 0))).beg
        ≤ 10 ∧
      10 < (run_pileup2 [] (run_pileup1 []
        (roi_prepare demo_env
          (sscanf_store (main_config 20 6 8 default_bp_class_types (fun _ => [])) 1 12)
            0))).end_) ∧
    10 - (run_pileup2 [] (run_pileup1 []
        (roi_prepare demo_env
          (sscanf_store (main_config 20 6 8 default_bp_class_types (fun _ => [])) 1 12) 0))).beg
      < roi_bases (sscanf_store (main_config 20 6 8 default_bp_class_types (fun _ => [])) 1 12) :=
  ⟨by decide, by decide,
    (mask_index_in_bounds demo_env (main_config 20 6 8 default_bp_class_types (fun _ => []))
      0 1 12 [] [] 10 (by decide) (by decide) (by decide) (by decide)).2.2.2⟩

/-! ## Class patterns are not validated; neighbours at the chromosome end -/

/-- C12 fails on the code: the class list `"ACGT"` (one pattern of length 4) is
accepted; `main_config` stores the pattern with length 4, the ROI `2 11` of
`chr1` is processed under it, its row and the totals row are written and the
run returns 0. -/
theorem long_pattern_reaches_processing :
    (main_config 20 6 8 ['A', 'C', 'G', 'T'] (fun _ => [])).bp_class_number = 1 ∧
    (main_config 20 6 8 ['A', 'C', 'G', 'T'] (fun _ => [])).bp_class_lengths 0 = 4 ∧
    (main demo_env 20 6 8 ['A', 'C', 'G', 'T'] (fun _ => []) [demo_roi 2 11]).status = 0 ∧
    (main demo_env 20 6 8 ['A', 'C', 'G', 'T'] (fun _ => []) [demo_roi 2 11]).rows.length = 1 ∧
    (main demo_env 20 6 8 ['A', 'C', 'G', 'T'] (fun _ => [])
      [demo_roi 2 11]).data.bp_class_lengths 0 = 4 ∧
    (main demo_env 20 6 8 ['A', 'C', 'G', 'T'] (fun _ => []) [demo_roi 2 11]).data.covd_bases
      = 10 := by
  decide

/-- C12 (amended): class patterns are not validated. For a class list of
fewer than 100 non-empty comma-free patterns of at most 10 characters (what
the buffers hold), whatever the lengths of the patterns are, `main_config`
configures one class per pattern, stored upper-cased with its own length
(the counts stay within the arrays); the
ROI loop runs under that configuration and leaves it unchanged; and `getClass`
applies the first-character/third-character rule to every pattern whose length
is not 2, here stated for the patterns of length 3 or more. -/
theorem class_patterns_not_validated (env : Env) (q n t : Int) (ps : List (List Char))
    (heap : Nat → List Char) (rois : List RoiInput)
    (hne : ps ≠ []) (hps : ∀ p ∈ ps, p ≠ [] ∧ ',' ∉ p)
    (hcap : ps.length < 100 ∧ ∀ p ∈ ps, p.length ≤ 10) :
    (main_config q n t (List.intercalate [','] ps) heap).bp_class_number = ps.length ∧
    (main_config q n t (List.intercalate [','] ps) heap).iub < 100 ∧
    (∀ i, i < ps.length →
      (main_config q n t (List.intercalate [','] ps) heap).bp_class_lengths i
        = (ps.getD i []).length ∧
      (main_config q n t (List.intercalate [','] ps) heap).bp_class_lengths i ≤ 10 ∧
      (main_config q n t (List.intercalate [','] ps) heap).bp_class_container i
        = (ps.getD i []).map toupper) ∧
    cfg_part (main env q n t (List.intercalate [','] ps) heap rois).data
      = cfg_part (main_config q n t (List.intercalate [','] ps) heap) ∧
    (∀ (pre mid pos a m b : Char) (rest : List Char),
      getClass pre mid pos (a :: m :: b :: rest) (rest.length + 3) = true ↔
        ((mid = a ∧ pos = b) ∨ (mid = b ∧ pre = a))) := by
  have h := sep_loop_patterns ',' ps hne hps 0 0 heap
  have hN : (main_config q n t (List.intercalate [','] ps) heap).bp_class_number = ps.length := by
    simpa [main_config, separateString] using h.1
  have hI : (main_config q n t (List.intercalate [','] ps) heap).iub < 100 := by
    rw [(main_config_facts q n t _ heap).2.1, hN]
    exact hcap.1
  refine ⟨hN, hI, ?_, ?_, ?_⟩
  · intro i hi
    have hc := h.2 i
    rw [if_pos ⟨Nat.zero_le i, by omega⟩, Nat.sub_zero] at hc
    have hlen : (main_config q n t (List.intercalate [','] ps) heap).bp_class_lengths i
        = (ps.getD i []).length := by
      simp only [main_config, separateString]
      rw [h.1, Nat.zero_add, if_pos hi, hc]
    refine ⟨hlen, ?_, ?_⟩
    · rw [hlen]
      apply hcap.2
      rw [List.getD_eq_getElem _ _ hi]
      exact List.getElem_mem _
    · simp only [main_config, separateString]
      rw [h.1, Nat.zero_add, if_pos hi, hc]
  · rw [main_data]
    exact (main_loop_inv env _ rois _
      (loopInv_cfg env _ (main_config_facts q n t _ heap).1)).1
  · intro pre mid pos a m b rest
    have hl : rest.length + 3 ≠ 2 := by omega
    simp [getClass, hl]

/-- C12 (amended) on a concrete class list: `"ACGT,TC"`, a pattern of length 4
and one of length 2. -/
theorem class_patterns_not_validated_witness :
    ([['A', 'C', 'G', 'T'], ['T', 'C']] ≠ [] ∧
      (∀ p ∈ [['A', 'C', 'G', 'T'], ['T', 'C']], p ≠ [] ∧ ',' ∉ p) ∧
      ([['A', 'C', 'G', 'T'], ['T', 'C']].length < 100 ∧
        ∀ p ∈ [['A', 'C', 'G', 'T'], ['T', 'C']], p.length ≤ 10)) ∧
    (main_config 20 6 8 (List.intercalate [','] [['A', 'C', 'G', 'T'], ['T', 'C']])
      (fun _ => [])).bp_class_number = 2 :=
  ⟨⟨by decide, by decide, by decide⟩,
    (class_patterns_not_validated demo_env 20 6 8 [['A', 'C', 'G', 'T'], ['T', 'C']]
      (fun _ => []) [] (by decide) (by decide) (by decide)).1⟩

/-- The neighbours of every position of the adjusted interval lie inside the
chromosome when the ROI does not extend beyond the chromosome end: for a
record `1 ≤ start ≤ stop ≤ ref_len` read in a loop state, `beg ≤ p < end`
gives `1 ≤ p` and `p + 1 < ref_len`. -/
theorem neighbours_inside (env : Env) (d : pileup_data_t) (id start stop p : Nat)
    (hl : Loaded env d) (h1 : 1 ≤ start) (h2 : start ≤ stop)
    (h3 : stop ≤ (env.fai_fetch id).length)
    (hL : (env.fai_fetch id).length < 2147483648)
    (hp1 : (roi_prepare env (sscanf_store d start stop) id).beg ≤ p)
    (hp2 : p < (roi_prepare env (sscanf_store d start stop) id).end_) :
    1 ≤ p ∧ p + 1 < (env.fai_fetch id).length := by
  obtain ⟨b1, b2, _⟩ := roi_interval_bounds env d id start stop h1 h2 (by omega)
  rw [roi_ref_len env d id start stop hl hL] at b2
  rw [b1] at hp1
  rw [b2] at hp2
  split_ifs at hp1 hp2 <;> omega

/-- C14 fails on the code for an ROI that extends beyond the chromosome end:
the record `chr1 5 20` on the 12-base `chr1` passes the validity check and is
processed with the interval `[4,20)`, because `end` is moved only when it is
equal to `ref_len`; the last position 11 of the chromosome passes the bounds
check and both depth gates, 11 + 1 is not below `ref_len = 12`, and the next
base that the classification reads at index 12 is the terminator of the
sequence, not a base of the chromosome. -/
theorem neighbour_beyond_chromosome_end :
    (main demo_env 20 6 8 default_bp_class_types (fun _ => []) [demo_roi 5 20]).rows.length = 1 ∧
    (roi_prepare demo_env (demo_start 5 20) 0).ref_len = 12 ∧
    (roi_prepare demo_env (demo_start 5 20) 0).beg = 4 ∧
    (roi_prepare demo_env (demo_start 5 20) 0).end_ = 20 ∧
    passes2 (run_pileup1 (demo_roi 5 20).pileup1 (roi_prepare demo_env (demo_start 5 20) 0))
      (uniform_column 10 30 11) = true ∧
    ¬ (11 + 1 < (demo_env.fai_fetch 0).length) ∧
    inc32 11 = 12 ∧
    ref_at (roi_prepare demo_env (demo_start 5 20) 0) (inc32 11) = NUL ∧
    (main demo_env 20 6 8 default_bp_class_types (fun _ => [])
      [demo_roi 5 20]).data.covd_bases = 8 := by
  decide

/-! ## `separateString` on arbitrary strings -/

/-- The fields are non-empty and free of the delimiter. -/
theorem fields_from_spec (c : Char) (s buf : List Char) (hb : c ∉ buf) :
    ∀ f ∈ fields_from c buf s, f ≠ [] ∧ c ∉ f := by
  induction s generalizing buf with
  | nil =>
    intro f hf
    unfold fields_from at hf
    by_cases h : buf = []
    · rw [if_pos h] at hf; simp at hf
    · rw [if_neg h] at hf
      simp only [List.mem_singleton] at hf
      rw [hf]; exact ⟨h, hb⟩
  | cons ch rest ih =>
    intro f hf
    unfold fields_from at hf
    by_cases h1 : ch = c
    · rw [if_pos h1] at hf
      by_cases h : buf = []
      · rw [if_pos h] at hf
        exact ih [] (by simp) f hf
      · rw [if_neg h] at hf
        rcases List.mem_cons.mp hf with e | e
        · rw [e]; exact ⟨h, hb⟩
        · exact ih [] (by simp) f e
    · rw [if_neg h1] at hf
      apply ih (buf ++ [ch]) _ f hf
      intro hm
      rcases List.mem_append.mp hm with e | e
      · exact hb e
      · simp only [List.mem_singleton] at e
        exact h1 e.symm

/-- What the tokenizer loop does on an arbitrary string, started with an
empty buffer whenever the string is empty or starts with the delimiter: it
counts and stores, in consecutive slots from `y` on, the tokens listed by
`stored_tokens`. -/
theorem sep_loop_fields (c : Char) (s : List Char) (st : sep_state)
    (hb : (s = [] ∨ s.head? = some c) → st.buff1 = []) :
    (sep_loop c s st).tokenNum = st.tokenNum + (stored_tokens c st.buff1 s).length ∧
    ∀ i, (sep_loop c s st).container i
      = if st.y ≤ i ∧ i < st.y + (stored_tokens c st.buff1 s).length
        then (stored_tokens c st.buff1 s).getD (i - st.y) [] else st.container i := by
  induction s generalizing st with
  | nil =>
    have hbuf := hb (Or.inl rfl)
    have ht : stored_tokens c st.buff1 [] = [] := by
      simp [stored_tokens, fields_from, hbuf]
    rw [ht]
    refine ⟨by simp [sep_loop], ?_⟩
    intro i
    have : ¬ (st.y ≤ i ∧ i < st.y + 0) := by omega
    simp only [List.length_nil]
    rw [if_neg this]
    simp [sep_loop]
  | cons ch s ih =>
    cases s with
    | nil =>
      by_cases h1 : ch = c
      · have hbuf := hb (Or.inr (by simp [h1]))
        have ht : stored_tokens c st.buff1 [ch] = [[c]] := by
          simp [stored_tokens, fields_from, hbuf, h1]
        rw [ht]
        constructor
        · simp [sep_loop]
        · intro i
          by_cases hi : i = st.y
          · simp [sep_loop, arr_set, hi, hbuf, h1]
          · have : ¬ (st.y ≤ i ∧ i < st.y + 1) := by omega
            simp [sep_loop, arr_set, hi, this]
      · have hne : ¬ (some ch = some c) := by simpa using h1
        have ht : stored_tokens c st.buff1 [ch] = [st.buff1 ++ [ch]] := by
          simp [stored_tokens, fields_from, h1]
        rw [ht]
        constructor
        · simp [sep_loop]
        · intro i
          by_cases hi : i = st.y
          · simp [sep_loop, arr_set, hi]
          · have : ¬ (st.y ≤ i ∧ i < st.y + 1) := by omega
            simp [sep_loop, arr_set, hi, this]
    | cons nxt rest =>
      have hlast : (ch :: nxt :: rest).getLast? = (nxt :: rest).getLast? := by
        simp [List.getLast?_cons_cons]
      by_cases h1 : ch = c
      · have hbuf := hb (Or.inr (by simp [h1]))
        have hstep : sep_loop c (ch :: nxt :: rest) st = sep_loop c (nxt :: rest) st := by
          simp [sep_loop, h1]
        have ht : stored_tokens c st.buff1 (ch :: nxt :: rest)
            = stored_tokens c st.buff1 (nxt :: rest) := by
          unfold stored_tokens
          rw [hlast, hbuf]
          congr 1
          rw [fields_from, if_pos h1, if_pos rfl]
        rw [hstep, ht]
        exact ih st (fun _ => hbuf)
      · by_cases h2 : nxt = c
        · have hstep : sep_loop c (ch :: nxt :: rest) st
              = sep_loop c (nxt :: rest)
                  { buff1 := [], y := st.y + 1, tokenNum := st.tokenNum + 1,
                    container := arr_set st.container st.y (st.buff1 ++ [ch]) } := by
            simp [sep_loop, h1, h2]
          have ht : stored_tokens c st.buff1 (ch :: nxt :: rest)
              = (st.buff1 ++ [ch]) :: stored_tokens c [] (nxt :: rest) := by
            unfold stored_tokens
            rw [hlast]
            rw [fields_from, if_neg h1, h2, fields_from, if_pos rfl,
              if_neg (by simp), fields_from, if_pos rfl, if_pos rfl]
            rfl
          rw [hstep, ht]
          obtain ⟨i1, i2⟩ := ih
            { buff1 := [], y := st.y + 1, tokenNum := st.tokenNum + 1,
              container := arr_set st.container st.y (st.buff1 ++ [ch]) } (fun _ => rfl)
          constructor
          · rw [i1]
            simp only [List.length_cons]
            omega
          · intro i
            rw [i2 i]
            simp only [List.length_cons]
            by_cases ha : st.y + 1 ≤ i ∧ i < st.y + 1 + (stored_tokens c [] (nxt :: rest)).length
            · have hb2 : st.y ≤ i ∧ i < st.y + ((stored_tokens c [] (nxt :: rest)).length + 1) := by
                omega
              rw [if_pos ha, if_pos hb2]
              obtain ⟨k, hk⟩ : ∃ k, i - st.y = k + 1 := ⟨i - st.y - 1, by omega⟩
              rw [hk, List.getD_cons_succ]
              congr 1
              omega
            · rw [if_neg ha]
              by_cases hi : i = st.y
              · have hb2 : st.y ≤ i ∧ i < st.y + ((stored_tokens c [] (nxt :: rest)).length + 1) := by
                  omega
                rw [if_pos hb2, hi, Nat.sub_self]
                simp [arr_set]
              · have hb2 : ¬ (st.y ≤ i ∧
                    i < st.y + ((stored_tokens c [] (nxt :: rest)).length + 1)) := by omega
                rw [if_neg hb2]
                simp [arr_set, hi]
        · have hstep : sep_loop c (ch :: nxt :: rest) st
              = sep_loop c (nxt :: rest) { st with buff1 := st.buff1 ++ [ch] } := by
            simp [sep_loop, h1, h2]
          have ht : stored_tokens c st.buff1 (ch :: nxt :: rest)
              = stored_tokens c (st.buff1 ++ [ch]) (nxt :: rest) := by
            unfold stored_tokens
            rw [hlast]
            congr 1
            rw [fields_from, if_neg h1]
          rw [hstep, ht]
          have hb3 : (nxt :: rest = [] ∨ (nxt :: rest).head? = some c) →
              ({ st with buff1 := st.buff1 ++ [ch] } : sep_state).buff1 = [] := by
            intro h
            rcases h with h | h
            · exact absurd h (by simp)
            · exfalso
              apply h2
              simpa using h
          exact ih { st with buff1 := st.buff1 ++ [ch] } hb3

/-- What `separateString` returns and stores for an arbitrary string: the
tokens of `stored_tokens`, that is the non-empty delimiter-free fields in
order, followed by a token made of the delimiter when the string ends with
the delimiter. For a string that does not end with the delimiter the count is
the number of fields and the stored tokens are exactly the fields. -/
theorem separateString_fields (s : List Char) (c : Char) (container : Nat → List Char) :
    (separateString s c container).1 = (stored_tokens c [] s).length ∧
    (∀ i, i < (stored_tokens c [] s).length →
      (separateString s c container).2 i = (stored_tokens c [] s).getD i []) ∧
    (∀ i, (stored_tokens c [] s).length ≤ i → (separateString s c container).2 i = container i) ∧
    (s.getLast? ≠ some c → stored_tokens c [] s = fields_from c [] s) := by
  have h := sep_loop_fields c s { buff1 := [], y := 0, tokenNum := 0, container := container }
    (fun _ => rfl)
  refine ⟨by simpa [separateString] using h.1, ?_, ?_, ?_⟩
  · intro i hi
    have := h.2 i
    simpa [separateString, hi] using this
  · intro i hi
    have := h.2 i
    have hn : ¬ i < (stored_tokens c [] s).length := by omega
    simpa [separateString, hn] using this
  · intro hl
    unfold stored_tokens
    rw [if_neg hl, List.append_nil]

/-- C19 fails on the code for a string that ends with the delimiter: on
`"AT,CG,"` the non-empty delimiter-free fields are `AT` and `CG`, but
`separateString` returns 3 and stores the delimiter itself as a third token,
because the branch for the last character of the string does not test whether
that character is the delimiter; on the delimiter alone it returns 1 instead
of 0 and stores the delimiter. -/
theorem trailing_delimiter_token :
    ((['A', 'T', ',', 'C', 'G', ','].splitOn ',').filter (fun f => !f.isEmpty))
      = [['A', 'T'], ['C', 'G']] ∧
    fields_from ',' [] ['A', 'T', ',', 'C', 'G', ','] = [['A', 'T'], ['C', 'G']] ∧
    (separateString ['A', 'T', ',', 'C', 'G', ','] ',' (fun _ => [])).1 = 3 ∧
    (List.range 3).map (separateString ['A', 'T', ',', 'C', 'G', ','] ',' (fun _ => [])).2
      = [['A', 'T'], ['C', 'G'], [',']] ∧
    ',' ∈ (separateString ['A', 'T', ',', 'C', 'G', ','] ',' (fun _ => [])).2 2 ∧
    (main_config 20 6 8 ['A', 'T', ',', 'C', 'G', ','] (fun _ => [])).bp_class_number = 3 ∧
    fields_from ',' [] [','] = [] ∧
    (separateString [','] ',' (fun _ => [])).1 = 1 ∧
    (separateString [','] ',' (fun _ => [])).2 0 = [','] := by
  decide

/-! ## The thresholds across ROI records -/

/-- What the read of a record does to the thresholds: `min_mapq` receives the
high word of `stop`, which is 0 for every `stop` below `2^32`, whatever was
configured; `min_depth_bam1` and `min_depth_bam2` are kept. -/
theorem sscanf_store_thresholds (d : pileup_data_t) (start stop : Nat) :
    (sscanf_store d start stop).min_mapq = toInt32 ((stop / U32) % U32) ∧
    (stop < 4294967296 → (sscanf_store d start stop).min_mapq = 0) ∧
    (sscanf_store d start stop).min_depth_bam1 = d.min_depth_bam1 ∧
    (sscanf_store d start stop).min_depth_bam2 = d.min_depth_bam2 := by
  refine ⟨by simp only [sscanf_store], ?_, by simp only [sscanf_store],
    by simp only [sscanf_store]⟩
  intro h
  have h0 : stop / 4294967296 = 0 := by omega
  simp only [sscanf_store, U32, h0]
  decide

/-- The depth thresholds keep their configured values through a whole run. -/
theorem main_depth_thresholds (env : Env) (q n t : Int) (types : List Char)
    (heap : Nat → List Char) (rois : List RoiInput) :
    (main env q n t types heap rois).data.min_depth_bam1 = n ∧
    (main env q n t types heap rois).data.min_depth_bam2 = t := by
  rw [main_data]
  have hinv := (main_loop_inv env _ rois _
    (loopInv_cfg env _ (main_config_facts q n t types heap).1)).1
  have e1 := congrArg pileup_data_t.min_depth_bam1 hinv
  have e2 := congrArg pileup_data_t.min_depth_bam2 hinv
  exact ⟨e1, e2⟩

/-- C21 fails on the code: with the configured mapping-quality threshold 20,
the read of the record `chr1 2 11 gene` leaves `min_mapq = 0`, because the
8-byte store of `stop` at `&data.end` runs over the next member; the depth
thresholds 6 and 8 are kept. The ROI is then gated with `min_mapq = 0`: its
reads all have mapping quality 10, so that no column reaches a depth of 6
under the configured threshold, but all 10 positions of the ROI are reported
as covered. -/
theorem sscanf_clobbers_min_mapq :
    (main_config 20 6 8 default_bp_class_types (fun _ => [])).min_mapq = 20 ∧
    (sscanf_store (main_config 20 6 8 default_bp_class_types (fun _ => [])) 2 11).min_mapq = 0 ∧
    (sscanf_store (main_config 20 6 8 default_bp_class_types (fun _ => [])) 2 11).min_depth_bam1
      = 6 ∧
    (sscanf_store (main_config 20 6 8 default_bp_class_types (fun _ => [])) 2 11).min_depth_bam2
      = 8 ∧
    mapq_count (uniform_column 10 10 5).pl 20 = 0 ∧
    mapq_count (uniform_column 10 10 5).pl 0 = 10 ∧
    (main demo_env 20 6 8 default_bp_class_types (fun _ => []) [lowq_roi]).rows.map
      (fun row => row.covd_bases) = [10] ∧
    (main demo_env 20 6 8 default_bp_class_types (fun _ => []) [lowq_roi]).data.min_mapq = 0 := by
  decide

end CalcRoiCovg
